import Mathlib

/-!
# DotMis: a shallow embedding of `DotMis.c`

C strings are modelled as `List Char` (the characters before the terminating
NUL, so the empty list is the string whose first character is NUL); a cursor
`char **s` is the remaining suffix of the text.  `int` values are `Int`.  The
linked list `program` is a `List Line`, and a `Line *` pointing into it is the
suffix of the list that starts at that node (`NULL` is `[]`).

`long double` is not fixed: every definition that computes with it takes the
operations as a `LongDouble α` record, so that what is proved holds for any
interpretation of the arithmetic.
-/

namespace DotMis

/-! ## Characters and libc helpers -/

/-- The libc `isspace` in the C locale. -/
def isspace (c : Char) : Bool :=
  c == ' ' || c == '\t' || c == '\n' || c == '\x0b' || c == '\x0c' || c == '\r'

/-- The libc `isdigit`. -/
def isdigit (c : Char) : Bool := '0' ≤ c && c ≤ '9'

/-- The libc `isupper` in the C locale. -/
def isupper (c : Char) : Bool := 'A' ≤ c && c ≤ 'Z'

/-- The libc `islower` in the C locale. -/
def islower (c : Char) : Bool := 'a' ≤ c && c ≤ 'z'

/-- The libc `isalpha` in the C locale. -/
def isalpha (c : Char) : Bool := isupper c || islower c

/-- The libc `toupper` in the C locale. -/
def toupper (c : Char) : Char := if islower c then Char.ofNat (c.toNat - 32) else c

/-- The libc `tolower` in the C locale. -/
def tolower (c : Char) : Char := if isupper c then Char.ofNat (c.toNat + 32) else c

/-- The function `skipWhitespace(&s)`: advance the cursor past leading white space. -/
def skipWhitespace : List Char → List Char
  | [] => []
  | c :: cs => if isspace c then skipWhitespace cs else c :: cs

/-- The test `strncmp(s, kw, strlen(kw)) == 0`: the text starts with `kw`.  The
keyword comes first. -/
def strncmpEq : List Char → List Char → Bool
  | [], _ => true
  | _ :: _, [] => false
  | k :: ks, c :: cs => c == k && strncmpEq ks cs

/-- The test `strncasecmp(s, kw, strlen(kw)) == 0`: the text starts with `kw`,
letters compared without regard to case.  The keyword comes first. -/
def strncasecmpEq : List Char → List Char → Bool
  | [], _ => true
  | _ :: _, [] => false
  | k :: ks, c :: cs => tolower c == tolower k && strncasecmpEq ks cs

/-- Value of a decimal digit character. -/
def digitVal (c : Char) : Nat := c.toNat - '0'.toNat

/-- Accumulate the leading decimal digits of the text onto `acc`. -/
def digitsValue (acc : Nat) : List Char → Nat
  | [] => acc
  | c :: cs => if isdigit c then digitsValue (acc * 10 + digitVal c) cs else acc

/-- Truncation of a `long` to `int` (two's complement, 32 bits). -/
def wrapInt32 (z : Int) : Int := (z + 2147483648) % 4294967296 - 2147483648

/-- Saturation of `strtol` at `LONG_MIN`/`LONG_MAX` (64 bits). -/
def clampLong (z : Int) : Int :=
  if z > 9223372036854775807 then 9223372036854775807
  else if z < -9223372036854775808 then -9223372036854775808 else z

/-- The libc `atoi`, as `(int) strtol(s, NULL, 10)`: leading white space, an
optional sign, then decimal digits; 0 when there is no digit. -/
def atoi (s : List Char) : Int :=
  match skipWhitespace s with
  | '-' :: cs => wrapInt32 (clampLong (-(digitsValue 0 cs : Int)))
  | '+' :: cs => wrapInt32 (clampLong (digitsValue 0 cs : Int))
  | cs => wrapInt32 (clampLong (digitsValue 0 cs : Int))

/-! ## Program Store -/

/-- A node of the linked list `program` (without its `next` pointer). -/
structure Line where
  number : Int
  text : List Char
  deriving DecidableEq, Repr

/-- The function `addProgramLine(num, text)`: walk to the first node whose number is not
below `num`; replace its text if the number is `num`, else link a new node in
front of it. -/
def addProgramLine (num : Int) (text : List Char) : List Line → List Line
  | [] => [⟨num, text⟩]
  | curr :: rest =>
    if curr.number < num then curr :: addProgramLine num text rest
    else if curr.number = num then { curr with text := text } :: rest
    else ⟨num, text⟩ :: curr :: rest

/-- The function `deleteProgramLine(num)`: unlink the first node whose number is `num`. -/
def deleteProgramLine (num : Int) : List Line → List Line
  | [] => []
  | curr :: rest =>
    if curr.number ≠ num then curr :: deleteProgramLine num rest else rest

/-- The function `findLine(num)`: the first node whose number is `num`, or `NULL`. -/
def findLine (num : Int) : List Line → List Line
  | [] => []
  | curr :: rest => if curr.number = num then curr :: rest else findLine num rest

/-- The function `getNextLine(current)`: `current ? current->next : NULL`. -/
def getNextLine (current : List Line) : List Line := current.tail

/-- The store is ordered strictly ascending by line number. -/
def Ascending (p : List Line) : Prop := List.Pairwise (fun a b => a.number < b.number) p

instance (p : List Line) : Decidable (Ascending p) := by
  unfold Ascending; infer_instance

/-! ## Numeric literals (`strtold`) and the arithmetic of `long double` -/

/-- The libc `isxdigit`. -/
def isxdigit (c : Char) : Bool :=
  isdigit c || ('a' ≤ c && c ≤ 'f') || ('A' ≤ c && c ≤ 'F')

/-- Characters allowed inside the parentheses of `nan(...)`. -/
def isNChar (c : Char) : Bool := isdigit c || isalpha c || c == '_'

/-- The subject sequence that `strtold` converted: sign, digits of the integer
and fraction parts, and the optional exponent (its sign and digits). -/
inductive NumLit where
  | dec (neg : Bool) (ip fp : List Char) (exp : Option (Bool × List Char))
  | hex (neg : Bool) (ip fp : List Char) (exp : Option (Bool × List Char))
  | inf (neg : Bool)
  | nan (neg : Bool)
  deriving DecidableEq, Repr

/-- Digits with an optional radix point; at least one digit is required.
Returns the integer digits, the fraction digits and the rest of the text. -/
def scanMantissa (isd : Char → Bool) (s : List Char) :
    Option (List Char × List Char × List Char) :=
  match s.dropWhile isd with
  | '.' :: t =>
    if (s.takeWhile isd).isEmpty && (t.takeWhile isd).isEmpty then none
    else some (s.takeWhile isd, t.takeWhile isd, t.dropWhile isd)
  | r => if (s.takeWhile isd).isEmpty then none else some (s.takeWhile isd, [], r)

/-- The sign of an exponent and the text after it. -/
def scanSign : List Char → Bool × List Char
  | '-' :: u => (true, u)
  | '+' :: u => (false, u)
  | u => (false, u)

/-- An optional exponent part: the marker (`e` or `p`, either case), an
optional sign and at least one decimal digit; otherwise nothing is consumed. -/
def scanExponent (marker : Char) (s : List Char) :
    Option (Bool × List Char) × List Char :=
  match s with
  | [] => (none, [])
  | e :: t =>
    if tolower e == marker then
      if ((scanSign t).2.takeWhile isdigit).isEmpty then (none, s)
      else (some ((scanSign t).1, (scanSign t).2.takeWhile isdigit),
            (scanSign t).2.dropWhile isdigit)
    else (none, s)

/-- A decimal floating constant at the cursor. -/
def scanDecimal (neg : Bool) (s : List Char) : Option (NumLit × List Char) :=
  match scanMantissa isdigit s with
  | none => none
  | some (ip, fp, r) => some (.dec neg ip fp (scanExponent 'e' r).1, (scanExponent 'e' r).2)

/-- A hexadecimal floating constant after its `0x` prefix. -/
def scanHex (neg : Bool) (s : List Char) : Option (NumLit × List Char) :=
  match scanMantissa isxdigit s with
  | none => none
  | some (ip, fp, r) => some (.hex neg ip fp (scanExponent 'p' r).1, (scanExponent 'p' r).2)

/-- The text after `nan`: an optional parenthesised character sequence. -/
def scanNanPayload (t : List Char) : List Char :=
  match t with
  | '(' :: u =>
    match u.dropWhile isNChar with
    | ')' :: v => v
    | _ => t
  | _ => t

/-- The subject sequence after white space and sign. -/
def scanUnsigned (neg : Bool) (s : List Char) : Option (NumLit × List Char) :=
  if strncasecmpEq "infinity".toList s then some (.inf neg, s.drop 8)
  else if strncasecmpEq "inf".toList s then some (.inf neg, s.drop 3)
  else if strncasecmpEq "nan".toList s then some (.nan neg, scanNanPayload (s.drop 3))
  else if strncasecmpEq "0x".toList s then
    match scanHex neg (s.drop 2) with
    | some r => some r
    | none => scanDecimal neg s
  else scanDecimal neg s

/-- The libc `strtold(s, &end)`, syntax only: the literal that was converted
and the cursor `end` after it, or `none` when no conversion could be performed
(then `end == s` and the value is 0). -/
def strtold (s : List Char) : Option (NumLit × List Char) :=
  match skipWhitespace s with
  | '-' :: u => scanUnsigned true u
  | '+' :: u => scanUnsigned false u
  | u => scanUnsigned false u

/-- The `long double` operations the program uses.  `ofLit` is the value
`strtold` gives a literal and `erange` whether it sets `errno` for it; `fmt0`
is `printf("%.0Lf", x)`. -/
structure LongDouble (α : Type) where
  zero : α
  add : α → α → α
  sub : α → α → α
  mul : α → α → α
  div : α → α → α
  eq : α → α → Bool
  lt : α → α → Bool
  ofLit : NumLit → α
  erange : NumLit → Bool
  fmt0 : α → List Char

/-- One call of `error(msg)`: the message and the value of
`currentProgramLine` it was tagged with (0: no line tag). -/
structure Diag where
  line : Int
  msg : String
  deriving DecidableEq, Repr

/-- What a parsing function leaves behind: the value returned, the cursor, and
the errors reported on the way, oldest first. -/
structure Parsed (α : Type) where
  val : α
  rest : List Char
  errs : List Diag

/-- Index `var - 'A'` of the variable cell for a letter. -/
def varIndex (c : Char) : Nat := (toupper c).toNat - 'A'.toNat

/-! ## Expression evaluator -/

section Evaluator

variable {α : Type}

/-- The test `(*s)[0] == c`. -/
def peek (s : List Char) (c : Char) : Bool := s.head? == some c

/-- The test `isalpha((*s)[0])`. -/
def peekAlpha (s : List Char) : Bool :=
  match s with
  | [] => false
  | c :: _ => isalpha c

/-- The recovery scan after an unknown function name:
`while (*s && *s != ')') s++; if (*s == ')') s++;`. -/
def skipCall (s : List Char) : List Char :=
  if peek (s.dropWhile (fun c => c != ')')) ')' then (s.dropWhile (fun c => c != ')')).tail
  else s.dropWhile (fun c => c != ')')

/-- The identifier branch of `parseFactor`, entered with the cursor on a
letter: the value, the cursor and the errors at the point where the branch
is left (either at the early `return 0` or by falling through to the final
`skipWhitespace`, which is included).  The bound of the buffer `ident` is not
modelled: a run of letters is shorter than `MAX_LINE` in every line the
program reads. -/
def parseIdent (A : LongDouble α) (numVars : Nat → α) (line : Int) (s : List Char) :
    Parsed α :=
  if peek (skipWhitespace (s.dropWhile isalpha)) '(' then
    ⟨A.zero, skipCall (skipWhitespace (s.dropWhile isalpha)), [⟨line, "Unknown function"⟩]⟩
  else if (s.takeWhile isalpha).length = 1 then
    ⟨numVars (varIndex (s.headD 'A')),
      skipWhitespace (skipWhitespace (s.dropWhile isalpha)), []⟩
  else
    ⟨A.zero, skipWhitespace (skipWhitespace (s.dropWhile isalpha)),
      [⟨line, "Unknown identifier"⟩]⟩

/-- The numeric-literal branch of `parseFactor` with the final
`skipWhitespace`: `strtold`, an error when `errno` is set or nothing was
consumed, and the cursor moved to `end`. -/
def parseNumber (A : LongDouble α) (line : Int) (s : List Char) : Parsed α :=
  match strtold s with
  | none => ⟨A.zero, skipWhitespace s, [⟨line, "Invalid number"⟩]⟩
  | some (lit, e) =>
    ⟨A.ofLit lit, skipWhitespace e, if A.erange lit then [⟨line, "Invalid number"⟩] else []⟩

/-- The body of the loop of `parseTerm` after the right operand was read:
the new `result`, and the error reported if the divisor is 0. -/
def applyMulDiv (A : LongDouble α) (line : Int) (op : Char) (result right : α) :
    α × List Diag :=
  if op = '*' then (A.mul result right, [])
  else if A.eq right A.zero then (A.zero, [⟨line, "Division by zero"⟩])
  else (A.div result right, [])

/-- The body of the loop of `parseExpression` after the right operand was
read: the new `result`. -/
def applyAddSub (A : LongDouble α) (op : Char) (result right : α) : α :=
  if op = '+' then A.add result right else A.sub result right

mutual

/-- The function `parseFactor(&s)`.  The first `Nat` bounds the depth of calls;
`none` means the bound was reached. -/
def parseFactor (A : LongDouble α) (numVars : Nat → α) (line : Int) :
    Nat → List Char → Option (Parsed α)
  | 0, _ => none
  | fuel + 1, s =>
    if peek (skipWhitespace s) '(' then
      match parseExpression A numVars line fuel (skipWhitespace s).tail with
      | none => none
      | some r =>
        if peek (skipWhitespace r.rest) ')' then
          some ⟨r.val, skipWhitespace (skipWhitespace r.rest).tail, r.errs⟩
        else
          some ⟨r.val, skipWhitespace (skipWhitespace r.rest),
            r.errs ++ [⟨line, "Missing )"⟩]⟩
    else if peekAlpha (skipWhitespace s) then
      some (parseIdent A numVars line (skipWhitespace s))
    else
      some (parseNumber A line (skipWhitespace s))

/-- The `while` loop of `parseTerm`, entered after `skipWhitespace` with the
running `result` and the errors reported so far. -/
def termLoop (A : LongDouble α) (numVars : Nat → α) (line : Int) :
    Nat → α → List Diag → List Char → Option (Parsed α)
  | 0, _, _, _ => none
  | fuel + 1, result, errs, s =>
    if peek s '*' || peek s '/' then
      match parseFactor A numVars line fuel s.tail with
      | none => none
      | some r =>
        termLoop A numVars line fuel (applyMulDiv A line (s.headD ' ') result r.val).1
          (errs ++ r.errs ++ (applyMulDiv A line (s.headD ' ') result r.val).2)
          (skipWhitespace r.rest)
    else some ⟨result, s, errs⟩

/-- The function `parseTerm(&s)`. -/
def parseTerm (A : LongDouble α) (numVars : Nat → α) (line : Int) :
    Nat → List Char → Option (Parsed α)
  | 0, _ => none
  | fuel + 1, s =>
    match parseFactor A numVars line fuel s with
    | none => none
    | some r => termLoop A numVars line fuel r.val r.errs (skipWhitespace r.rest)

/-- The `while` loop of `parseExpression`, entered after `skipWhitespace`. -/
def exprLoop (A : LongDouble α) (numVars : Nat → α) (line : Int) :
    Nat → α → List Diag → List Char → Option (Parsed α)
  | 0, _, _, _ => none
  | fuel + 1, result, errs, s =>
    if peek s '+' || peek s '-' then
      match parseTerm A numVars line fuel s.tail with
      | none => none
      | some r =>
        exprLoop A numVars line fuel (applyAddSub A (s.headD ' ') result r.val)
          (errs ++ r.errs) (skipWhitespace r.rest)
    else some ⟨result, s, errs⟩

/-- The function `parseExpression(&s)`. -/
def parseExpression (A : LongDouble α) (numVars : Nat → α) (line : Int) :
    Nat → List Char → Option (Parsed α)
  | 0, _ => none
  | fuel + 1, s =>
    match parseTerm A numVars line fuel s with
    | none => none
    | some r => exprLoop A numVars line fuel r.val r.errs (skipWhitespace r.rest)

end

/-- A call depth that no text of the given length exhausts. -/
def exprFuel (s : List Char) : Nat := 4 * s.length + 4

/-- A call of `parseExpression(&s)` from a statement. -/
def parseExpr (A : LongDouble α) (numVars : Nat → α) (line : Int) (s : List Char) :
    Option (Parsed α) :=
  parseExpression A numVars line (exprFuel s) s

end Evaluator

/-! ## Interpreter state and statement execution -/

section Interpreter

variable {α : Type}

/-- The globals of the program together with its standard streams.
`gosubStack` lists the entries `gosubStack[0 .. gosubStackTop]`, the top one
first, so `gosubStackTop` is its length minus one.  `stdin` holds the lines
`readline` will return (none left: end of file).  `tones` records the calls of
`beepCommand`, `helps` counts the calls of `show_help_menu` (its terminal
dialogue is not modelled), `exited` is set by `exit(0)`.  `executed` is a
ghost field: the numbers of the lines whose statement `runProgram` executed,
oldest first. -/
structure State (α : Type) where
  program : List Line
  numVars : Nat → α
  strVars : Nat → Option (List Char)
  gosubStack : List Int
  currentProgramLine : Int
  stdin : List (List Char)
  stdout : List Char
  stderr : List Diag
  tones : List (Int × Int)
  helps : Nat
  exited : Bool
  executed : List Int

/-- The constant `GOSUB_STACK_SIZE`. -/
def GOSUB_STACK_SIZE : Nat := 100

/-- The constant `MAX_LINE`. -/
def MAX_LINE : Nat := 256

/-- The function `error(msg)`: one message on `stderr`, tagged with
`currentProgramLine`. -/
def State.error (st : State α) (msg : String) : State α :=
  { st with stderr := st.stderr ++ [⟨st.currentProgramLine, msg⟩] }

/-- Append the errors a parsing function reported to `stderr`. -/
def State.report (st : State α) (errs : List Diag) : State α :=
  { st with stderr := st.stderr ++ errs }

/-- Write text to `stdout`. -/
def State.print (st : State α) (text : List Char) : State α :=
  { st with stdout := st.stdout ++ text }

/-- The assignment `numVars[i] = v`. -/
def State.setNum (st : State α) (i : Nat) (v : α) : State α :=
  { st with numVars := Function.update st.numVars i v }

/-- The assignment `strVars[i] = strdup(v)` after the old value was freed. -/
def State.setStr (st : State α) (i : Nat) (v : List Char) : State α :=
  { st with strVars := Function.update st.strVars i (some v) }

/-- The state after `executeStatement` with its two out-parameters. -/
structure Outcome (α : Type) where
  st : State α
  nextLine : Int
  jumpLine : Int

/-- The copy loop of a string literal, entered after the opening quote:
`while (s[0] && s[0] != '"' && i < MAX_LINE - 1) ...; if (s[0] == '"') s++;`.
Returns the buffer and the cursor. -/
def scanQuoted (s : List Char) : List Char × List Char :=
  ((s.takeWhile (fun c => c != '"')).take (MAX_LINE - 1),
   if peek (s.drop ((s.takeWhile (fun c => c != '"')).take (MAX_LINE - 1)).length) '"' then
     (s.drop ((s.takeWhile (fun c => c != '"')).take (MAX_LINE - 1)).length).tail
   else s.drop ((s.takeWhile (fun c => c != '"')).take (MAX_LINE - 1)).length)

/-- The successor scan of `.gs`: the number of the first stored line whose
number is greater than `lineNum`, 0 if there is none. -/
def returnPoint (lineNum : Int) : List Line → Int
  | [] => 0
  | curr :: rest => if curr.number > lineNum then curr.number else returnPoint lineNum rest

/-- The body of `.let` after the keyword. -/
def execLet (A : LongDouble α) (st : State α) (s : List Char) : Option (State α) :=
  if !peekAlpha (skipWhitespace s) then
    some (st.error "[???] Expected variable after .let")
  else if peek (skipWhitespace s).tail '$' then
    -- string form
    if !peek (skipWhitespace (skipWhitespace s).tail.tail) '=' then
      some (st.error "[???] Expected '=' in .let")
    else if !peek (skipWhitespace (skipWhitespace (skipWhitespace s).tail.tail).tail) '"' then
      some (st.error "[???] Expected string literal in .let")
    else
      some (st.setStr (varIndex ((skipWhitespace s).headD 'A'))
        (scanQuoted
          (skipWhitespace (skipWhitespace (skipWhitespace s).tail.tail).tail).tail).1)
  else
    if !peek (skipWhitespace (skipWhitespace s).tail) '=' then
      some (st.error "[???] Expected '=' in .let")
    else
      match parseExpr A st.numVars st.currentProgramLine
          (skipWhitespace (skipWhitespace (skipWhitespace s).tail).tail) with
      | none => none
      | some r =>
        some ((st.report r.errs).setNum (varIndex ((skipWhitespace s).headD 'A')) r.val)

/-- One operand of `.p`, entered after `skipWhitespace` on a non-empty text:
the text printed, the errors reported and the cursor after the operand. -/
def printOperand (A : LongDouble α) (st : State α) (s : List Char) :
    Option (List Char × List Diag × List Char) :=
  if peek s '"' then
    some ((scanQuoted s.tail).1, [], (scanQuoted s.tail).2)
  else if peekAlpha s then
    if peek s.tail '$' then
      some ((st.strVars (varIndex (s.headD 'A'))).getD "(null)".toList, [], s.tail.tail)
    else if skipWhitespace s.tail = [] then
      some (A.fmt0 (st.numVars (varIndex (s.headD 'A'))), [], [])
    else
      match parseExpr A st.numVars st.currentProgramLine (skipWhitespace s.tail) with
      | none => none
      | some r => some (A.fmt0 r.val, r.errs, r.rest)
  else
    match parseExpr A st.numVars st.currentProgramLine s with
    | none => none
    | some r => some (A.fmt0 r.val, r.errs, r.rest)

/-- The `while (1)` loop of `.p`; the `Nat` bounds the number of operands. -/
def printLoop (A : LongDouble α) : Nat → State α → List Char → Option (State α)
  | 0, _, _ => none
  | fuel + 1, st, s =>
    if skipWhitespace s = [] then some st
    else
      match printOperand A st (skipWhitespace s) with
      | none => none
      | some (text, errs, rest) =>
        if peek (skipWhitespace rest) ';' then
          printLoop A fuel ((st.print text).report errs) (skipWhitespace rest).tail
        else some ((st.print text).report errs)

/-- The call `readline(prompt)`: the prompt goes to `stdout`; the result is
the next input line, or `NULL` at end of file. -/
def State.readline (st : State α) (prompt : List Char) : State α × Option (List Char) :=
  match st.stdin with
  | [] => (st.print prompt, none)
  | input :: more => ({ st.print prompt with stdin := more }, some input)

/-- The value `strtold(p, &p)` returns. -/
def strtoldValue (A : LongDouble α) (s : List Char) : α :=
  match strtold s with
  | none => A.zero
  | some (lit, _) => A.ofLit lit

/-- The body of `.in` after the keyword. -/
def execIn (A : LongDouble α) (st : State α) (s : List Char) : State α :=
  if !peekAlpha (skipWhitespace s) then
    st.error "[???] Expected variable after .in"
  else if peek (skipWhitespace s).tail '$' then
    match st.readline ("Input string for ".toList ++
        [toupper ((skipWhitespace s).headD 'A')] ++ "$: ".toList) with
    | (st1, none) => st1
    | (st1, some input) => st1.setStr (varIndex ((skipWhitespace s).headD 'A')) input
  else
    match st.readline ("Input value for ".toList ++
        [toupper ((skipWhitespace s).headD 'A')] ++ ": ".toList) with
    | (st1, none) => st1
    | (st1, some input) =>
      st1.setNum (varIndex ((skipWhitespace s).headD 'A')) (strtoldValue A input)

/-- The relational operator of `.if` as the code reads it: up to two
characters and the cursor after them, or `none` when the text does not start
with one of the three operator characters. -/
def scanRelop (s : List Char) : Option (List Char × List Char) :=
  match s with
  | [] => none
  | c :: t =>
    if c = '<' || c = '>' || c = '=' then
      if peek t '=' || (peek t '>' && c = '<') then some ([c, t.headD ' '], t.tail)
      else some ([c], t)
    else none

/-- The comparison chain of `.if`; `none` for an operator it does not know. -/
def evalRelop (A : LongDouble α) (op : List Char) (left right : α) : Option Bool :=
  if op = ['='] then some (A.eq left right)
  else if op = ['<'] then some (A.lt left right)
  else if op = ['>'] then some (A.lt right left)
  else if op = ['<', '='] then some (A.lt left right || A.eq left right)
  else if op = ['>', '='] then some (A.lt right left || A.eq left right)
  else if op = ['<', '>'] then some (!A.eq left right)
  else none

/-- The body of `.if` after the keyword. -/
def execIf (A : LongDouble α) (st : State α) (s : List Char) (nextLine jumpLine : Int) :
    Option (Outcome α) :=
  match parseExpr A st.numVars st.currentProgramLine (skipWhitespace s) with
  | none => none
  | some l =>
    match scanRelop (skipWhitespace l.rest) with
    | none =>
      some ⟨(st.report l.errs).error "[!!!] Expected relational operator in .if",
        nextLine, jumpLine⟩
    | some (op, t) =>
      match parseExpr A st.numVars st.currentProgramLine (skipWhitespace t) with
      | none => none
      | some r =>
        match evalRelop A op l.val r.val with
        | none =>
          some ⟨((st.report l.errs).report r.errs).error "[!!!] Unknown relational operator",
            nextLine, jumpLine⟩
        | some cond =>
          if strncasecmpEq ".th".toList (skipWhitespace r.rest) then
            if atoi (skipWhitespace ((skipWhitespace r.rest).drop 3)) = 0 then
              some ⟨((st.report l.errs).report r.errs).error
                "[!!!] Expected line number after .th", nextLine, jumpLine⟩
            else if cond then
              some ⟨(st.report l.errs).report r.errs, 0,
                atoi (skipWhitespace ((skipWhitespace r.rest).drop 3))⟩
            else some ⟨(st.report l.errs).report r.errs, nextLine, jumpLine⟩
          else
            some ⟨((st.report l.errs).report r.errs).error "[!!!] Expected .th in .if",
              nextLine, jumpLine⟩

/-- The body of `.gs` after the keyword. -/
def execGosub (st : State α) (s : List Char) (nextLine jumpLine : Int) : Outcome α :=
  if atoi (skipWhitespace s) = 0 then
    ⟨st.error "[!!!] Expected line number after .gs", nextLine, jumpLine⟩
  else if st.gosubStack.length < GOSUB_STACK_SIZE then
    ⟨{ st with gosubStack :=
         returnPoint (atoi (skipWhitespace s)) st.program :: st.gosubStack },
      0, atoi (skipWhitespace s)⟩
  else
    ⟨st.error "[!!!] GOSUB stack overflow", 0, atoi (skipWhitespace s)⟩

/-- The body of `.rtn`. -/
def execReturn (st : State α) (nextLine jumpLine : Int) : Outcome α :=
  match st.gosubStack with
  | [] => ⟨st.error "[!!!] GOSUB stack underflow", nextLine, jumpLine⟩
  | top :: below => ⟨{ st with gosubStack := below }, 0, top⟩

/-- The body of `.bep` after the keyword. -/
def execBeep (st : State α) (s : List Char) : State α :=
  if atoi (skipWhitespace s) ≤ 0 ∨
      atoi (skipWhitespace ((skipWhitespace s).dropWhile isdigit)) ≤ 0 then
    st.error "[???] Invalid freq/dur for .bep"
  else
    { st with tones := st.tones ++
        [(atoi (skipWhitespace s),
          atoi (skipWhitespace ((skipWhitespace s).dropWhile isdigit)))] }

/-- The function `executeStatement(s, &nextLine, &jumpLine)`.  The result is
`none` only if an expression exhausted the call depth given to the evaluator. -/
def executeStatement (A : LongDouble α) (st : State α) (s : List Char)
    (nextLine jumpLine : Int) : Option (Outcome α) :=
  if strncmpEq "//".toList (skipWhitespace s) then some ⟨st, nextLine, jumpLine⟩
  else if strncasecmpEq ".let".toList (skipWhitespace s) then
    (execLet A st ((skipWhitespace s).drop 4)).map (fun st1 => ⟨st1, nextLine, jumpLine⟩)
  else if strncasecmpEq ".p".toList (skipWhitespace s) then
    (printLoop A (((skipWhitespace s).drop 2).length + 1) st ((skipWhitespace s).drop 2)).map
      (fun st1 => ⟨st1.print ['\n'], nextLine, jumpLine⟩)
  else if strncasecmpEq ".in".toList (skipWhitespace s) then
    some ⟨execIn A st ((skipWhitespace s).drop 3), nextLine, jumpLine⟩
  else if strncasecmpEq ".if".toList (skipWhitespace s) then
    execIf A st ((skipWhitespace s).drop 3) nextLine jumpLine
  else if strncasecmpEq ".gt".toList (skipWhitespace s) then
    if atoi (skipWhitespace ((skipWhitespace s).drop 3)) = 0 then
      some ⟨st.error "[!!!] Expected line number after .gt", nextLine, jumpLine⟩
    else some ⟨st, 0, atoi (skipWhitespace ((skipWhitespace s).drop 3))⟩
  else if strncasecmpEq ".gs".toList (skipWhitespace s) then
    some (execGosub st ((skipWhitespace s).drop 3) nextLine jumpLine)
  else if strncasecmpEq ".rtn".toList (skipWhitespace s) then
    some (execReturn st nextLine jumpLine)
  else if strncasecmpEq ".wt".toList (skipWhitespace s) then
    some ⟨st, nextLine, jumpLine⟩
  else if strncasecmpEq ".bep".toList (skipWhitespace s) then
    some ⟨execBeep st ((skipWhitespace s).drop 4), nextLine, jumpLine⟩
  else if strncasecmpEq ".?".toList (skipWhitespace s) then
    some ⟨{ st with helps := st.helps + 1 }, nextLine, jumpLine⟩
  else if strncasecmpEq ".q".toList (skipWhitespace s) then
    some ⟨{ st with exited := true }, 0, jumpLine⟩
  else if strncasecmpEq ".e".toList (skipWhitespace s) then
    some ⟨st, 0, jumpLine⟩
  else some ⟨st.error "?", nextLine, jumpLine⟩

/-- The function `clearStringVars()`. -/
def clearStringVars (st : State α) : State α :=
  { st with strVars := fun _ => none }

/-- The `while (current)` loop of `runProgram` with the assignment that
follows it.  The `Nat` bounds the number of iterations (`none`: bound
reached, or an expression exhausted its call depth).  `sigint` says, for each
coming poll of `interrupted`, whether the signal handler has run since the
flag was last cleared; past its end no signal arrives. -/
def runLoop (A : LongDouble α) :
    Nat → List Bool → State α → List Line → Option (State α)
  | 0, _, _, _ => none
  | _ + 1, _, st, [] => some { st with currentProgramLine := 0 }
  | fuel + 1, sigint, st, current :: next =>
    if sigint.headD false then
      some { ({ st with currentProgramLine := current.number } : State α).print
               "\nBreak\n".toList with currentProgramLine := 0 }
    else
      match executeStatement A
          { st with currentProgramLine := current.number,
                    executed := st.executed ++ [current.number] }
          current.text 1 0 with
      | none => none
      | some o =>
        if o.st.exited then some o.st
        else if o.jumpLine ≠ 0 then
          match findLine o.jumpLine o.st.program with
          | [] => some (o.st.error "Target line not found")
          | target :: after => runLoop A fuel sigint.tail o.st (target :: after)
        else if o.nextLine ≠ 0 then
          runLoop A fuel sigint.tail o.st (getNextLine (current :: next))
        else some { o.st with currentProgramLine := 0 }

/-- The function `runProgram()`. -/
def runProgram (A : LongDouble α) (fuel : Nat) (sigint : List Bool) (st : State α) :
    Option (State α) :=
  runLoop A fuel sigint
    { clearStringVars { st with numVars := fun _ => A.zero } with gosubStack := [] }
    st.program

end Interpreter

/-! ## An exact interpretation of the arithmetic

Fractions in lowest terms.  On the values where `long double` computes without
rounding (in particular on integers of moderate size and their sums,
differences and products) this interpretation agrees with it; it is used to
evaluate the embedding on concrete programs. -/

/-- A fraction `num / den`. -/
structure Frac where
  num : Int
  den : Nat
  deriving DecidableEq, Repr

/-- The fraction `n / d` in lowest terms. -/
def Frac.norm (n : Int) (d : Nat) : Frac :=
  ⟨n / ((Nat.gcd n.natAbs d : Nat) : Int), d / Nat.gcd n.natAbs d⟩

/-- The integer `n` as a fraction. -/
def Frac.ofInt (n : Int) : Frac := ⟨n, 1⟩

/-- Sum of two fractions. -/
def Frac.add (a b : Frac) : Frac := Frac.norm (a.num * b.den + b.num * a.den) (a.den * b.den)

/-- Difference of two fractions. -/
def Frac.sub (a b : Frac) : Frac := Frac.norm (a.num * b.den - b.num * a.den) (a.den * b.den)

/-- Product of two fractions. -/
def Frac.mul (a b : Frac) : Frac := Frac.norm (a.num * b.num) (a.den * b.den)

/-- Quotient of two fractions (0 for a zero divisor, which the program never
passes). -/
def Frac.div (a b : Frac) : Frac :=
  if b.num = 0 then Frac.ofInt 0
  else Frac.norm (a.num * b.den * b.num.sign) (a.den * b.num.natAbs)

/-- Value of a run of hexadecimal digits, accumulated onto `acc`. -/
def hexValue (acc : Nat) : List Char → Nat
  | [] => acc
  | c :: cs =>
    hexValue (acc * 16 + (if isdigit c then c.toNat - '0'.toNat
      else if 'a' ≤ c then c.toNat - 'a'.toNat + 10 else c.toNat - 'A'.toNat + 10)) cs

/-- The signed value of an exponent part. -/
def expValue : Option (Bool × List Char) → Int
  | none => 0
  | some (true, ds) => -(digitsValue 0 ds : Int)
  | some (false, ds) => (digitsValue 0 ds : Int)

/-- The fraction `m * b ^ e`. -/
def Frac.scale (m : Nat) (b : Nat) (e : Int) : Frac :=
  if e < 0 then Frac.norm m (b ^ e.natAbs) else Frac.ofInt (m * b ^ e.natAbs)

/-- Negate when the sign flag is set. -/
def Frac.withSign (neg : Bool) (a : Frac) : Frac := if neg then ⟨-a.num, a.den⟩ else a

/-- The exact value of a literal (infinities and NaN have no counterpart here
and are taken as 0). -/
def Frac.ofLit : NumLit → Frac
  | .dec neg ip fp e =>
    Frac.withSign neg (Frac.scale (digitsValue 0 (ip ++ fp)) 10 (expValue e - fp.length))
  | .hex neg ip fp e =>
    Frac.withSign neg (Frac.scale (hexValue 0 (ip ++ fp)) 2 (expValue e - 4 * fp.length))
  | .inf _ => Frac.ofInt 0
  | .nan _ => Frac.ofInt 0

/-- The nearest integer to a non-negative fraction `n / d`, ties to even. -/
def roundHalfEven (n d : Nat) : Nat :=
  if 2 * (n % d) < d then n / d
  else if 2 * (n % d) > d then n / d + 1
  else if (n / d) % 2 = 0 then n / d else n / d + 1

/-- The text of `printf("%.0Lf", x)`: a minus sign for a negative value, then
the rounded magnitude in decimal. -/
def Frac.fmt0 (a : Frac) : List Char :=
  if a.num < 0 then '-' :: Nat.toDigits 10 (roundHalfEven a.num.natAbs a.den)
  else Nat.toDigits 10 (roundHalfEven a.num.natAbs a.den)

/-- Exact arithmetic as an interpretation of `long double`; no literal is out
of range. -/
def exact : LongDouble Frac where
  zero := Frac.ofInt 0
  add := Frac.add
  sub := Frac.sub
  mul := Frac.mul
  div := Frac.div
  eq := fun a b => decide (a = b)
  lt := fun a b => decide (a.num * b.den < b.num * a.den)
  ofLit := Frac.ofLit
  erange := fun _ => false
  fmt0 := Frac.fmt0

/-- The state of a freshly started interpreter holding the given program. -/
def State.init (A : LongDouble α) (program : List Line) : State α where
  program := program
  numVars := fun _ => A.zero
  strVars := fun _ => none
  gosubStack := []
  currentProgramLine := 0
  stdin := []
  stdout := []
  stderr := []
  tones := []
  helps := 0
  exited := false
  executed := []

/-! ## The grammar of expressions

`Expression := Term (('+'|'-') Term)*`, `Term := Factor (('*'|'/') Factor)*`,
`Factor := '(' Expression ')' | Letter | NumericLiteral`, as syntax trees that
keep the white space between tokens.  The trees say what a well-formed
expression is and what its value is; the evaluator is compared with them.
A NumericLiteral is a token that the C library converts as a whole: an
optional sign and a decimal or hexadecimal floating constant (`7`, `2.5`,
`.5`, `1e3`, `-0`, `0x10`), or a signed `inf` or `nan`. -/

section Grammar

variable {α : Type}

/-- The literal a token denotes, if it is a NumericLiteral: the token starts
with neither white space, a letter nor `(`, and `strtold` converts all of
it. -/
def literal (t : List Char) : Option NumLit :=
  match strtold t with
  | some (lit, []) =>
    if isspace (t.headD ' ') || isalpha (t.headD ' ') || t.headD ' ' == '(' then none
    else some lit
  | _ => none

/-- The cell a variable letter names: the position of the letter in the
alphabet, counted from 0, the same for both cases. -/
def letterCell (c : Char) : Nat :=
  if 'a' ≤ c then c.toNat - 'a'.toNat else c.toNat - 'A'.toNat

/-- A syntax tree: a numeric literal (its token), a variable letter, a
parenthesised expression, or a binary operation; `wl` and `wr` are the runs of
white space written before and after the inner text or the operator. -/
inductive Expr where
  | num (ds : List Char)
  | var (c : Char)
  | paren (wl : List Char) (e : Expr) (wr : List Char)
  | bin (a : Expr) (wl : List Char) (op : Char) (wr : List Char) (b : Expr)
  deriving DecidableEq, Repr

/-- The text of a syntax tree. -/
def Expr.text : Expr → List Char
  | .num ds => ds
  | .var c => [c]
  | .paren wl e wr => '(' :: (wl ++ (e.text ++ (wr ++ [')'])))
  | .bin a wl op wr b => a.text ++ (wl ++ op :: (wr ++ b.text))

/-- The grammar level of a tree: 0 for a Factor, 1 for a Term that is not a
Factor, 2 for an Expression that is not a Term; `none` for a tree the grammar
does not produce (an operand of too high a level, an unknown operator, a
token that is not a numeric literal, a variable that is not a letter, or a
gap that is not white space). -/
def Expr.level : Expr → Option Nat
  | .num ds => if literal ds ≠ none then some 0 else none
  | .var c => if isalpha c = true then some 0 else none
  | .paren wl e wr =>
    if wl.all isspace = true ∧ wr.all isspace = true ∧ e.level ≠ none then some 0 else none
  | .bin a wl op wr b =>
    if wl.all isspace = true ∧ wr.all isspace = true then
      if op = '*' ∨ op = '/' then
        if (a.level = some 0 ∨ a.level = some 1) ∧ b.level = some 0 then some 1 else none
      else if op = '+' ∨ op = '-' then
        if a.level ≠ none ∧ (b.level = some 0 ∨ b.level = some 1) then some 2 else none
      else none
    else none

/-- The tree is a Factor of the grammar. -/
def Expr.IsFactor (e : Expr) : Prop := e.level = some 0

/-- The tree is a Term of the grammar. -/
def Expr.IsTerm (e : Expr) : Prop := e.level = some 0 ∨ e.level = some 1

/-- The tree is an Expression of the grammar. -/
def Expr.IsExpression (e : Expr) : Prop := e.level ≠ none

instance (e : Expr) : Decidable e.IsFactor := by unfold Expr.IsFactor; infer_instance

instance (e : Expr) : Decidable e.IsTerm := by unfold Expr.IsTerm; infer_instance

instance (e : Expr) : Decidable e.IsExpression := by unfold Expr.IsExpression; infer_instance

/-- The value of a well-formed expression: literals and variables denote
their values, operators apply left to right as the tree is built, and a
division whose divisor equals 0 yields 0. -/
def Expr.value (A : LongDouble α) (numVars : Nat → α) : Expr → α
  | .num ds =>
    match literal ds with
    | some lit => A.ofLit lit
    | none => A.zero
  | .var c => numVars (letterCell c)
  | .paren _ e _ => e.value A numVars
  | .bin a _ op _ b =>
    if op = '+' then A.add (a.value A numVars) (b.value A numVars)
    else if op = '-' then A.sub (a.value A numVars) (b.value A numVars)
    else if op = '*' then A.mul (a.value A numVars) (b.value A numVars)
    else if A.eq (b.value A numVars) A.zero then A.zero
    else A.div (a.value A numVars) (b.value A numVars)

/-- The errors the evaluation of a well-formed expression reports, in
order: a literal out of range, a division by zero. -/
def Expr.errs (A : LongDouble α) (numVars : Nat → α) (line : Int) : Expr → List Diag
  | .num ds =>
    match literal ds with
    | some lit => if A.erange lit then [⟨line, "Invalid number"⟩] else []
    | none => []
  | .var _ => []
  | .paren _ e _ => e.errs A numVars line
  | .bin a _ op _ b =>
    a.errs A numVars line ++ (b.errs A numVars line ++
      (if op = '/' ∧ A.eq (b.value A numVars) A.zero = true then
        [⟨line, "Division by zero"⟩] else []))

/-- What may follow the text of an operand without changing how it is read:
the next character is no digit, letter or point, and the next character
after white space is no opening parenthesis. -/
def Follow (rest : List Char) : Prop :=
  (∀ c, rest.head? = some c → isdigit c = false ∧ isalpha c = false ∧ c ≠ '.') ∧
  (skipWhitespace rest).head? ≠ some '('

end Grammar

/-! ## Listing, saving, loading and the interactive loop -/

section Persist

variable {α : Type}

/-- The text of `printf("%d", z)`. -/
def fmtInt (z : Int) : List Char :=
  if z < 0 then '-' :: Nat.toDigits 10 z.natAbs else Nat.toDigits 10 z.natAbs

/-- The text that the loop of `listProgram` and of `saveProgram` writes:
`"%d %s\n"` for each stored line, in list order. -/
def programText : List Line → List Char
  | [] => []
  | curr :: rest => fmtInt curr.number ++ ' ' :: (curr.text ++ '\n' :: programText rest)

/-- The function `listProgram()`. -/
def listProgram (st : State α) : State α := st.print (programText st.program)

/-- The state with `program` pointing to another list. -/
def State.setProgram (st : State α) (program : List Line) : State α :=
  { st with program := program }

/-- The function `newProgram()`. -/
def newProgram (st : State α) : State α := st.setProgram []

/-- The function `trimTrailingSpaces(s)`. -/
def trimTrailingSpaces (s : List Char) : List Char := (s.reverse.dropWhile isspace).reverse

/-- The file name `saveProgram` and `loadProgram` build in `fullFilename`: the
extension `.pbcb` is appended unless the name ends with it, and the result is
cut to `MAX_LINE - 1` characters. -/
def fullFilename (filename : List Char) : List Char :=
  if filename.length < 5 ∨ filename.drop (filename.length - 5) ≠ ".pbcb".toList then
    (filename ++ ".pbcb".toList).take (MAX_LINE - 1)
  else filename.take (MAX_LINE - 1)

/-- The files the program can reach: `read name` is the content of the file
that `fopen(name, "r")` opens (`none`: the call fails), `writable name` says
whether `fopen(name, "w")` succeeds. -/
structure Files where
  read : List Char → Option (List Char)
  writable : List Char → Bool

/-- The files after `content` was written to the file `name`. -/
def Files.write (fs : Files) (name content : List Char) : Files :=
  { fs with read := fun n => if n = name then some content else fs.read n }

/-- The function `saveProgram(filename)`; when `fopen` fails nothing is
written (the text of `perror` is not recorded). -/
def saveProgram (st : State α) (fs : Files) (filename : List Char) : Files :=
  if fs.writable (fullFilename filename) then
    fs.write (fullFilename filename) (programText st.program)
  else fs

/-- The characters one call of `fgets` with room for `room` characters takes
from the file, and the rest of the file: it stops after a newline. -/
def fgetsAux : Nat → List Char → List Char × List Char
  | 0, file => ([], file)
  | _ + 1, [] => ([], [])
  | room + 1, c :: cs =>
    if c = '\n' then ([c], cs) else (c :: (fgetsAux room cs).1, (fgetsAux room cs).2)

/-- The libc `fgets(buffer, size, fp)`: `none` at the end of the file, else
the buffer and the rest of the file. -/
def fgets (size : Nat) (file : List Char) : Option (List Char × List Char) :=
  if file = [] then none else some (fgetsAux (size - 1) file)

/-- The body of the `while (fgets ...)` loop of `loadProgram`: the buffer is
cut at its newline; a line that starts with a digit and has text after its
number is stored. -/
def loadLine (buffer : List Char) (program : List Line) : List Line :=
  if skipWhitespace (buffer.takeWhile (fun c => c != '\n')) = [] then program
  else if isdigit ((skipWhitespace (buffer.takeWhile (fun c => c != '\n'))).headD ' ') then
    if skipWhitespace ((skipWhitespace (buffer.takeWhile (fun c => c != '\n'))).dropWhile
        isdigit) ≠ [] then
      addProgramLine (atoi (skipWhitespace (buffer.takeWhile (fun c => c != '\n'))))
        (skipWhitespace ((skipWhitespace (buffer.takeWhile (fun c => c != '\n'))).dropWhile
          isdigit)) program
    else program
  else program

/-- The `while (fgets ...)` loop of `loadProgram`; the `Nat` bounds the number
of calls of `fgets`. -/
def loadLoop : Nat → List Char → List Line → Option (List Line)
  | 0, _, _ => none
  | fuel + 1, file, program =>
    match fgets MAX_LINE file with
    | none => some program
    | some (buffer, rest) => loadLoop fuel rest (loadLine buffer program)

/-- The buffers the successive calls of `fgets` return on a file. -/
def fileBuffers : Nat → List Char → List (List Char)
  | 0, _ => []
  | fuel + 1, file =>
    match fgets MAX_LINE file with
    | none => []
    | some (buffer, rest) => buffer :: fileBuffers fuel rest

/-- The function `loadProgram(filename)`; when `fopen` fails nothing changes
(the text of `perror` is not recorded).  The result is `none` only if the loop
exhausted its bound, which the length of the file plus one never does. -/
def loadProgram (st : State α) (fs : Files) (filename : List Char) : Option (State α) :=
  match fs.read (trimTrailingSpaces (fullFilename filename)) with
  | none => some st
  | some content =>
    (loadLoop (content.length + 1) content []).map
      (fun program => (clearStringVars st).setProgram program)

/-- The body of the `while (1)` loop of `main` for the line `input` that
`readline` returned.  `fuel` and `sigint` are passed to `runProgram` for the
command `.r`.  The command `.q` and the end of the input leave the loop, after
which `main` clears the program and the string variables and returns. -/
def mainBody (A : LongDouble α) (fuel : Nat) (sigint : List Bool) (st : State α)
    (fs : Files) (input : List Char) : Option (State α × Files) :=
  if skipWhitespace (input.take (MAX_LINE - 1)) = [] then some (st, fs)
  else if isdigit ((skipWhitespace (input.take (MAX_LINE - 1))).headD ' ') then
    if skipWhitespace ((skipWhitespace (input.take (MAX_LINE - 1))).dropWhile isdigit) = [] then
      some (st.setProgram
        (deleteProgramLine (atoi (skipWhitespace (input.take (MAX_LINE - 1)))) st.program), fs)
    else
      some (st.setProgram
        (addProgramLine (atoi (skipWhitespace (input.take (MAX_LINE - 1))))
          (skipWhitespace ((skipWhitespace (input.take (MAX_LINE - 1))).dropWhile isdigit))
          st.program), fs)
  else if strncasecmpEq ".r".toList (skipWhitespace (input.take (MAX_LINE - 1))) then
    (runProgram A fuel sigint st).map (fun st1 => (st1, fs))
  else if strncasecmpEq ".ls".toList (skipWhitespace (input.take (MAX_LINE - 1))) then
    some (listProgram st, fs)
  else if strncasecmpEq ".new".toList (skipWhitespace (input.take (MAX_LINE - 1))) then
    some (clearStringVars (newProgram st), fs)
  else if strncasecmpEq ".c".toList (skipWhitespace (input.take (MAX_LINE - 1))) then
    some (st.print "\x1b[H\x1b[J".toList, fs)
  else if strncasecmpEq ".sav".toList (skipWhitespace (input.take (MAX_LINE - 1))) then
    if skipWhitespace ((skipWhitespace (input.take (MAX_LINE - 1))).drop 4) = [] then
      some (st.error "Filename required for .sav", fs)
    else
      some (st, saveProgram st fs
        (skipWhitespace ((skipWhitespace (input.take (MAX_LINE - 1))).drop 4)))
  else if strncasecmpEq ".loa".toList (skipWhitespace (input.take (MAX_LINE - 1))) then
    if skipWhitespace ((skipWhitespace (input.take (MAX_LINE - 1))).drop 4) = [] then
      some (st.error "Filename required for .loa", fs)
    else
      (loadProgram st fs
        (skipWhitespace ((skipWhitespace (input.take (MAX_LINE - 1))).drop 4))).map
        (fun st1 => (st1, fs))
  else if strncasecmpEq ".q".toList (skipWhitespace (input.take (MAX_LINE - 1))) then
    some (clearStringVars (newProgram { st with exited := true }), fs)
  else
    (executeStatement A st (skipWhitespace (input.take (MAX_LINE - 1))) 1 0).map
      (fun o => (o.st, fs))

/-- The texts of the operands of an output statement, in order: what each
turn of the loop of `.p` prints when its operand is evaluated in the state
`st`; the `Nat` bounds the number of operands. -/
def operandTexts (A : LongDouble α) (st : State α) : Nat → List Char → Option (List (List Char))
  | 0, _ => none
  | fuel + 1, s =>
    if skipWhitespace s = [] then some []
    else
      match printOperand A st (skipWhitespace s) with
      | none => none
      | some (text, _, rest) =>
        if peek (skipWhitespace rest) ';' then
          (operandTexts A st fuel (skipWhitespace rest).tail).map (fun texts => text :: texts)
        else some [text]

/-- No file can be opened. -/
def noFiles : Files := ⟨fun _ => none, fun _ => false⟩

/-- The line is not a numbered line with the number 0: if its first
non-blank character is a digit, the number `atoi` reads there is not 0. -/
abbrev NotLineZero (line : List Char) : Prop :=
  isdigit ((skipWhitespace line).headD ' ') = true → atoi (skipWhitespace line) ≠ 0

/-- No stored line has the number 0. -/
def NoLineZero (program : List Line) : Prop := ∀ l ∈ program, l.number ≠ 0

end Persist


/-! ## Program Store: ordering, lookup, deletion -/

theorem mem_addProgramLine (n : Int) (t : List Char) (S : List Line) (x : Line)
    (hx : x ∈ addProgramLine n t S) : x.number = n ∨ x ∈ S := by
  induction S with
  | nil =>
    simp only [addProgramLine, List.mem_singleton] at hx
    left; rw [hx]
  | cons curr rest ih =>
    simp only [addProgramLine] at hx
    split_ifs at hx with h1 h2
    · rcases List.mem_cons.mp hx with h | h
      · right; rw [h]; exact List.mem_cons_self _ _
      · rcases ih h with h | h
        · left; exact h
        · right; exact List.mem_cons_of_mem _ h
    · rcases List.mem_cons.mp hx with h | h
      · left; rw [h]; exact h2
      · right; exact List.mem_cons_of_mem _ h
    · rcases List.mem_cons.mp hx with h | h
      · left; rw [h]
      · right; exact h

theorem ascending_addProgramLine (n : Int) (t : List Char) (S : List Line)
    (h : Ascending S) : Ascending (addProgramLine n t S) := by
  induction S with
  | nil => simp [addProgramLine, Ascending]
  | cons curr rest ih =>
    have hp := List.pairwise_cons.mp h
    simp only [addProgramLine]
    split_ifs with h1 h2
    · refine List.pairwise_cons.mpr ⟨?_, ih hp.2⟩
      intro b hb
      rcases mem_addProgramLine n t rest b hb with hb | hb
      · rw [hb]; exact h1
      · exact hp.1 b hb
    · exact List.pairwise_cons.mpr ⟨fun b hb => hp.1 b hb, hp.2⟩
    · refine List.pairwise_cons.mpr ⟨?_, h⟩
      intro b hb
      have hlt : n < curr.number := lt_of_le_of_ne (not_lt.mp h1) (Ne.symm h2)
      rcases List.mem_cons.mp hb with hb | hb
      · rw [hb]; exact hlt
      · exact lt_trans hlt (hp.1 b hb)

theorem deleteProgramLine_eq_filter (n : Int) (S : List Line) (h : Ascending S) :
    deleteProgramLine n S = S.filter (fun l => decide (l.number ≠ n)) := by
  induction S with
  | nil => rfl
  | cons curr rest ih =>
    have hp := List.pairwise_cons.mp h
    simp only [deleteProgramLine]
    split_ifs with h1
    · rw [List.filter_cons_of_pos (by simpa using h1), ih hp.2]
    · have h1' : curr.number = n := not_not.mp h1
      rw [List.filter_cons_of_neg (by simpa using h1')]
      symm
      apply List.filter_eq_self.mpr
      intro b hb
      have := hp.1 b hb
      simp only [ne_eq, decide_not, Bool.not_eq_true', decide_eq_false_iff_not]
      omega

theorem findLine_eq_nil_iff (n : Int) (S : List Line) :
    findLine n S = [] ↔ ∀ l ∈ S, l.number ≠ n := by
  induction S with
  | nil => simp [findLine]
  | cons curr rest ih =>
    simp only [findLine]
    split_ifs with h1
    · simp [h1]
    · rw [ih]; simp [h1]

theorem findLine_head_number (n : Int) (S : List Line) (l : Line)
    (h : (findLine n S).head? = some l) : l.number = n ∧ l ∈ S := by
  induction S with
  | nil => simp [findLine] at h
  | cons curr rest ih =>
    simp only [findLine] at h
    split_ifs at h with h1
    · simp only [List.head?_cons, Option.some.injEq] at h
      subst h; exact ⟨h1, List.mem_cons_self _ _⟩
    · exact ⟨(ih h).1, List.mem_cons_of_mem _ (ih h).2⟩


theorem findLine_addProgramLine_self (n : Int) (t : List Char) (S : List Line) :
    (findLine n (addProgramLine n t S)).head? = some ⟨n, t⟩ := by
  induction S with
  | nil => simp [addProgramLine, findLine]
  | cons curr rest ih =>
    simp only [addProgramLine]
    split_ifs with h1 h2
    · have : curr.number ≠ n := ne_of_lt h1
      simp only [findLine, if_neg this]
      exact ih
    · simp [findLine, h2]
    · simp [findLine]

theorem findLine_addProgramLine_other (n m : Int) (t : List Char) (S : List Line)
    (hm : m ≠ n) :
    (findLine m (addProgramLine n t S)).head? = (findLine m S).head? := by
  induction S with
  | nil => simp [addProgramLine, findLine, Ne.symm hm]
  | cons curr rest ih =>
    simp only [addProgramLine]
    split_ifs with h1 h2
    · simp only [findLine]
      split_ifs with h3
      · rfl
      · exact ih
    · have : curr.number ≠ m := by rw [h2]; exact Ne.symm hm
      simp [findLine, this, h2, Ne.symm hm]
    · simp [findLine, Ne.symm hm]

theorem length_addProgramLine (n : Int) (t : List Char) (S : List Line)
    (h : Ascending S) :
    (addProgramLine n t S).length = if findLine n S = [] then S.length + 1 else S.length := by
  induction S with
  | nil => simp [addProgramLine, findLine]
  | cons curr rest ih =>
    have hp := List.pairwise_cons.mp h
    simp only [addProgramLine]
    split_ifs with h1 h2 h3 h4 h5
    · simp only [List.length_cons]
      rw [ih hp.2]
      have h2' : findLine n rest = [] := by
        simpa [findLine, ne_of_lt h1] using h2
      simp [h2']
    · simp only [List.length_cons]
      rw [ih hp.2]
      have h2' : findLine n rest ≠ [] := by
        simpa [findLine, ne_of_lt h1] using h2
      simp [h2']
    · simp [findLine, h3] at h4
    · simp
    · simp
    · exfalso
      apply h5
      rw [findLine_eq_nil_iff]
      intro l hl
      have hlt : n < curr.number := lt_of_le_of_ne (not_lt.mp h1) (Ne.symm h3)
      rcases List.mem_cons.mp hl with hl | hl
      · rw [hl]; exact ne_of_gt hlt
      · exact ne_of_gt (lt_trans hlt (hp.1 l hl))

theorem deleteProgramLine_absent (n : Int) (S : List Line) (h : findLine n S = []) :
    deleteProgramLine n S = S := by
  induction S with
  | nil => rfl
  | cons curr rest ih =>
    simp only [findLine] at h
    split_ifs at h with h1
    simp only [deleteProgramLine, if_pos h1, ih h]

/-- C3. The empty store is strictly ascending by line number, and from an
ascending store both `addProgramLine(n, t)` and `deleteProgramLine(n)` lead to
an ascending store again. -/
theorem store_stays_ascending (S : List Line) (n : Int) (t : List Char) (h : Ascending S) :
    Ascending ([] : List Line) ∧ Ascending (addProgramLine n t S) ∧
      Ascending (deleteProgramLine n S) := by
  refine ⟨List.Pairwise.nil, ascending_addProgramLine n t S h, ?_⟩
  rw [deleteProgramLine_eq_filter n S h]
  exact List.Pairwise.sublist (List.filter_sublist S) h

theorem store_stays_ascending_witness :
    Ascending [⟨10, ['a']⟩, ⟨20, ['b']⟩] ∧
    Ascending ([] : List Line) ∧
    Ascending (addProgramLine 15 ['c'] [⟨10, ['a']⟩, ⟨20, ['b']⟩]) ∧
    Ascending (deleteProgramLine 15 [⟨10, ['a']⟩, ⟨20, ['b']⟩]) :=
  ⟨by decide, store_stays_ascending [⟨10, ['a']⟩, ⟨20, ['b']⟩] 15 ['c'] (by decide)⟩

/-- C4. In an ascending store, after `addProgramLine(n, t)` the lookup of `n`
finds the line `(n, t)`, the lookup of every other number finds what it found
before, and the store has one line more if `n` was absent and as many as
before if `n` was present. -/
theorem upsert_then_lookup (S : List Line) (n : Int) (t : List Char) (h : Ascending S) :
    (findLine n (addProgramLine n t S)).head? = some ⟨n, t⟩ ∧
    (∀ m, m ≠ n → (findLine m (addProgramLine n t S)).head? = (findLine m S).head?) ∧
    (findLine n S = [] → (addProgramLine n t S).length = S.length + 1) ∧
    (findLine n S ≠ [] → (addProgramLine n t S).length = S.length) := by
  refine ⟨findLine_addProgramLine_self n t S,
    fun m hm => findLine_addProgramLine_other n m t S hm, ?_, ?_⟩
  · intro h0; rw [length_addProgramLine n t S h, if_pos h0]
  · intro h0; rw [length_addProgramLine n t S h, if_neg h0]

theorem upsert_then_lookup_witness :
    Ascending [⟨10, ['a']⟩, ⟨20, ['b']⟩] ∧
    (findLine 20 (addProgramLine 20 ['c'] [⟨10, ['a']⟩, ⟨20, ['b']⟩])).head? = some ⟨20, ['c']⟩ ∧
    (findLine 10 (addProgramLine 20 ['c'] [⟨10, ['a']⟩, ⟨20, ['b']⟩])).head? =
      (findLine 10 [⟨10, ['a']⟩, ⟨20, ['b']⟩]).head? ∧
    (addProgramLine 20 ['c'] [⟨10, ['a']⟩, ⟨20, ['b']⟩]).length = 2 ∧
    (addProgramLine 15 ['c'] [⟨10, ['a']⟩, ⟨20, ['b']⟩]).length = 2 + 1 :=
  ⟨by decide,
   (upsert_then_lookup [⟨10, ['a']⟩, ⟨20, ['b']⟩] 20 ['c'] (by decide)).1,
   (upsert_then_lookup [⟨10, ['a']⟩, ⟨20, ['b']⟩] 20 ['c'] (by decide)).2.1 10 (by decide),
   (upsert_then_lookup [⟨10, ['a']⟩, ⟨20, ['b']⟩] 20 ['c'] (by decide)).2.2.2 (by decide),
   (upsert_then_lookup [⟨10, ['a']⟩, ⟨20, ['b']⟩] 15 ['c'] (by decide)).2.2.1 (by decide)⟩

/-- C5. In an ascending store, after `deleteProgramLine(n)` the lookup of `n`
finds nothing, the store is the old one without the line numbered `n` (every
other line is kept, number and text, in the old order), and when `n` was not
stored the store is the old one. -/
theorem delete_removes_exactly (S : List Line) (n : Int) (h : Ascending S) :
    findLine n (deleteProgramLine n S) = [] ∧
    deleteProgramLine n S = S.filter (fun l => decide (l.number ≠ n)) ∧
    (∀ m, m ≠ n → (findLine m (deleteProgramLine n S)).head? = (findLine m S).head?) ∧
    (findLine n S = [] → deleteProgramLine n S = S) := by
  have hf := deleteProgramLine_eq_filter n S h
  refine ⟨?_, hf, ?_, deleteProgramLine_absent n S⟩
  · rw [findLine_eq_nil_iff, hf]
    intro l hl
    simpa using (List.mem_filter.mp hl).2
  · intro m hm
    clear hf h
    induction S with
    | nil => rfl
    | cons curr rest ih =>
      simp only [deleteProgramLine]
      split_ifs with h1
      · simp only [findLine]
        split_ifs with h2
        · rfl
        · exact ih
      · have h1' : curr.number = n := not_not.mp h1
        have : curr.number ≠ m := by rw [h1']; exact Ne.symm hm
        simp [findLine, this]

theorem delete_removes_exactly_witness :
    Ascending [⟨10, ['a']⟩, ⟨20, ['b']⟩, ⟨30, ['c']⟩] ∧
    findLine 20 (deleteProgramLine 20 [⟨10, ['a']⟩, ⟨20, ['b']⟩, ⟨30, ['c']⟩]) = [] ∧
    deleteProgramLine 20 [⟨10, ['a']⟩, ⟨20, ['b']⟩, ⟨30, ['c']⟩] =
      [⟨10, ['a']⟩, ⟨20, ['b']⟩, ⟨30, ['c']⟩].filter (fun l => decide (l.number ≠ 20)) ∧
    (findLine 30 (deleteProgramLine 20 [⟨10, ['a']⟩, ⟨20, ['b']⟩, ⟨30, ['c']⟩])).head? =
      (findLine 30 [⟨10, ['a']⟩, ⟨20, ['b']⟩, ⟨30, ['c']⟩]).head? ∧
    deleteProgramLine 25 [⟨10, ['a']⟩, ⟨20, ['b']⟩, ⟨30, ['c']⟩] =
      [⟨10, ['a']⟩, ⟨20, ['b']⟩, ⟨30, ['c']⟩] :=
  ⟨by decide,
   (delete_removes_exactly [⟨10, ['a']⟩, ⟨20, ['b']⟩, ⟨30, ['c']⟩] 20 (by decide)).1,
   (delete_removes_exactly [⟨10, ['a']⟩, ⟨20, ['b']⟩, ⟨30, ['c']⟩] 20 (by decide)).2.1,
   (delete_removes_exactly [⟨10, ['a']⟩, ⟨20, ['b']⟩, ⟨30, ['c']⟩] 20 (by decide)).2.2.1 30
     (by decide),
   (delete_removes_exactly [⟨10, ['a']⟩, ⟨20, ['b']⟩, ⟨30, ['c']⟩] 25 (by decide)).2.2.2
     (by decide)⟩

/-! ## Statement dispatch, subroutine call and return -/

section Dispatch
variable {α : Type}

theorem strncasecmpEq_dot_snd (k1 k2 : Char) (ks ks2 u : List Char)
    (h : strncasecmpEq ('.' :: k1 :: ks) u = true) (hne : tolower k1 ≠ tolower k2) :
    strncasecmpEq ('.' :: k2 :: ks2) u = false := by
  match u with
  | [] => rfl
  | [_] => simp [strncasecmpEq] at h
  | c0 :: c1 :: cs =>
    simp only [strncasecmpEq, Bool.and_eq_true, beq_iff_eq] at h
    simp only [strncasecmpEq, Bool.and_eq_false_imp, beq_iff_eq]
    intro _ h1
    exact absurd (h.2.1.symm.trans h1) hne

theorem strncasecmpEq_dot_third (k1 k2 k3 : Char) (ks ks3 u : List Char)
    (h : strncasecmpEq ('.' :: k1 :: k2 :: ks) u = true) (hne : tolower k2 ≠ tolower k3) :
    strncasecmpEq ('.' :: k1 :: k3 :: ks3) u = false := by
  match u with
  | [] => rfl
  | [_] => simp [strncasecmpEq] at h
  | [_, _] => simp [strncasecmpEq] at h
  | c0 :: c1 :: c2 :: cs =>
    simp only [strncasecmpEq, Bool.and_eq_true, beq_iff_eq] at h
    simp only [strncasecmpEq, Bool.and_eq_false_imp, beq_iff_eq]
    intro _ _ h1
    exact absurd (h.2.2.1.symm.trans h1) hne

theorem strncmpEq_slash_of_dot (k1 : Char) (ks u : List Char)
    (h : strncasecmpEq ('.' :: k1 :: ks) u = true) :
    strncmpEq "//".toList u = false := by
  match u with
  | [] => rfl
  | c0 :: cs =>
    simp only [strncasecmpEq, Bool.and_eq_true, beq_iff_eq] at h
    have h0 := h.1
    show strncmpEq ['/', '/'] (c0 :: cs) = false
    simp only [strncmpEq, Bool.and_eq_false_imp, beq_iff_eq]
    intro hc
    rw [hc] at h0
    exact absurd h0 (by decide)

theorem executeStatement_gs (A : LongDouble α) (st : State α) (s : List Char) (nl jl : Int)
    (h : strncasecmpEq ".gs".toList (skipWhitespace s) = true) :
    executeStatement A st s nl jl = some (execGosub st ((skipWhitespace s).drop 3) nl jl) := by
  have h' : strncasecmpEq ['.', 'g', 's'] (skipWhitespace s) = true := h
  have h0 := strncmpEq_slash_of_dot _ _ _ h'
  have h1 : strncasecmpEq ".let".toList (skipWhitespace s) = false :=
    strncasecmpEq_dot_snd 'g' 'l' _ _ _ h' (by decide)
  have h2 : strncasecmpEq ".p".toList (skipWhitespace s) = false :=
    strncasecmpEq_dot_snd 'g' 'p' _ _ _ h' (by decide)
  have h3 : strncasecmpEq ".in".toList (skipWhitespace s) = false :=
    strncasecmpEq_dot_snd 'g' 'i' _ _ _ h' (by decide)
  have h4 : strncasecmpEq ".if".toList (skipWhitespace s) = false :=
    strncasecmpEq_dot_snd 'g' 'i' _ _ _ h' (by decide)
  have h5 : strncasecmpEq ".gt".toList (skipWhitespace s) = false :=
    strncasecmpEq_dot_third 'g' 's' 't' _ _ _ h' (by decide)
  simp only [executeStatement, h0, h1, h2, h3, h4, h5, h, Bool.false_eq_true, if_false, if_true]

theorem executeStatement_gt (A : LongDouble α) (st : State α) (s : List Char) (nl jl : Int)
    (h : strncasecmpEq ".gt".toList (skipWhitespace s) = true) :
    executeStatement A st s nl jl =
      if atoi (skipWhitespace ((skipWhitespace s).drop 3)) = 0 then
        some ⟨st.error "[!!!] Expected line number after .gt", nl, jl⟩
      else some ⟨st, 0, atoi (skipWhitespace ((skipWhitespace s).drop 3))⟩ := by
  have h' : strncasecmpEq ['.', 'g', 't'] (skipWhitespace s) = true := h
  have h0 := strncmpEq_slash_of_dot _ _ _ h'
  have h1 : strncasecmpEq ".let".toList (skipWhitespace s) = false :=
    strncasecmpEq_dot_snd 'g' 'l' _ _ _ h' (by decide)
  have h2 : strncasecmpEq ".p".toList (skipWhitespace s) = false :=
    strncasecmpEq_dot_snd 'g' 'p' _ _ _ h' (by decide)
  have h3 : strncasecmpEq ".in".toList (skipWhitespace s) = false :=
    strncasecmpEq_dot_snd 'g' 'i' _ _ _ h' (by decide)
  have h4 : strncasecmpEq ".if".toList (skipWhitespace s) = false :=
    strncasecmpEq_dot_snd 'g' 'i' _ _ _ h' (by decide)
  simp only [executeStatement, h0, h1, h2, h3, h4, h, Bool.false_eq_true, if_false, if_true]

theorem executeStatement_rtn (A : LongDouble α) (st : State α) (s : List Char) (nl jl : Int)
    (h : strncasecmpEq ".rtn".toList (skipWhitespace s) = true) :
    executeStatement A st s nl jl = some (execReturn st nl jl) := by
  have h' : strncasecmpEq ['.', 'r', 't', 'n'] (skipWhitespace s) = true := h
  have h0 := strncmpEq_slash_of_dot _ _ _ h'
  have h1 : strncasecmpEq ".let".toList (skipWhitespace s) = false :=
    strncasecmpEq_dot_snd 'r' 'l' _ _ _ h' (by decide)
  have h2 : strncasecmpEq ".p".toList (skipWhitespace s) = false :=
    strncasecmpEq_dot_snd 'r' 'p' _ _ _ h' (by decide)
  have h3 : strncasecmpEq ".in".toList (skipWhitespace s) = false :=
    strncasecmpEq_dot_snd 'r' 'i' _ _ _ h' (by decide)
  have h4 : strncasecmpEq ".if".toList (skipWhitespace s) = false :=
    strncasecmpEq_dot_snd 'r' 'i' _ _ _ h' (by decide)
  have h5 : strncasecmpEq ".gt".toList (skipWhitespace s) = false :=
    strncasecmpEq_dot_snd 'r' 'g' _ _ _ h' (by decide)
  have h6 : strncasecmpEq ".gs".toList (skipWhitespace s) = false :=
    strncasecmpEq_dot_snd 'r' 'g' _ _ _ h' (by decide)
  simp only [executeStatement, h0, h1, h2, h3, h4, h5, h6, h, Bool.false_eq_true, if_false, if_true]


theorem execLet_gosubStack (A : LongDouble α) (st st1 : State α) (s : List Char)
    (h : execLet A st s = some st1) : st1.gosubStack = st.gosubStack := by
  unfold execLet at h
  split_ifs at h
  all_goals first
    | (cases h; rfl)
    | (split at h
       · cases h
       · cases h; rfl)

theorem printLoop_gosubStack (A : LongDouble α) (fuel : Nat) (st st1 : State α) (s : List Char)
    (h : printLoop A fuel st s = some st1) : st1.gosubStack = st.gosubStack := by
  induction fuel generalizing st s with
  | zero => cases h
  | succ n ih =>
    simp only [printLoop] at h
    split_ifs at h with h1
    · cases h; rfl
    · split at h
      · cases h
      · split_ifs at h with h2
        · exact (ih _ _ h).trans rfl
        · cases h; rfl

theorem execIn_gosubStack (A : LongDouble α) (st : State α) (s : List Char) :
    (execIn A st s).gosubStack = st.gosubStack := by
  unfold execIn State.readline
  split_ifs
  · rfl
  · cases st.stdin <;> rfl
  · cases st.stdin <;> rfl

theorem execIf_gosubStack (A : LongDouble α) (st : State α) (s : List Char) (nl jl : Int)
    (o : Outcome α) (h : execIf A st s nl jl = some o) :
    o.st.gosubStack = st.gosubStack := by
  unfold execIf at h
  split at h
  · cases h
  · split at h
    · cases h; rfl
    · split at h
      · cases h
      · split at h
        · cases h; rfl
        · split_ifs at h <;> (cases h; rfl)

theorem execBeep_gosubStack (st : State α) (s : List Char) :
    (execBeep st s).gosubStack = st.gosubStack := by
  unfold execBeep
  split_ifs <;> rfl

theorem execGosub_length_le (st : State α) (s : List Char) (nl jl : Int)
    (h : st.gosubStack.length ≤ GOSUB_STACK_SIZE) :
    (execGosub st s nl jl).st.gosubStack.length ≤ GOSUB_STACK_SIZE := by
  unfold execGosub
  split_ifs with h1 h2
  · exact h
  · exact h2
  · exact h

theorem execReturn_length_le (st : State α) (nl jl : Int)
    (h : st.gosubStack.length ≤ GOSUB_STACK_SIZE) :
    (execReturn st nl jl).st.gosubStack.length ≤ GOSUB_STACK_SIZE := by
  unfold execReturn
  split
  · exact h
  · rename_i top below heq
    show below.length ≤ GOSUB_STACK_SIZE
    rw [heq] at h
    exact Nat.le_of_succ_le h

theorem executeStatement_length_le (A : LongDouble α) (st : State α) (s : List Char)
    (nl jl : Int) (o : Outcome α) (h : st.gosubStack.length ≤ GOSUB_STACK_SIZE)
    (ho : executeStatement A st s nl jl = some o) :
    o.st.gosubStack.length ≤ GOSUB_STACK_SIZE := by
  unfold executeStatement at ho
  by_cases c0 : strncmpEq "//".toList (skipWhitespace s) = true
  · rw [if_pos c0] at ho; cases ho; exact h
  rw [if_neg c0] at ho
  by_cases c1 : strncasecmpEq ".let".toList (skipWhitespace s) = true
  · rw [if_pos c1] at ho
    obtain ⟨st1, h1, rfl⟩ := Option.map_eq_some'.mp ho
    rw [show ({ st := st1, nextLine := nl, jumpLine := jl } : Outcome α).st = st1 from rfl,
      execLet_gosubStack A st st1 _ h1]
    exact h
  rw [if_neg c1] at ho
  by_cases c2 : strncasecmpEq ".p".toList (skipWhitespace s) = true
  · rw [if_pos c2] at ho
    obtain ⟨st1, h1, rfl⟩ := Option.map_eq_some'.mp ho
    have := printLoop_gosubStack A _ st st1 _ h1
    show st1.gosubStack.length ≤ GOSUB_STACK_SIZE
    rw [this]; exact h
  rw [if_neg c2] at ho
  by_cases c3 : strncasecmpEq ".in".toList (skipWhitespace s) = true
  · rw [if_pos c3] at ho
    cases ho
    show (execIn A st _).gosubStack.length ≤ GOSUB_STACK_SIZE
    rw [execIn_gosubStack]; exact h
  rw [if_neg c3] at ho
  by_cases c4 : strncasecmpEq ".if".toList (skipWhitespace s) = true
  · rw [if_pos c4] at ho
    rw [execIf_gosubStack A st _ nl jl o ho]; exact h
  rw [if_neg c4] at ho
  by_cases c5 : strncasecmpEq ".gt".toList (skipWhitespace s) = true
  · rw [if_pos c5] at ho
    by_cases c : atoi (skipWhitespace ((skipWhitespace s).drop 3)) = 0
    · rw [if_pos c] at ho; cases ho; exact h
    · rw [if_neg c] at ho; cases ho; exact h
  rw [if_neg c5] at ho
  by_cases c6 : strncasecmpEq ".gs".toList (skipWhitespace s) = true
  · rw [if_pos c6] at ho; cases ho; exact execGosub_length_le st _ nl jl h
  rw [if_neg c6] at ho
  by_cases c7 : strncasecmpEq ".rtn".toList (skipWhitespace s) = true
  · rw [if_pos c7] at ho; cases ho; exact execReturn_length_le st nl jl h
  rw [if_neg c7] at ho
  by_cases c8 : strncasecmpEq ".wt".toList (skipWhitespace s) = true
  · rw [if_pos c8] at ho; cases ho; exact h
  rw [if_neg c8] at ho
  by_cases c9 : strncasecmpEq ".bep".toList (skipWhitespace s) = true
  · rw [if_pos c9] at ho
    cases ho
    show (execBeep st _).gosubStack.length ≤ GOSUB_STACK_SIZE
    rw [execBeep_gosubStack]; exact h
  rw [if_neg c9] at ho
  by_cases c10 : strncasecmpEq ".?".toList (skipWhitespace s) = true
  · rw [if_pos c10] at ho; cases ho; exact h
  rw [if_neg c10] at ho
  by_cases c11 : strncasecmpEq ".q".toList (skipWhitespace s) = true
  · rw [if_pos c11] at ho; cases ho; exact h
  rw [if_neg c11] at ho
  by_cases c12 : strncasecmpEq ".e".toList (skipWhitespace s) = true
  · rw [if_pos c12] at ho; cases ho; exact h
  rw [if_neg c12] at ho
  cases ho; exact h

theorem runLoop_length_le (A : LongDouble α) (fuel : Nat) (sigint : List Bool)
    (st st1 : State α) (current : List Line)
    (h : st.gosubStack.length ≤ GOSUB_STACK_SIZE)
    (hr : runLoop A fuel sigint st current = some st1) :
    st1.gosubStack.length ≤ GOSUB_STACK_SIZE := by
  induction fuel generalizing sigint st current with
  | zero => cases hr
  | succ n ih =>
    cases current with
    | nil =>
      simp only [runLoop] at hr
      cases hr; exact h
    | cons cur next =>
      simp only [runLoop] at hr
      split_ifs at hr with h1
      · cases hr; exact h
      · split at hr
        · cases hr
        · rename_i o ho
          have hle := executeStatement_length_le A _ _ _ _ o (by exact h) ho
          split_ifs at hr with h2 h3 h4
          · cases hr; exact hle
          · split at hr
            · cases hr; exact hle
            · exact ih _ _ _ hle hr
          · exact ih _ _ _ hle hr
          · cases hr; exact hle

theorem runProgram_length_le (A : LongDouble α) (fuel : Nat) (sigint : List Bool)
    (st st1 : State α) (hr : runProgram A fuel sigint st = some st1) :
    st1.gosubStack.length ≤ GOSUB_STACK_SIZE := by
  unfold runProgram at hr
  exact runLoop_length_le A fuel sigint _ st1 _ (Nat.zero_le _) hr


theorem returnPoint_eq_find (L : Int) (p : List Line) :
    returnPoint L p = ((p.find? (fun l => decide (L < l.number))).map Line.number).getD 0 := by
  induction p with
  | nil => rfl
  | cons curr rest ih =>
    simp only [returnPoint, List.find?_cons]
    by_cases h : L < curr.number
    · have h' : curr.number > L := h
      simp [h, h']
    · have h' : ¬ curr.number > L := h
      simp [h, h', ih]

theorem execGosub_push (st : State α) (s : List Char) (nl jl : Int)
    (hne : atoi (skipWhitespace s) ≠ 0) (hd : st.gosubStack.length < GOSUB_STACK_SIZE) :
    execGosub st s nl jl =
      ⟨{ st with gosubStack := returnPoint (atoi (skipWhitespace s)) st.program :: st.gosubStack },
        0, atoi (skipWhitespace s)⟩ := by
  unfold execGosub
  rw [if_neg hne, if_pos hd]

/-- C7. A statement `.gs L` with `L` other than 0, executed with fewer than
100 entries on the call stack, sets `jumpLine = L` and `nextLine = 0` and
pushes the number of the first stored line whose number is greater than `L`
(0 if there is none); a `.rtn` executed next sets `jumpLine` to that number,
`nextLine = 0`, and leaves the call stack as it was before the call.  The
number pushed is the same whatever line `cl` is the current one. -/
theorem gosub_return_point (A : LongDouble α) (st : State α) (cl : Int) (s s2 : List Char)
    (L nl jl nl2 jl2 : Int)
    (hkw : strncasecmpEq ".gs".toList (skipWhitespace s) = true)
    (harg : atoi (skipWhitespace ((skipWhitespace s).drop 3)) = L) (hL : L ≠ 0)
    (hdepth : st.gosubStack.length < 100)
    (hrtn : strncasecmpEq ".rtn".toList (skipWhitespace s2) = true) :
    ∃ o o2 : Outcome α,
      executeStatement A { st with currentProgramLine := cl } s nl jl = some o ∧
      o.jumpLine = L ∧ o.nextLine = 0 ∧
      o.st.gosubStack =
        ((st.program.find? (fun l => decide (L < l.number))).map Line.number).getD 0
          :: st.gosubStack ∧
      executeStatement A o.st s2 nl2 jl2 = some o2 ∧
      o2.jumpLine =
        ((st.program.find? (fun l => decide (L < l.number))).map Line.number).getD 0 ∧
      o2.nextLine = 0 ∧ o2.st.gosubStack = st.gosubStack := by
  have h1 := executeStatement_gs A { st with currentProgramLine := cl } s nl jl hkw
  have hne : atoi (skipWhitespace ((skipWhitespace s).drop 3)) ≠ 0 := by rw [harg]; exact hL
  rw [execGosub_push { st with currentProgramLine := cl } _ nl jl hne hdepth, harg] at h1
  refine ⟨_, _, h1, rfl, rfl, ?_, executeStatement_rtn A _ s2 nl2 jl2 hrtn, ?_, rfl, rfl⟩
  · show returnPoint L st.program :: st.gosubStack = _
    rw [returnPoint_eq_find]
  · show returnPoint L st.program = _
    rw [returnPoint_eq_find]

theorem gosub_return_point_witness :
    ∃ o o2 : Outcome Frac,
      executeStatement exact
        { State.init exact [⟨10, ".gs 30".toList⟩, ⟨20, ".e".toList⟩, ⟨30, ".rtn".toList⟩,
            ⟨40, ".e".toList⟩] with currentProgramLine := 10 }
        ".gs 30".toList 1 0 = some o ∧
      o.jumpLine = 30 ∧ o.nextLine = 0 ∧
      o.st.gosubStack =
        (((State.init exact [⟨10, ".gs 30".toList⟩, ⟨20, ".e".toList⟩, ⟨30, ".rtn".toList⟩,
            ⟨40, ".e".toList⟩]).program.find?
          (fun l => decide ((30 : Int) < l.number))).map Line.number).getD 0 :: [] ∧
      executeStatement exact o.st ".rtn".toList 1 0 = some o2 ∧
      o2.jumpLine =
        (((State.init exact [⟨10, ".gs 30".toList⟩, ⟨20, ".e".toList⟩, ⟨30, ".rtn".toList⟩,
            ⟨40, ".e".toList⟩]).program.find?
          (fun l => decide ((30 : Int) < l.number))).map Line.number).getD 0 ∧
      o2.nextLine = 0 ∧ o2.st.gosubStack = [] :=
  gosub_return_point exact
    (State.init exact [⟨10, ".gs 30".toList⟩, ⟨20, ".e".toList⟩, ⟨30, ".rtn".toList⟩,
      ⟨40, ".e".toList⟩]) 10 ".gs 30".toList ".rtn".toList 30 1 0 1 0
    (by decide) (by decide) (by decide) (by decide) (by decide)

/-- C8 (the code at a full call stack). With 100 entries on the call stack,
`.gs 30` reports the overflow and pushes nothing, yet it still sets
`jumpLine = 30` and `nextLine = 0`: the jump is performed. -/
theorem gosub_overflow_still_jumps :
    (executeStatement exact
        { State.init exact [⟨30, ".rtn".toList⟩] with gosubStack := List.replicate 100 7 }
        ".gs 30".toList 1 0).map
      (fun o => (o.jumpLine, o.nextLine, o.st.stderr, o.st.gosubStack)) =
    some (30, 0, [⟨0, "[!!!] GOSUB stack overflow"⟩], List.replicate 100 7) := by
  decide

/-- C9. With 100 entries on the call stack a `.gs` statement leaves the stack
as it is, and a `.rtn` executed afterwards succeeds: it sets `jumpLine` to the
entry that was on top and pops it.  No statement and no run takes a call stack
of at most 100 entries to one with more; a run starts from the empty stack. -/
theorem overflow_keeps_stack (A : LongDouble α) (st : State α) (s s2 : List Char)
    (nl jl nl2 jl2 : Int)
    (hkw : strncasecmpEq ".gs".toList (skipWhitespace s) = true)
    (hfull : st.gosubStack.length = 100)
    (hrtn : strncasecmpEq ".rtn".toList (skipWhitespace s2) = true) :
    (∃ o o2 : Outcome α,
      executeStatement A st s nl jl = some o ∧ o.st.gosubStack = st.gosubStack ∧
      executeStatement A o.st s2 nl2 jl2 = some o2 ∧
      some o2.jumpLine = st.gosubStack.head? ∧ o2.nextLine = 0 ∧
      o2.st.gosubStack = st.gosubStack.tail) ∧
    (∀ (st0 : State α) (s0 : List Char) (nl0 jl0 : Int) (o0 : Outcome α),
      st0.gosubStack.length ≤ 100 → executeStatement A st0 s0 nl0 jl0 = some o0 →
      o0.st.gosubStack.length ≤ 100) ∧
    (∀ (fuel : Nat) (sigint : List Bool) (st0 st1 : State α) (current : List Line),
      st0.gosubStack.length ≤ 100 → runLoop A fuel sigint st0 current = some st1 →
      st1.gosubStack.length ≤ 100) ∧
    (∀ (fuel : Nat) (sigint : List Bool) (st0 st1 : State α),
      runProgram A fuel sigint st0 = some st1 → st1.gosubStack.length ≤ 100) := by
  refine ⟨?_, fun st0 s0 nl0 jl0 o0 h0 h1 => executeStatement_length_le A st0 s0 nl0 jl0 o0 h0 h1,
    fun fuel sigint st0 st1 current h0 h1 => runLoop_length_le A fuel sigint st0 st1 current h0 h1,
    fun fuel sigint st0 st1 h1 => runProgram_length_le A fuel sigint st0 st1 h1⟩
  have h1 := executeStatement_gs A st s nl jl hkw
  have hnot : ¬ st.gosubStack.length < GOSUB_STACK_SIZE := by
    rw [hfull]; exact Nat.lt_irrefl 100
  have hstack : (execGosub st ((skipWhitespace s).drop 3) nl jl).st.gosubStack
      = st.gosubStack := by
    unfold execGosub
    by_cases hz : atoi (skipWhitespace ((skipWhitespace s).drop 3)) = 0
    · rw [if_pos hz]; rfl
    · rw [if_neg hz, if_neg hnot]; rfl
  have h2 := executeStatement_rtn A (execGosub st ((skipWhitespace s).drop 3) nl jl).st
    s2 nl2 jl2 hrtn
  refine ⟨_, _, h1, hstack, h2, ?_, ?_, ?_⟩
  all_goals
    unfold execReturn
    rw [hstack]
    cases hs : st.gosubStack with
    | nil => rw [hs] at hfull; cases hfull
    | cons top below => rfl

theorem overflow_keeps_stack_witness :
    ∃ o o2 : Outcome Frac,
      executeStatement exact
        { State.init exact [] with gosubStack := 40 :: List.replicate 99 7 }
        ".gs 30".toList 1 0 = some o ∧
      o.st.gosubStack = 40 :: List.replicate 99 7 ∧
      executeStatement exact o.st ".rtn".toList 1 0 = some o2 ∧
      some o2.jumpLine = (40 :: List.replicate 99 7).head? ∧ o2.nextLine = 0 ∧
      o2.st.gosubStack = (40 :: List.replicate 99 7).tail :=
  (overflow_keeps_stack exact
    { State.init exact [] with gosubStack := 40 :: List.replicate 99 7 }
    ".gs 30".toList ".rtn".toList 1 0 1 0 (by decide) (by decide) (by decide)).1

/-- C10. A `.rtn` statement executed with a non-empty call stack sets
`jumpLine` to the top entry and `nextLine = 0` and removes that entry only;
with an empty call stack it reports the underflow and leaves `jumpLine`,
`nextLine`, the call stack and both variable stores as they were. -/
theorem return_pops_or_fails (A : LongDouble α) (st : State α) (s : List Char) (nl jl : Int)
    (hkw : strncasecmpEq ".rtn".toList (skipWhitespace s) = true) :
    (∀ top below, st.gosubStack = top :: below →
      executeStatement A st s nl jl = some ⟨{ st with gosubStack := below }, 0, top⟩) ∧
    (st.gosubStack = [] →
      ∃ o : Outcome α, executeStatement A st s nl jl = some o ∧
        o.jumpLine = jl ∧ o.nextLine = nl ∧ o.st.gosubStack = [] ∧
        o.st.numVars = st.numVars ∧ o.st.strVars = st.strVars ∧
        o.st.stderr = st.stderr ++ [⟨st.currentProgramLine, "[!!!] GOSUB stack underflow"⟩]) := by
  have h := executeStatement_rtn A st s nl jl hkw
  constructor
  · intro top below hs
    rw [h]; unfold execReturn; rw [hs]
  · intro hs
    have he : execReturn st nl jl = ⟨st.error "[!!!] GOSUB stack underflow", nl, jl⟩ := by
      unfold execReturn; rw [hs]
    rw [he] at h
    exact ⟨_, h, rfl, rfl, hs, rfl, rfl, rfl⟩

theorem return_pops_or_fails_witness :
    (executeStatement exact
        { State.init exact [] with gosubStack := [40, 20] } " .RTN".toList 1 0).map
      (fun o => (o.jumpLine, o.nextLine, o.st.gosubStack)) = some (40, 0, [20]) ∧
    ∃ o : Outcome Frac,
      executeStatement exact (State.init exact []) ".rtn".toList 1 0 = some o ∧
        o.jumpLine = 0 ∧ o.nextLine = 1 ∧ o.st.gosubStack = [] ∧
        o.st.numVars = (State.init exact []).numVars ∧
        o.st.strVars = (State.init exact []).strVars ∧
        o.st.stderr = (State.init exact []).stderr ++
          [⟨(State.init exact []).currentProgramLine, "[!!!] GOSUB stack underflow"⟩] :=
  ⟨by rw [(return_pops_or_fails exact { State.init exact [] with gosubStack := [40, 20] }
        " .RTN".toList 1 0 (by decide)).1 40 [20] rfl]; rfl,
   (return_pops_or_fails exact (State.init exact []) ".rtn".toList 1 0 (by decide)).2 rfl⟩

end Dispatch

/-! ## The evaluator: characters, call depth, termination -/

theorem char_eq_of_toNat (c d : Char) (h : c.toNat = d.toNat) : c = d := by
  apply Char.ext
  apply UInt32.ext
  exact h

theorem isdigit_cases (d : Char) (h : isdigit d = true) :
    d = '0' ∨ d = '1' ∨ d = '2' ∨ d = '3' ∨ d = '4' ∨ d = '5' ∨ d = '6' ∨ d = '7' ∨
      d = '8' ∨ d = '9' := by
  simp only [isdigit, Bool.and_eq_true, decide_eq_true_eq] at h
  have h1 : 48 ≤ d.toNat := h.1
  have h2 : d.toNat ≤ 57 := h.2
  have h3 : d.toNat = 48 ∨ d.toNat = 49 ∨ d.toNat = 50 ∨ d.toNat = 51 ∨ d.toNat = 52 ∨
      d.toNat = 53 ∨ d.toNat = 54 ∨ d.toNat = 55 ∨ d.toNat = 56 ∨ d.toNat = 57 := by omega
  rcases h3 with h | h | h | h | h | h | h | h | h | h
  · left; exact char_eq_of_toNat _ _ h
  · right; left; exact char_eq_of_toNat _ _ h
  · right; right; left; exact char_eq_of_toNat _ _ h
  · right; right; right; left; exact char_eq_of_toNat _ _ h
  · right; right; right; right; left; exact char_eq_of_toNat _ _ h
  · right; right; right; right; right; left; exact char_eq_of_toNat _ _ h
  · right; right; right; right; right; right; left; exact char_eq_of_toNat _ _ h
  · right; right; right; right; right; right; right; left; exact char_eq_of_toNat _ _ h
  · right; right; right; right; right; right; right; right; left; exact char_eq_of_toNat _ _ h
  · right; right; right; right; right; right; right; right; right; exact char_eq_of_toNat _ _ h

/-- Facts about a digit character that the scanners test. -/
theorem digit_facts (d : Char) (h : isdigit d = true) :
    isspace d = false ∧ isalpha d = false ∧ tolower d = d ∧ d ≠ '-' ∧ d ≠ '+' ∧ d ≠ '(' ∧
      d ≠ '.' ∧ d ≠ 'i' ∧ d ≠ 'n' ∧ d ≠ 'x' ∧ d ≠ 'e' := by
  rcases isdigit_cases d h with h | h | h | h | h | h | h | h | h | h <;> subst h <;> decide

section Mono
variable {α : Type}

theorem parse_fuel_succ (A : LongDouble α) (numVars : Nat → α) (line : Int) (fuel : Nat) :
    (∀ s r, parseFactor A numVars line fuel s = some r →
        parseFactor A numVars line (fuel + 1) s = some r) ∧
    (∀ v e s r, termLoop A numVars line fuel v e s = some r →
        termLoop A numVars line (fuel + 1) v e s = some r) ∧
    (∀ s r, parseTerm A numVars line fuel s = some r →
        parseTerm A numVars line (fuel + 1) s = some r) ∧
    (∀ v e s r, exprLoop A numVars line fuel v e s = some r →
        exprLoop A numVars line (fuel + 1) v e s = some r) ∧
    (∀ s r, parseExpression A numVars line fuel s = some r →
        parseExpression A numVars line (fuel + 1) s = some r) := by
  induction fuel with
  | zero =>
    refine ⟨?_, ?_, ?_, ?_, ?_⟩ <;> intros <;> rename_i h <;>
      simp [parseFactor, termLoop, parseTerm, exprLoop, parseExpression] at h
  | succ n ih =>
    obtain ⟨ihF, ihTL, ihT, ihEL, ihE⟩ := ih
    refine ⟨?_, ?_, ?_, ?_, ?_⟩
    · intro s r h
      rw [parseFactor] at h
      rw [parseFactor]
      split_ifs at h ⊢ with h1 h2
      · cases hE : parseExpression A numVars line n (skipWhitespace s).tail with
        | none => rw [hE] at h; cases h
        | some r1 =>
          rw [hE] at h
          rw [ihE _ _ hE]
          exact h
      · exact h
      · exact h
    · intro v e s r h
      rw [termLoop] at h
      rw [termLoop]
      split_ifs at h ⊢ with h1
      · cases hF : parseFactor A numVars line n s.tail with
        | none => rw [hF] at h; cases h
        | some r1 =>
          rw [hF] at h
          rw [ihF _ _ hF]
          exact ihTL _ _ _ _ h
      · exact h
    · intro s r h
      rw [parseTerm] at h
      rw [parseTerm]
      cases hF : parseFactor A numVars line n s with
      | none => rw [hF] at h; cases h
      | some r1 =>
        rw [hF] at h
        rw [ihF _ _ hF]
        exact ihTL _ _ _ _ h
    · intro v e s r h
      rw [exprLoop] at h
      rw [exprLoop]
      split_ifs at h ⊢ with h1
      · cases hT : parseTerm A numVars line n s.tail with
        | none => rw [hT] at h; cases h
        | some r1 =>
          rw [hT] at h
          rw [ihT _ _ hT]
          exact ihEL _ _ _ _ h
      · exact h
    · intro s r h
      rw [parseExpression] at h
      rw [parseExpression]
      cases hT : parseTerm A numVars line n s with
      | none => rw [hT] at h; cases h
      | some r1 =>
        rw [hT] at h
        rw [ihT _ _ hT]
        exact ihEL _ _ _ _ h

end Mono
section Lengths
variable {α : Type}

theorem skipWhitespace_length_le (s : List Char) : (skipWhitespace s).length ≤ s.length := by
  induction s with
  | nil => exact Nat.le_refl _
  | cons c cs ih =>
    simp only [skipWhitespace]
    split_ifs
    · exact Nat.le_succ_of_le ih
    · exact Nat.le_refl _

theorem dropWhile_length_le (p : Char → Bool) (s : List Char) :
    (s.dropWhile p).length ≤ s.length :=
  (List.dropWhile_sublist p).length_le

theorem tail_length_le (s : List Char) : s.tail.length ≤ s.length := by
  rw [List.length_tail]; exact Nat.sub_le _ _

theorem skipCall_length_le (s : List Char) : (skipCall s).length ≤ s.length := by
  unfold skipCall
  split_ifs
  · exact Nat.le_trans (tail_length_le _) (dropWhile_length_le _ _)
  · exact dropWhile_length_le _ _

theorem scanMantissa_length_le (isd : Char → Bool) (s ip fp r : List Char)
    (h : scanMantissa isd s = some (ip, fp, r)) : r.length ≤ s.length := by
  unfold scanMantissa at h
  split at h
  · rename_i t ht
    split_ifs at h
    cases h
    have h1 : (s.dropWhile isd).length ≤ s.length := dropWhile_length_le _ _
    rw [ht] at h1
    have h2 := dropWhile_length_le isd t
    simp only [List.length_cons] at h1
    omega
  · split_ifs at h
    cases h
    exact dropWhile_length_le _ _

theorem scanSign_length_le (t : List Char) : (scanSign t).2.length ≤ t.length := by
  unfold scanSign
  split <;> simp

theorem scanExponent_length_le (m : Char) (s : List Char) :
    (scanExponent m s).2.length ≤ s.length := by
  unfold scanExponent
  split
  · exact Nat.le_refl _
  · rename_i e t
    split_ifs
    · exact Nat.le_refl _
    · have h1 := dropWhile_length_le isdigit (scanSign t).2
      have h2 := scanSign_length_le t
      simp only [List.length_cons]
      omega
    · exact Nat.le_refl _

theorem scanDecimal_length_le (neg : Bool) (s : List Char) (lit : NumLit) (e : List Char)
    (h : scanDecimal neg s = some (lit, e)) : e.length ≤ s.length := by
  unfold scanDecimal at h
  split at h
  · cases h
  · rename_i ip fp r hm
    cases h
    exact Nat.le_trans (scanExponent_length_le _ _) (scanMantissa_length_le _ _ _ _ _ hm)

theorem scanHex_length_le (neg : Bool) (s : List Char) (lit : NumLit) (e : List Char)
    (h : scanHex neg s = some (lit, e)) : e.length ≤ s.length := by
  unfold scanHex at h
  split at h
  · cases h
  · rename_i ip fp r hm
    cases h
    exact Nat.le_trans (scanExponent_length_le _ _) (scanMantissa_length_le _ _ _ _ _ hm)

theorem scanNanPayload_length_le (t : List Char) : (scanNanPayload t).length ≤ t.length := by
  unfold scanNanPayload
  split
  · rename_i u
    split
    · rename_i v hv
      have h1 := dropWhile_length_le isNChar u
      rw [hv] at h1
      simp only [List.length_cons] at h1 ⊢
      omega
    · exact Nat.le_refl _
  · exact Nat.le_refl _

theorem scanUnsigned_length_le (neg : Bool) (s : List Char) (lit : NumLit) (e : List Char)
    (h : scanUnsigned neg s = some (lit, e)) : e.length ≤ s.length := by
  unfold scanUnsigned at h
  split_ifs at h
  · cases h; simp
  · cases h; simp
  · cases h
    exact Nat.le_trans (scanNanPayload_length_le _) (by simp)
  · split at h
    · rename_i r hr
      cases h
      exact Nat.le_trans (scanHex_length_le _ _ _ _ hr) (by simp)
    · exact scanDecimal_length_le _ _ _ _ h
  · exact scanDecimal_length_le _ _ _ _ h

theorem strtold_length_le (s : List Char) (lit : NumLit) (e : List Char)
    (h : strtold s = some (lit, e)) : e.length ≤ s.length := by
  unfold strtold at h
  have hs := skipWhitespace_length_le s
  split at h
  · rename_i u hu
    have := scanUnsigned_length_le _ _ _ _ h
    rw [hu] at hs; simp only [List.length_cons] at hs; omega
  · rename_i u hu
    have := scanUnsigned_length_le _ _ _ _ h
    rw [hu] at hs; simp only [List.length_cons] at hs; omega
  · have := scanUnsigned_length_le _ _ _ _ h
    omega

theorem parseNumber_length_le (A : LongDouble α) (line : Int) (s : List Char) :
    (parseNumber A line s).rest.length ≤ s.length := by
  unfold parseNumber
  split
  · exact skipWhitespace_length_le s
  · rename_i lit e h
    exact Nat.le_trans (skipWhitespace_length_le e) (strtold_length_le _ _ _ h)

theorem parseIdent_length_le (A : LongDouble α) (numVars : Nat → α) (line : Int)
    (s : List Char) : (parseIdent A numVars line s).rest.length ≤ s.length := by
  have h1 := dropWhile_length_le isalpha s
  have h2 := skipWhitespace_length_le (s.dropWhile isalpha)
  have h3 := skipWhitespace_length_le (skipWhitespace (s.dropWhile isalpha))
  have h4 := skipCall_length_le (skipWhitespace (s.dropWhile isalpha))
  unfold parseIdent
  split_ifs <;> simp only <;> omega

end Lengths
section Total
variable {α : Type}

theorem peek_length (s : List Char) (c : Char) (h : peek s c = true) :
    s.tail.length + 1 = s.length := by
  cases s with
  | nil => simp [peek] at h
  | cons d t => simp

theorem peek_or_length (s : List Char) (c d : Char) (h : (peek s c || peek s d) = true) :
    s.tail.length + 1 = s.length := by
  rcases Bool.or_eq_true _ _ |>.mp h with h | h
  · exact peek_length s c h
  · exact peek_length s d h

theorem parse_total_aux (A : LongDouble α) (numVars : Nat → α) (line : Int) (fuel : Nat) :
    (∀ s, 4 * s.length + 1 ≤ fuel →
        ∃ r, parseFactor A numVars line fuel s = some r ∧ r.rest.length ≤ s.length) ∧
    (∀ v e s, 4 * s.length + 2 ≤ fuel →
        ∃ r, termLoop A numVars line fuel v e s = some r ∧ r.rest.length ≤ s.length) ∧
    (∀ s, 4 * s.length + 3 ≤ fuel →
        ∃ r, parseTerm A numVars line fuel s = some r ∧ r.rest.length ≤ s.length) ∧
    (∀ v e s, 4 * s.length + 3 ≤ fuel →
        ∃ r, exprLoop A numVars line fuel v e s = some r ∧ r.rest.length ≤ s.length) ∧
    (∀ s, 4 * s.length + 4 ≤ fuel →
        ∃ r, parseExpression A numVars line fuel s = some r ∧ r.rest.length ≤ s.length) := by
  induction fuel with
  | zero =>
    refine ⟨?_, ?_, ?_, ?_, ?_⟩ <;> intros <;> omega
  | succ n ih =>
    obtain ⟨ihF, ihTL, ihT, ihEL, ihE⟩ := ih
    refine ⟨?_, ?_, ?_, ?_, ?_⟩
    · intro s hs
      have hw := skipWhitespace_length_le s
      rw [parseFactor]
      split_ifs with h1 h2
      · have hl := peek_length _ _ h1
        obtain ⟨r1, hr1, hlen⟩ := ihE (skipWhitespace s).tail (by omega)
        rw [hr1]
        have a1 := skipWhitespace_length_le r1.rest
        have a2 := tail_length_le (skipWhitespace r1.rest)
        have a3 := skipWhitespace_length_le (skipWhitespace r1.rest).tail
        have a4 := skipWhitespace_length_le (skipWhitespace r1.rest)
        simp only
        split_ifs
        · exact ⟨_, rfl, by simp only; omega⟩
        · exact ⟨_, rfl, by simp only; omega⟩
      · exact ⟨_, rfl, Nat.le_trans (parseIdent_length_le A numVars line _) hw⟩
      · exact ⟨_, rfl, Nat.le_trans (parseNumber_length_le A line _) hw⟩
    · intro v e s hs
      rw [termLoop]
      split_ifs with h1
      · have hl := peek_or_length _ _ _ h1
        obtain ⟨r1, hr1, hlen⟩ := ihF s.tail (by omega)
        rw [hr1]
        have a1 := skipWhitespace_length_le r1.rest
        obtain ⟨r2, hr2, hlen2⟩ := ihTL
          (applyMulDiv A line (s.headD ' ') v r1.val).1
          (e ++ r1.errs ++ (applyMulDiv A line (s.headD ' ') v r1.val).2)
          (skipWhitespace r1.rest) (by omega)
        exact ⟨r2, hr2, by omega⟩
      · exact ⟨_, rfl, Nat.le_refl _⟩
    · intro s hs
      rw [parseTerm]
      obtain ⟨r1, hr1, hlen⟩ := ihF s (by omega)
      rw [hr1]
      have a1 := skipWhitespace_length_le r1.rest
      obtain ⟨r2, hr2, hlen2⟩ := ihTL r1.val r1.errs (skipWhitespace r1.rest) (by omega)
      exact ⟨r2, hr2, by omega⟩
    · intro v e s hs
      rw [exprLoop]
      split_ifs with h1
      · have hl := peek_or_length _ _ _ h1
        obtain ⟨r1, hr1, hlen⟩ := ihT s.tail (by omega)
        rw [hr1]
        have a1 := skipWhitespace_length_le r1.rest
        obtain ⟨r2, hr2, hlen2⟩ := ihEL (applyAddSub A (s.headD ' ') v r1.val)
          (e ++ r1.errs) (skipWhitespace r1.rest) (by omega)
        exact ⟨r2, hr2, by omega⟩
      · exact ⟨_, rfl, Nat.le_refl _⟩
    · intro s hs
      rw [parseExpression]
      obtain ⟨r1, hr1, hlen⟩ := ihT s (by omega)
      rw [hr1]
      have a1 := skipWhitespace_length_le r1.rest
      obtain ⟨r2, hr2, hlen2⟩ := ihEL r1.val r1.errs (skipWhitespace r1.rest) (by omega)
      exact ⟨r2, hr2, by omega⟩

/-- The evaluator returns on every text: `parseExpr` is never `none`, and the
cursor it leaves is not longer than the text. -/
theorem parseExpr_total (A : LongDouble α) (numVars : Nat → α) (line : Int) (s : List Char) :
    ∃ r, parseExpr A numVars line s = some r ∧ r.rest.length ≤ s.length :=
  (parse_total_aux A numVars line (exprFuel s)).2.2.2.2 s (Nat.le_refl _)

theorem parseExpression_mono (A : LongDouble α) (numVars : Nat → α) (line : Int)
    (fuel fuel2 : Nat) (hle : fuel ≤ fuel2) (s : List Char) (r : Parsed α)
    (h : parseExpression A numVars line fuel s = some r) :
    parseExpression A numVars line fuel2 s = some r := by
  induction fuel2 with
  | zero =>
    have : fuel = 0 := Nat.le_zero.mp hle
    rw [this] at h; exact h
  | succ n ih =>
    rcases Nat.lt_or_ge n fuel with hlt | hge
    · have : fuel = n + 1 := by omega
      rw [this] at h; exact h
    · exact (parse_fuel_succ A numVars line n).2.2.2.2 s r (ih hge)

/-- Whatever some call depth yields is what a statement's call yields. -/
theorem parseExpr_of_fuel (A : LongDouble α) (numVars : Nat → α) (line : Int)
    (fuel : Nat) (s : List Char) (r : Parsed α)
    (h : parseExpression A numVars line fuel s = some r) :
    parseExpr A numVars line s = some r := by
  obtain ⟨r2, h2, _⟩ := parseExpr_total A numVars line s
  rw [h2]
  unfold parseExpr at h2
  have a := parseExpression_mono A numVars line fuel (max fuel (exprFuel s))
    (Nat.le_max_left _ _) s r h
  have b := parseExpression_mono A numVars line (exprFuel s) (max fuel (exprFuel s))
    (Nat.le_max_right _ _) s r2 h2
  rw [a] at b
  exact b.symm

end Total

/-! ## The evaluator refines the grammar -/

section Refine
variable {α : Type}

theorem isspace_cases (c : Char) (h : isspace c = true) :
    c = ' ' ∨ c = '\t' ∨ c = '\n' ∨ c = '\x0b' ∨ c = '\x0c' ∨ c = '\r' := by
  simp only [isspace, Bool.or_eq_true, beq_iff_eq] at h
  tauto

theorem space_facts (c : Char) (h : isspace c = true) :
    isalpha c = false ∧ isdigit c = false ∧ c ≠ '.' ∧ c ≠ '(' := by
  rcases isspace_cases c h with h | h | h | h | h | h <;> subst h <;> decide

theorem alpha_not_space (c : Char) (h : isalpha c = true) : isspace c = false := by
  cases hs : isspace c with
  | false => rfl
  | true => rw [(space_facts c hs).1] at h; cases h

theorem alpha_not_digit (c : Char) (h : isalpha c = true) : isdigit c = false := by
  cases hs : isdigit c with
  | false => rfl
  | true => rw [(digit_facts c hs).2.1] at h; cases h

theorem alpha_ne_paren (c : Char) (h : isalpha c = true) : c ≠ '(' := by
  rintro rfl
  exact absurd h (by decide)

theorem isalpha_of_tolower (c k : Char) (hk : islower k = true) (h : tolower c = k) :
    isalpha c = true := by
  unfold tolower at h
  unfold isalpha
  split_ifs at h with hu
  · rw [hu]; rfl
  · rw [h, hk]; simp

theorem skipWhitespace_of_head (c : Char) (t : List Char) (h : isspace c = false) :
    skipWhitespace (c :: t) = c :: t := by
  simp [skipWhitespace, h]

theorem skipWhitespace_append (ws s : List Char) (h : ws.all isspace = true) :
    skipWhitespace (ws ++ s) = skipWhitespace s := by
  induction ws with
  | nil => rfl
  | cons c cs ih =>
    simp only [List.all_cons, Bool.and_eq_true] at h
    simp only [List.cons_append, skipWhitespace, h.1, if_true]
    exact ih h.2

theorem skipWhitespace_head_not_space (s : List Char) (c : Char)
    (h : (skipWhitespace s).head? = some c) : isspace c = false := by
  induction s with
  | nil => simp [skipWhitespace] at h
  | cons d t ih =>
    simp only [skipWhitespace] at h
    split_ifs at h with hd
    · exact ih h
    · simp only [List.head?_cons, Option.some.injEq] at h
      rw [← h]; simpa using hd

theorem skipWhitespace_idem (s : List Char) :
    skipWhitespace (skipWhitespace s) = skipWhitespace s := by
  cases hs : skipWhitespace s with
  | nil => rfl
  | cons c t =>
    have := skipWhitespace_head_not_space s c (by rw [hs]; rfl)
    exact skipWhitespace_of_head c t this

theorem takeWhile_append_stop (p : Char → Bool) (ds rest : List Char)
    (hds : ds.all p = true) (hrest : ∀ c, rest.head? = some c → p c = false) :
    (ds ++ rest).takeWhile p = ds ∧ (ds ++ rest).dropWhile p = rest := by
  induction ds with
  | nil =>
    cases rest with
    | nil => exact ⟨rfl, rfl⟩
    | cons c t =>
      have := hrest c rfl
      simp [List.takeWhile, List.dropWhile, this]
  | cons d ds ih =>
    simp only [List.all_cons, Bool.and_eq_true] at hds
    have := ih hds.2
    simp [List.takeWhile, List.dropWhile, hds.1, this.1, this.2]

theorem scanExponent_none (m : Char) (hm : islower m = true) (rest : List Char)
    (h : ∀ c, rest.head? = some c → isalpha c = false) :
    scanExponent m rest = (none, rest) := by
  cases rest with
  | nil => rfl
  | cons c t =>
    have hc := h c rfl
    have : (tolower c == m) = false := by
      cases hb : (tolower c == m) with
      | false => rfl
      | true =>
        have := isalpha_of_tolower c m hm (by simpa using hb)
        rw [this] at hc; cases hc
    simp [scanExponent, this]

theorem strncasecmpEq_head_false (k d : Char) (ks t : List Char)
    (h : tolower d ≠ tolower k) : strncasecmpEq (k :: ks) (d :: t) = false := by
  simp [strncasecmpEq, h]

theorem strtold_digits (ds rest : List Char) (hne : ds ≠ []) (hds : ds.all isdigit = true)
    (hrest : ∀ c, rest.head? = some c → isdigit c = false ∧ isalpha c = false ∧ c ≠ '.') :
    strtold (ds ++ rest) = some (.dec false ds [] none, rest) := by
  obtain ⟨d, ds2, rfl⟩ := List.exists_cons_of_ne_nil hne
  simp only [List.all_cons, Bool.and_eq_true] at hds
  obtain ⟨hd1, _, hd3, hd4, hd5, _, _, hd8, hd9, _, _⟩ := digit_facts d hds.1
  have htw := takeWhile_append_stop isdigit (d :: ds2) rest
    (by simp [hds.1, hds.2]) (fun c hc => (hrest c hc).1)
  have hsm : scanMantissa isdigit (d :: ds2 ++ rest) = some (d :: ds2, [], rest) := by
    unfold scanMantissa
    rw [htw.1, htw.2]
    cases rest with
    | nil => rfl
    | cons c t =>
      have hc := (hrest c rfl).2.2
      split
      · rename_i t2 heq
        simp only [List.cons.injEq] at heq
        exact absurd heq.1 hc
      · rfl
  have hdec : scanDecimal false (d :: ds2 ++ rest) = some (.dec false (d :: ds2) [] none, rest) := by
    unfold scanDecimal
    rw [hsm]
    simp only
    rw [scanExponent_none 'e' (by decide) rest (fun c hc => (hrest c hc).2.1)]
  have hx : strncasecmpEq "0x".toList (d :: ds2 ++ rest) = false := by
    show strncasecmpEq ['0', 'x'] (d :: (ds2 ++ rest)) = false
    cases hr : ds2 ++ rest with
    | nil => simp [strncasecmpEq]
    | cons c t =>
      have hcx : tolower c ≠ tolower 'x' := by
        intro hcx
        have ha := isalpha_of_tolower c 'x' (by decide) hcx
        cases ds2 with
        | nil =>
          simp only [List.nil_append] at hr
          have := (hrest c (by rw [hr]; rfl)).2.1
          rw [this] at ha; cases ha
        | cons d2 ds3 =>
          simp only [List.cons_append, List.cons.injEq] at hr
          have hd2 : isdigit d2 = true := by
            have := hds.2
            simp only [List.all_cons, Bool.and_eq_true] at this
            exact this.1
          rw [← hr.1] at ha
          rw [alpha_not_digit d2 ha] at hd2; cases hd2
      simp [strncasecmpEq, hcx]
  have hun : scanUnsigned false (d :: ds2 ++ rest) =
      some (.dec false (d :: ds2) [] none, rest) := by
    unfold scanUnsigned
    have h1 : strncasecmpEq "infinity".toList (d :: ds2 ++ rest) = false :=
      strncasecmpEq_head_false 'i' d _ _ (by rw [hd3]; exact hd8)
    have h2 : strncasecmpEq "inf".toList (d :: ds2 ++ rest) = false :=
      strncasecmpEq_head_false 'i' d _ _ (by rw [hd3]; exact hd8)
    have h3 : strncasecmpEq "nan".toList (d :: ds2 ++ rest) = false :=
      strncasecmpEq_head_false 'n' d _ _ (by rw [hd3]; exact hd9)
    rw [h1, h2, h3, hx]
    simp only [Bool.false_eq_true, if_false]
    exact hdec
  unfold strtold
  rw [show d :: ds2 ++ rest = d :: (ds2 ++ rest) from rfl, skipWhitespace_of_head d _ hd1]
  split
  · rename_i u heq
    simp only [List.cons.injEq] at heq
    exact absurd heq.1 hd4
  · rename_i u heq
    simp only [List.cons.injEq] at heq
    exact absurd heq.1 hd5
  · exact hun


theorem takeWhile_append_more (p : Char → Bool) (s rest : List Char)
    (h : ∀ c, rest.head? = some c → p c = false) :
    (s ++ rest).takeWhile p = s.takeWhile p ∧
      (s ++ rest).dropWhile p = s.dropWhile p ++ rest := by
  induction s with
  | nil =>
    cases rest with
    | nil => exact ⟨rfl, rfl⟩
    | cons c t =>
      have := h c rfl
      simp [List.takeWhile, List.dropWhile, this]
  | cons d ds ih =>
    by_cases hd : p d = true
    · simp [List.takeWhile, List.dropWhile, hd, ih.1, ih.2]
    · simp [List.takeWhile, List.dropWhile, hd]

theorem dropWhile_append_ne_nil (p : Char → Bool) (s rest : List Char)
    (h : s.dropWhile p ≠ []) : (s ++ rest).dropWhile p = s.dropWhile p ++ rest := by
  induction s with
  | nil => exact absurd rfl h
  | cons d ds ih =>
    by_cases hd : p d = true
    · rw [List.cons_append, List.dropWhile_cons, if_pos hd, List.dropWhile_cons, if_pos hd]
      rw [List.dropWhile_cons, if_pos hd] at h
      exact ih h
    · rw [List.cons_append, List.dropWhile_cons, if_neg hd, List.dropWhile_cons, if_neg hd]
      rfl

theorem scanMantissa_dot (isd : Char → Bool) (s t : List Char)
    (hdw : s.dropWhile isd = '.' :: t) :
    scanMantissa isd s =
      if (s.takeWhile isd).isEmpty && (t.takeWhile isd).isEmpty then none
      else some (s.takeWhile isd, t.takeWhile isd, t.dropWhile isd) := by
  unfold scanMantissa
  rw [hdw]
  rfl

theorem scanMantissa_other (isd : Char → Bool) (s r : List Char)
    (hdw : s.dropWhile isd = r) (hr : ∀ t, r ≠ '.' :: t) :
    scanMantissa isd s =
      if (s.takeWhile isd).isEmpty then none else some (s.takeWhile isd, [], r) := by
  unfold scanMantissa
  rw [hdw]
  split
  · exact absurd rfl (hr _)
  · rfl

/-- Appending text that starts with neither a digit of the mantissa nor a
point does not change what the mantissa scan reads. -/
theorem scanMantissa_append (isd : Char → Bool) (s rest : List Char)
    (h : ∀ c, rest.head? = some c → isd c = false ∧ c ≠ '.') :
    scanMantissa isd (s ++ rest) =
      (scanMantissa isd s).map (fun r => (r.1, r.2.1, r.2.2 ++ rest)) := by
  have h1 := takeWhile_append_more isd s rest (fun c hc => (h c hc).1)
  cases hdw : s.dropWhile isd with
  | nil =>
    have hr : ∀ t2, rest ≠ '.' :: t2 := by
      intro t2 heq
      exact (h '.' (by rw [heq]; rfl)).2 rfl
    rw [scanMantissa_other isd (s ++ rest) rest (by rw [h1.2, hdw]; rfl) hr, h1.1,
      scanMantissa_other isd s [] hdw (fun t heq => by cases heq)]
    split_ifs <;> rfl
  | cons c t =>
    by_cases hc : c = '.'
    · subst hc
      have h2 := takeWhile_append_more isd t rest (fun c hc => (h c hc).1)
      rw [scanMantissa_dot isd (s ++ rest) (t ++ rest) (by rw [h1.2, hdw]; rfl), h1.1, h2.1,
        h2.2, scanMantissa_dot isd s t hdw]
      split_ifs <;> rfl
    · rw [scanMantissa_other isd (s ++ rest) (c :: t ++ rest) (by rw [h1.2, hdw])
          (fun t2 heq => by
            simp only [List.cons_append, List.cons.injEq] at heq
            exact hc heq.1),
        h1.1,
        scanMantissa_other isd s (c :: t) hdw (fun t2 heq => by
          simp only [List.cons.injEq] at heq
          exact hc heq.1)]
      split_ifs <;> rfl

theorem scanSign_append (t rest : List Char) (h : t ≠ []) :
    scanSign (t ++ rest) = ((scanSign t).1, (scanSign t).2 ++ rest) := by
  obtain ⟨c, u, rfl⟩ := List.exists_cons_of_ne_nil h
  by_cases h1 : c = '-'
  · subst h1; rfl
  · by_cases h2 : c = '+'
    · subst h2; rfl
    · have a : scanSign (c :: u) = (false, c :: u) := by
        unfold scanSign
        split
        · rename_i u2 heq
          simp only [List.cons.injEq] at heq
          exact absurd heq.1 h1
        · rename_i u2 heq
          simp only [List.cons.injEq] at heq
          exact absurd heq.1 h2
        · rfl
      have b : scanSign (c :: u ++ rest) = (false, c :: u ++ rest) := by
        unfold scanSign
        split
        · rename_i u2 heq
          simp only [List.cons_append, List.cons.injEq] at heq
          exact absurd heq.1 h1
        · rename_i u2 heq
          simp only [List.cons_append, List.cons.injEq] at heq
          exact absurd heq.1 h2
        · rfl
      rw [a, b]

theorem scanExponent_cons (m e : Char) (t : List Char) :
    scanExponent m (e :: t) =
      if tolower e == m then
        if ((scanSign t).2.takeWhile isdigit).isEmpty then (none, e :: t)
        else (some ((scanSign t).1, (scanSign t).2.takeWhile isdigit),
              (scanSign t).2.dropWhile isdigit)
      else (none, e :: t) := rfl

/-- An exponent part that was read to the end of the text is read the same
when text follows that starts with neither a digit nor a letter. -/
theorem scanExponent_append (m : Char) (hm : islower m = true) (s rest : List Char)
    (hfull : (scanExponent m s).2 = [])
    (h : ∀ c, rest.head? = some c → isdigit c = false ∧ isalpha c = false) :
    scanExponent m (s ++ rest) = ((scanExponent m s).1, rest) := by
  cases s with
  | nil =>
    rw [List.nil_append, scanExponent_none m hm rest (fun c hc => (h c hc).2)]
    rfl
  | cons e t =>
    rw [scanExponent_cons] at hfull ⊢
    rw [List.cons_append, scanExponent_cons]
    by_cases hmk : (tolower e == m) = true
    · rw [if_pos hmk] at hfull ⊢
      rw [if_pos hmk]
      by_cases hemp : ((scanSign t).2.takeWhile isdigit).isEmpty = true
      · rw [if_pos hemp] at hfull
        cases hfull
      · rw [if_neg hemp] at hfull ⊢
        have ht : t ≠ [] := by
          intro ht
          subst ht
          exact hemp rfl
        have h2 := takeWhile_append_more isdigit (scanSign t).2 rest (fun c hc => (h c hc).1)
        have hfull2 : (scanSign t).2.dropWhile isdigit = [] := hfull
        rw [scanSign_append t rest ht]
        simp only [h2.1, h2.2]
        rw [if_neg hemp, hfull2]
        rfl
    · rw [if_neg hmk] at hfull
      cases hfull

theorem scanDecimal_append (neg : Bool) (s rest : List Char) (lit : NumLit)
    (hs : scanDecimal neg s = some (lit, []))
    (h : ∀ c, rest.head? = some c → isdigit c = false ∧ isalpha c = false ∧ c ≠ '.') :
    scanDecimal neg (s ++ rest) = some (lit, rest) := by
  unfold scanDecimal at hs ⊢
  rw [scanMantissa_append isdigit s rest (fun c hc => ⟨(h c hc).1, (h c hc).2.2⟩)]
  cases hm : scanMantissa isdigit s with
  | none => rw [hm] at hs; cases hs
  | some r =>
    obtain ⟨ip, fp, r⟩ := r
    rw [hm] at hs
    simp only [Option.some.injEq, Prod.mk.injEq] at hs
    simp only [Option.map_some']
    rw [scanExponent_append 'e' (by decide) r rest hs.2
      (fun c hc => ⟨(h c hc).1, (h c hc).2.1⟩), hs.1]

theorem not_isxdigit (c : Char) (h1 : isdigit c = false) (h2 : isalpha c = false) :
    isxdigit c = false := by
  simp only [isalpha, isupper, islower, Bool.or_eq_false_iff, Bool.and_eq_false_iff,
    decide_eq_false_iff_not] at h2
  simp only [isxdigit, h1, Bool.false_or, Bool.or_eq_false_iff, Bool.and_eq_false_iff,
    decide_eq_false_iff_not]
  have e1 : ∀ a b : Char, a ≤ b ↔ a.toNat ≤ b.toNat := fun a b => Iff.rfl
  simp only [e1] at h2 ⊢
  have a1 : 'a'.toNat = 97 := rfl
  have a2 : 'f'.toNat = 102 := rfl
  have a3 : 'z'.toNat = 122 := rfl
  have a4 : 'A'.toNat = 65 := rfl
  have a5 : 'F'.toNat = 70 := rfl
  have a6 : 'Z'.toNat = 90 := rfl
  rw [a1, a3, a4, a6] at h2
  rw [a1, a2, a4, a5]
  omega

theorem scanHex_append (neg : Bool) (s rest : List Char)
    (h : ∀ c, rest.head? = some c → isdigit c = false ∧ isalpha c = false ∧ c ≠ '.') :
    (scanHex neg s = none → scanHex neg (s ++ rest) = none) ∧
    (∀ lit, scanHex neg s = some (lit, []) → scanHex neg (s ++ rest) = some (lit, rest)) := by
  have hm2 := scanMantissa_append isxdigit s rest
    (fun c hc => ⟨not_isxdigit c (h c hc).1 (h c hc).2.1, (h c hc).2.2⟩)
  constructor
  · intro hs
    unfold scanHex at hs ⊢
    rw [hm2]
    cases hm : scanMantissa isxdigit s with
    | none => rfl
    | some r => rw [hm] at hs; cases hs
  · intro lit hs
    unfold scanHex at hs ⊢
    rw [hm2]
    cases hm : scanMantissa isxdigit s with
    | none => rw [hm] at hs; cases hs
    | some r =>
      obtain ⟨ip, fp, r⟩ := r
      rw [hm] at hs
      simp only [Option.some.injEq, Prod.mk.injEq] at hs
      simp only [Option.map_some']
      rw [scanExponent_append 'p' (by decide) r rest hs.2
        (fun c hc => ⟨(h c hc).1, (h c hc).2.1⟩), hs.1]

theorem scanNanPayload_append (t rest : List Char) (ht : scanNanPayload t = [])
    (h : ∀ c, rest.head? = some c → c ≠ '(') : scanNanPayload (t ++ rest) = rest := by
  cases t with
  | nil =>
    rw [List.nil_append]
    unfold scanNanPayload
    split
    · rename_i u
      exact absurd rfl (h '(' rfl)
    · rfl
  | cons c u =>
    by_cases hc : c = '('
    · subst hc
      unfold scanNanPayload at ht ⊢
      simp only [List.cons_append] at ht ⊢
      cases hd : u.dropWhile isNChar with
      | nil => rw [hd] at ht; cases ht
      | cons d v =>
        rw [hd] at ht
        rw [dropWhile_append_ne_nil isNChar u rest (by rw [hd]; exact List.cons_ne_nil _ _), hd]
        by_cases hdp : d = ')'
        · subst hdp
          simp only at ht
          subst ht
          rfl
        · exfalso
          split at ht
          · rename_i v2 heq
            simp only [List.cons.injEq] at heq
            exact hdp heq.1
          · cases ht
    · exfalso
      unfold scanNanPayload at ht
      split at ht
      · rename_i u2 heq
        simp only [List.cons.injEq] at heq
        exact hc heq.1
      · cases ht

theorem tolower_upper_is_lower (m : Nat) (h1 : 65 ≤ m) (h2 : m ≤ 90) :
    islower (Char.ofNat (m + 32)) = true := by
  interval_cases m <;> decide

/-- A character that `tolower` maps to a lower-case letter or to `0` is a
letter or a digit. -/
theorem tolower_alnum (k c : Char) (hk : islower k = true ∨ k = '0')
    (h : tolower c = k) : isdigit c = true ∨ isalpha c = true := by
  rcases hk with hk | hk
  · exact Or.inr (isalpha_of_tolower c k hk h)
  · subst hk
    unfold tolower at h
    split_ifs at h with hu
    · exfalso
      simp only [isupper, Bool.and_eq_true, decide_eq_true_eq] at hu
      have h1 : 65 ≤ c.toNat := hu.1
      have h2 : c.toNat ≤ 90 := hu.2
      have := tolower_upper_is_lower c.toNat h1 h2
      rw [h] at this
      exact absurd this (by decide)
    · rw [h]; exact Or.inl (by decide)

/-- Text that starts with neither a digit nor a letter does not complete a
keyword made of lower-case letters and `0`. -/
theorem strncasecmpEq_append (kw s rest : List Char)
    (hkw : ∀ k ∈ kw, (islower k = true ∨ k = '0') ∧ tolower k = k)
    (hrest : ∀ c, rest.head? = some c → isdigit c = false ∧ isalpha c = false) :
    strncasecmpEq kw (s ++ rest) = strncasecmpEq kw s := by
  induction kw generalizing s with
  | nil => cases s <;> cases rest <;> rfl
  | cons k ks ih =>
    have hk := hkw k (List.mem_cons_self _ _)
    cases s with
    | nil =>
      cases rest with
      | nil => rfl
      | cons c t =>
        have hc := hrest c rfl
        have hne : tolower c ≠ tolower k := by
          intro heq
          rw [hk.2] at heq
          rcases tolower_alnum k c hk.1 heq with h | h
          · rw [hc.1] at h; cases h
          · rw [hc.2] at h; cases h
        simp [strncasecmpEq, hne]
    | cons d t =>
      have hi := ih t (fun k2 hk2 => hkw k2 (List.mem_cons_of_mem _ hk2))
      show (tolower d == tolower k && strncasecmpEq ks (t ++ rest)) =
        (tolower d == tolower k && strncasecmpEq ks t)
      rw [hi]

theorem strncasecmpEq_length (kw s : List Char) (h : strncasecmpEq kw s = true) :
    kw.length ≤ s.length := by
  induction kw generalizing s with
  | nil => exact Nat.zero_le _
  | cons k ks ih =>
    cases s with
    | nil => cases h
    | cons d t =>
      simp only [strncasecmpEq, Bool.and_eq_true] at h
      exact Nat.succ_le_succ (ih t h.2)

theorem drop_append_full (n : Nat) (s rest : List Char) (hn : n ≤ s.length)
    (h : s.drop n = []) : (s ++ rest).drop n = rest := by
  rw [List.drop_append_of_le_length hn, h, List.nil_append]

/-- A literal that `strtold` read to the end of the text (after the sign) is
read the same when text follows that starts with no digit, letter, point or
opening parenthesis. -/
theorem scanUnsigned_append (neg : Bool) (s rest : List Char) (lit : NumLit)
    (hs : scanUnsigned neg s = some (lit, []))
    (h : ∀ c, rest.head? = some c →
      isdigit c = false ∧ isalpha c = false ∧ c ≠ '.' ∧ c ≠ '(') :
    scanUnsigned neg (s ++ rest) = some (lit, rest) := by
  have h2 : ∀ c, rest.head? = some c → isdigit c = false ∧ isalpha c = false :=
    fun c hc => ⟨(h c hc).1, (h c hc).2.1⟩
  have h3 : ∀ c, rest.head? = some c → isdigit c = false ∧ isalpha c = false ∧ c ≠ '.' :=
    fun c hc => ⟨(h c hc).1, (h c hc).2.1, (h c hc).2.2.1⟩
  have k1 := strncasecmpEq_append "infinity".toList s rest (by decide) h2
  have k2 := strncasecmpEq_append "inf".toList s rest (by decide) h2
  have k3 := strncasecmpEq_append "nan".toList s rest (by decide) h2
  have k4 := strncasecmpEq_append "0x".toList s rest (by decide) h2
  unfold scanUnsigned at hs ⊢
  rw [k1, k2, k3, k4]
  by_cases c1 : strncasecmpEq "infinity".toList s = true
  · rw [if_pos c1] at hs ⊢
    simp only [Option.some.injEq, Prod.mk.injEq] at hs
    rw [drop_append_full 8 s rest (strncasecmpEq_length _ _ c1) hs.2, hs.1]
  rw [if_neg c1] at hs ⊢
  by_cases c2 : strncasecmpEq "inf".toList s = true
  · rw [if_pos c2] at hs ⊢
    simp only [Option.some.injEq, Prod.mk.injEq] at hs
    rw [drop_append_full 3 s rest (strncasecmpEq_length _ _ c2) hs.2, hs.1]
  rw [if_neg c2] at hs ⊢
  by_cases c3 : strncasecmpEq "nan".toList s = true
  · rw [if_pos c3] at hs ⊢
    simp only [Option.some.injEq, Prod.mk.injEq] at hs
    have hdrop : (s ++ rest).drop 3 = s.drop 3 ++ rest :=
      List.drop_append_of_le_length (strncasecmpEq_length _ _ c3)
    rw [hdrop, scanNanPayload_append (s.drop 3) rest hs.2 (fun c hc => (h c hc).2.2.2), hs.1]
  rw [if_neg c3] at hs ⊢
  by_cases c4 : strncasecmpEq "0x".toList s = true
  · rw [if_pos c4] at hs ⊢
    have hdrop : (s ++ rest).drop 2 = s.drop 2 ++ rest :=
      List.drop_append_of_le_length (strncasecmpEq_length _ _ c4)
    rw [hdrop]
    have hx := scanHex_append neg (s.drop 2) rest h3
    cases hh : scanHex neg (s.drop 2) with
    | none =>
      rw [hh] at hs
      rw [hx.1 hh]
      exact scanDecimal_append neg s rest lit hs h3
    | some r =>
      rw [hh] at hs
      simp only [Option.some.injEq] at hs
      rw [hs] at hh
      rw [hx.2 lit hh]
  rw [if_neg c4] at hs ⊢
  exact scanDecimal_append neg s rest lit hs h3

theorem strtold_cons (c : Char) (u : List Char) (hc : isspace c = false) :
    strtold (c :: u) =
      if c = '-' then scanUnsigned true u
      else if c = '+' then scanUnsigned false u
      else scanUnsigned false (c :: u) := by
  unfold strtold
  rw [skipWhitespace_of_head c u hc]
  split
  · rename_i u2 heq
    simp only [List.cons.injEq] at heq
    rw [if_pos heq.1, heq.2]
  · rename_i u2 heq
    simp only [List.cons.injEq] at heq
    have : c ≠ '-' := by rw [heq.1]; decide
    rw [if_neg this, if_pos heq.1, heq.2]
  · rename_i h1 h2
    have a : c ≠ '-' := fun e => h1 u (by rw [e])
    have b : c ≠ '+' := fun e => h2 u (by rw [e])
    rw [if_neg a, if_neg b]

/-- A token that `strtold` converts as a whole is converted the same, and the
cursor left at its end, when text follows that starts with no digit, letter,
point or opening parenthesis. -/
theorem strtold_append (c : Char) (u rest : List Char) (lit : NumLit)
    (hc : isspace c = false) (hs : strtold (c :: u) = some (lit, []))
    (h : ∀ d, rest.head? = some d →
      isdigit d = false ∧ isalpha d = false ∧ d ≠ '.' ∧ d ≠ '(') :
    strtold (c :: u ++ rest) = some (lit, rest) := by
  rw [strtold_cons c u hc] at hs
  rw [List.cons_append, strtold_cons c (u ++ rest) hc]
  by_cases h1 : c = '-'
  · rw [if_pos h1] at hs ⊢
    exact scanUnsigned_append true u rest lit hs h
  rw [if_neg h1] at hs ⊢
  by_cases h2 : c = '+'
  · rw [if_pos h2] at hs ⊢
    exact scanUnsigned_append false u rest lit hs h
  rw [if_neg h2] at hs ⊢
  exact scanUnsigned_append false (c :: u) rest lit hs h

theorem literal_spec (t : List Char) (lit : NumLit) (h : literal t = some lit) :
    ∃ c u, t = c :: u ∧ isspace c = false ∧ isalpha c = false ∧ c ≠ '(' ∧
      strtold (c :: u) = some (lit, []) := by
  unfold literal at h
  cases t with
  | nil => cases h
  | cons c u =>
    refine ⟨c, u, rfl, ?_⟩
    cases hst : strtold (c :: u) with
    | none => rw [hst] at h; cases h
    | some r =>
      obtain ⟨l, e⟩ := r
      rw [hst] at h
      cases e with
      | nil =>
        simp only [List.headD_cons] at h
        split_ifs at h with hcond
        simp only [Bool.or_eq_true, beq_iff_eq, not_or] at hcond
        cases h
        exact ⟨by simpa using hcond.1.1, by simpa using hcond.1.2, hcond.2, rfl⟩
      | cons e1 e2 => cases h

theorem literal_digits (ds : List Char) (hne : ds ≠ []) (hds : ds.all isdigit = true) :
    literal ds = some (.dec false ds [] none) := by
  have hst := strtold_digits ds [] hne hds (fun c hc => by cases hc)
  rw [List.append_nil] at hst
  obtain ⟨d, ds2, rfl⟩ := List.exists_cons_of_ne_nil hne
  simp only [List.all_cons, Bool.and_eq_true] at hds
  have hf := digit_facts d hds.1
  unfold literal
  rw [hst]
  simp only [List.headD_cons, hf.1, hf.2.1, Bool.or_self, Bool.false_or, beq_iff_eq]
  rw [if_neg hf.2.2.2.2.2.1]

theorem scanUnsigned_head (neg : Bool) (c : Char) (u : List Char) (r : NumLit × List Char)
    (h : scanUnsigned neg (c :: u) = some r) (ha : isalpha c = false) :
    isdigit c = true ∨ c = '.' := by
  have key : ∀ (k : Char) (ks : List Char), strncasecmpEq (k :: ks) (c :: u) = true →
      (islower k = true ∨ k = '0') → tolower k = k → isdigit c = true := by
    intro k ks hm hk hkl
    simp only [strncasecmpEq, Bool.and_eq_true, beq_iff_eq] at hm
    rcases tolower_alnum k c hk (hm.1.trans hkl) with h1 | h1
    · exact h1
    · rw [ha] at h1; cases h1
  unfold scanUnsigned at h
  by_cases c1 : strncasecmpEq "infinity".toList (c :: u) = true
  · exact Or.inl (key 'i' _ c1 (by decide) (by decide))
  rw [if_neg c1] at h
  by_cases c2 : strncasecmpEq "inf".toList (c :: u) = true
  · exact Or.inl (key 'i' _ c2 (by decide) (by decide))
  rw [if_neg c2] at h
  by_cases c3 : strncasecmpEq "nan".toList (c :: u) = true
  · exact Or.inl (key 'n' _ c3 (by decide) (by decide))
  rw [if_neg c3] at h
  by_cases c4 : strncasecmpEq "0x".toList (c :: u) = true
  · exact Or.inl (key '0' _ c4 (by decide) (by decide))
  rw [if_neg c4] at h
  unfold scanDecimal at h
  cases hm : scanMantissa isdigit (c :: u) with
  | none => rw [hm] at h; cases h
  | some m =>
    by_cases hd : isdigit c = true
    · exact Or.inl hd
    · right
      by_contra hdot
      have hdw : (c :: u).dropWhile isdigit = c :: u := by
        rw [List.dropWhile_cons, if_neg hd]
      have htw : (c :: u).takeWhile isdigit = [] := by
        rw [List.takeWhile_cons, if_neg hd]
      rw [scanMantissa_other isdigit (c :: u) (c :: u) hdw (fun t heq => by
        simp only [List.cons.injEq] at heq
        exact hdot heq.1), htw] at hm
      cases hm

/-- The first character of a numeric literal is a digit, a point or a
sign. -/
theorem literal_head (t : List Char) (lit : NumLit) (h : literal t = some lit) :
    ∃ c u, t = c :: u ∧ (isdigit c = true ∨ c = '.' ∨ c = '+' ∨ c = '-') := by
  obtain ⟨c, u, rfl, hsp, hal, _, hst⟩ := literal_spec t lit h
  refine ⟨c, u, rfl, ?_⟩
  rw [strtold_cons c u hsp] at hst
  by_cases h1 : c = '-'
  · exact Or.inr (Or.inr (Or.inr h1))
  rw [if_neg h1] at hst
  by_cases h2 : c = '+'
  · exact Or.inr (Or.inr (Or.inl h2))
  rw [if_neg h2] at hst
  rcases scanUnsigned_head false c u _ hst hal with h3 | h3
  · exact Or.inl h3
  · exact Or.inr (Or.inl h3)


theorem varIndex_letter (n : Nat) (h : (65 ≤ n ∧ n ≤ 90) ∨ (97 ≤ n ∧ n ≤ 122)) :
    varIndex (Char.ofNat n) = letterCell (Char.ofNat n) := by
  rcases h with ⟨a, b⟩ | ⟨a, b⟩ <;> interval_cases n <;> rfl

/-- The index the program computes for a letter is its position in the
alphabet. -/
theorem varIndex_eq_letterCell (c : Char) (h : isalpha c = true) :
    varIndex c = letterCell c := by
  have hn : (65 ≤ c.toNat ∧ c.toNat ≤ 90) ∨ (97 ≤ c.toNat ∧ c.toNat ≤ 122) := by
    simp only [isalpha, isupper, islower, Bool.or_eq_true, Bool.and_eq_true,
      decide_eq_true_eq] at h
    exact h
  have := varIndex_letter c.toNat hn
  rw [Char.ofNat_toNat] at this
  exact this

theorem parse_fuel_le (A : LongDouble α) (numVars : Nat → α) (line : Int)
    (fuel fuel2 : Nat) (hle : fuel ≤ fuel2) :
    (∀ s r, parseFactor A numVars line fuel s = some r →
        parseFactor A numVars line fuel2 s = some r) ∧
    (∀ v e s r, termLoop A numVars line fuel v e s = some r →
        termLoop A numVars line fuel2 v e s = some r) ∧
    (∀ s r, parseTerm A numVars line fuel s = some r →
        parseTerm A numVars line fuel2 s = some r) ∧
    (∀ v e s r, exprLoop A numVars line fuel v e s = some r →
        exprLoop A numVars line fuel2 v e s = some r) ∧
    (∀ s r, parseExpression A numVars line fuel s = some r →
        parseExpression A numVars line fuel2 s = some r) := by
  induction fuel2 with
  | zero =>
    have : fuel = 0 := Nat.le_zero.mp hle
    subst this
    exact ⟨fun _ _ h => h, fun _ _ _ _ h => h, fun _ _ h => h, fun _ _ _ _ h => h,
      fun _ _ h => h⟩
  | succ n ih =>
    rcases Nat.lt_or_ge n fuel with hlt | hge
    · have : fuel = n + 1 := by omega
      subst this
      exact ⟨fun _ _ h => h, fun _ _ _ _ h => h, fun _ _ h => h, fun _ _ _ _ h => h,
        fun _ _ h => h⟩
    · obtain ⟨h1, h2, h3, h4, h5⟩ := ih hge
      obtain ⟨s1, s2, s3, s4, s5⟩ := parse_fuel_succ A numVars line n
      exact ⟨fun s r h => s1 s r (h1 s r h), fun v e s r h => s2 v e s r (h2 v e s r h),
        fun s r h => s3 s r (h3 s r h), fun v e s r h => s4 v e s r (h4 v e s r h),
        fun s r h => s5 s r (h5 s r h)⟩

theorem parseFactor_congr (A : LongDouble α) (numVars : Nat → α) (line : Int) (fuel : Nat)
    (s s2 : List Char) (h : skipWhitespace s = skipWhitespace s2) :
    parseFactor A numVars line fuel s = parseFactor A numVars line fuel s2 := by
  cases fuel with
  | zero => simp [parseFactor]
  | succ n => rw [parseFactor, parseFactor, h]

theorem parseTerm_congr (A : LongDouble α) (numVars : Nat → α) (line : Int) (fuel : Nat)
    (s s2 : List Char) (h : skipWhitespace s = skipWhitespace s2) :
    parseTerm A numVars line fuel s = parseTerm A numVars line fuel s2 := by
  cases fuel with
  | zero => simp [parseTerm]
  | succ n => rw [parseTerm, parseTerm, parseFactor_congr A numVars line n s s2 h]

theorem parseExpression_congr (A : LongDouble α) (numVars : Nat → α) (line : Int)
    (fuel : Nat) (s s2 : List Char) (h : skipWhitespace s = skipWhitespace s2) :
    parseExpression A numVars line fuel s = parseExpression A numVars line fuel s2 := by
  cases fuel with
  | zero => simp [parseExpression]
  | succ n => rw [parseExpression, parseExpression, parseTerm_congr A numVars line n s s2 h]

theorem term_of_factor (A : LongDouble α) (numVars : Nat → α) (line : Int)
    (s : List Char) (v : α) (errs : List Diag) (rest : List Char)
    (hF : ∃ n, ∀ fuel, n ≤ fuel →
      parseFactor A numVars line fuel s = some ⟨v, skipWhitespace rest, errs⟩)
    (r : Parsed α) (k : Nat)
    (hk : termLoop A numVars line k v errs (skipWhitespace rest) = some r) :
    ∃ n, ∀ fuel, n ≤ fuel → parseTerm A numVars line fuel s = some r := by
  obtain ⟨n, hn⟩ := hF
  refine ⟨max n k + 1, fun fuel hfuel => ?_⟩
  obtain ⟨m, rfl⟩ : ∃ m, fuel = m + 1 := ⟨fuel - 1, by omega⟩
  rw [parseTerm, hn m (by omega)]
  simp only [skipWhitespace_idem]
  exact (parse_fuel_le A numVars line k m (by omega)).2.1 _ _ _ _ hk

theorem termLoop_stop (A : LongDouble α) (numVars : Nat → α) (line : Int) (k : Nat)
    (v : α) (errs : List Diag) (s : List Char)
    (h : ∀ c, s.head? = some c → c ≠ '*' ∧ c ≠ '/') :
    termLoop A numVars line (k + 1) v errs s = some ⟨v, s, errs⟩ := by
  rw [termLoop]
  have : (peek s '*' || peek s '/') = false := by
    cases s with
    | nil => rfl
    | cons c t =>
      have := h c rfl
      simp [peek, this.1, this.2]
  rw [this]
  rfl

theorem exprLoop_stop (A : LongDouble α) (numVars : Nat → α) (line : Int) (k : Nat)
    (v : α) (errs : List Diag) (s : List Char)
    (h : ∀ c, s.head? = some c → c ≠ '+' ∧ c ≠ '-') :
    exprLoop A numVars line (k + 1) v errs s = some ⟨v, s, errs⟩ := by
  rw [exprLoop]
  have : (peek s '+' || peek s '-') = false := by
    cases s with
    | nil => rfl
    | cons c t =>
      have := h c rfl
      simp [peek, this.1, this.2]
  rw [this]
  rfl

theorem expr_of_term (A : LongDouble α) (numVars : Nat → α) (line : Int)
    (s : List Char) (v : α) (errs : List Diag) (rest : List Char)
    (hT : ∀ r k, termLoop A numVars line k v errs (skipWhitespace rest) = some r →
      ∃ n, ∀ fuel, n ≤ fuel → parseTerm A numVars line fuel s = some r)
    (hstop : ∀ c, (skipWhitespace rest).head? = some c → c ≠ '*' ∧ c ≠ '/')
    (r : Parsed α) (k : Nat)
    (hk : exprLoop A numVars line k v errs (skipWhitespace rest) = some r) :
    ∃ n, ∀ fuel, n ≤ fuel → parseExpression A numVars line fuel s = some r := by
  obtain ⟨n, hn⟩ := hT _ 1 (termLoop_stop A numVars line 0 v errs _ hstop)
  refine ⟨max n k + 1, fun fuel hfuel => ?_⟩
  obtain ⟨m, rfl⟩ : ∃ m, fuel = m + 1 := ⟨fuel - 1, by omega⟩
  rw [parseExpression, hn m (by omega)]
  simp only [skipWhitespace_idem]
  exact (parse_fuel_le A numVars line k m (by omega)).2.2.2.1 _ _ _ _ hk

theorem parseFactor_num (A : LongDouble α) (numVars : Nat → α) (line : Int) (fuel : Nat)
    (t rest : List Char) (lit : NumLit) (hlit : literal t = some lit)
    (hrest : Follow rest) :
    parseFactor A numVars line (fuel + 1) (t ++ rest) =
      some ⟨A.ofLit lit, skipWhitespace rest,
        if A.erange lit then [⟨line, "Invalid number"⟩] else []⟩ := by
  obtain ⟨c, u, rfl, hsp, hal, hpar, hst⟩ := literal_spec t lit hlit
  have hstop : ∀ d, rest.head? = some d →
      isdigit d = false ∧ isalpha d = false ∧ d ≠ '.' ∧ d ≠ '(' := by
    intro d hd
    obtain ⟨h1, h2, h3⟩ := hrest.1 d hd
    refine ⟨h1, h2, h3, ?_⟩
    intro hdp
    cases rest with
    | nil => cases hd
    | cons x xs =>
      simp only [List.head?_cons, Option.some.injEq] at hd
      apply hrest.2
      rw [hd, hdp]
      rfl
  have hst2 := strtold_append c u rest lit hsp hst hstop
  rw [parseFactor]
  rw [show c :: u ++ rest = c :: (u ++ rest) from rfl, skipWhitespace_of_head c _ hsp]
  have h1 : peek (c :: (u ++ rest)) '(' = false := by simp [peek, hpar]
  have h2 : peekAlpha (c :: (u ++ rest)) = false := by simp [peekAlpha, hal]
  rw [h1, h2]
  simp only [Bool.false_eq_true, if_false]
  rw [show c :: (u ++ rest) = c :: u ++ rest from rfl]
  unfold parseNumber
  rw [hst2]

theorem parseFactor_var (A : LongDouble α) (numVars : Nat → α) (line : Int) (fuel : Nat)
    (c : Char) (rest : List Char) (hc : isalpha c = true) (hrest : Follow rest) :
    parseFactor A numVars line (fuel + 1) (c :: rest) =
      some ⟨numVars (varIndex c), skipWhitespace rest, []⟩ := by
  rw [parseFactor, skipWhitespace_of_head c _ (alpha_not_space c hc)]
  have h1 : peek (c :: rest) '(' = false := by simp [peek, alpha_ne_paren c hc]
  have h2 : peekAlpha (c :: rest) = true := by simp [peekAlpha, hc]
  rw [h1, h2]
  simp only [Bool.false_eq_true, if_false, if_true]
  have htw := takeWhile_append_stop isalpha [c] rest (by simp [hc])
    (fun d hd => (hrest.1 d hd).2.1)
  simp only [List.singleton_append] at htw
  have h3 : peek (skipWhitespace rest) '(' = false := by
    have := hrest.2
    simp only [peek]
    simpa using this
  unfold parseIdent
  rw [htw.1, htw.2, h3]
  simp [skipWhitespace_idem]


theorem lift_term (A : LongDouble α) (numVars : Nat → α) (line : Int)
    (text : List Char) (v : α) (errs : List Diag)
    (hT : ∀ rest, Follow rest → ∀ r k,
      termLoop A numVars line k v errs (skipWhitespace rest) = some r →
      ∃ n, ∀ fuel, n ≤ fuel → parseTerm A numVars line fuel (text ++ rest) = some r) :
    ∀ rest, Follow rest →
      (∀ c, (skipWhitespace rest).head? = some c → c ≠ '*' ∧ c ≠ '/') → ∀ r k,
      exprLoop A numVars line k v errs (skipWhitespace rest) = some r →
      ∃ n, ∀ fuel, n ≤ fuel → parseExpression A numVars line fuel (text ++ rest) = some r :=
  fun rest hrest hstop r k hk =>
    expr_of_term A numVars line (text ++ rest) v errs rest (hT rest hrest) hstop r k hk

theorem lift_factor (A : LongDouble α) (numVars : Nat → α) (line : Int)
    (text : List Char) (v : α) (errs : List Diag)
    (hF : ∀ rest, Follow rest → ∃ n, ∀ fuel, n ≤ fuel →
      parseFactor A numVars line fuel (text ++ rest) = some ⟨v, skipWhitespace rest, errs⟩) :
    ∀ rest, Follow rest → ∀ r k,
      termLoop A numVars line k v errs (skipWhitespace rest) = some r →
      ∃ n, ∀ fuel, n ≤ fuel → parseTerm A numVars line fuel (text ++ rest) = some r :=
  fun rest hrest r k hk =>
    term_of_factor A numVars line (text ++ rest) v errs rest (hF rest hrest) r k hk

/-- The operator characters and the closing parenthesis end an operand. -/
theorem follow_gap (wl : List Char) (op : Char) (t : List Char)
    (hwl : wl.all isspace = true)
    (hop : op = '+' ∨ op = '-' ∨ op = '*' ∨ op = '/' ∨ op = ')') :
    Follow (wl ++ op :: t) ∧ skipWhitespace (wl ++ op :: t) = op :: t := by
  have hfacts : isdigit op = false ∧ isalpha op = false ∧ op ≠ '.' ∧ isspace op = false ∧
      op ≠ '(' := by
    rcases hop with h | h | h | h | h <;> subst h <;> decide
  have hskip : skipWhitespace (wl ++ op :: t) = op :: t := by
    rw [skipWhitespace_append wl _ hwl, skipWhitespace_of_head op t hfacts.2.2.2.1]
  refine ⟨⟨?_, ?_⟩, hskip⟩
  · intro c hc
    cases wl with
    | nil =>
      simp only [List.nil_append, List.head?_cons, Option.some.injEq] at hc
      rw [← hc]; exact ⟨hfacts.1, hfacts.2.1, hfacts.2.2.1⟩
    | cons w ws =>
      simp only [List.cons_append, List.head?_cons, Option.some.injEq] at hc
      simp only [List.all_cons, Bool.and_eq_true] at hwl
      have := space_facts w hwl.1
      rw [← hc]; exact ⟨this.2.1, this.1, this.2.2.1⟩
  · rw [hskip]
    simp only [List.head?_cons, ne_eq, Option.some.injEq]
    exact hfacts.2.2.2.2

theorem skip_gap (wr s : List Char) (hwr : wr.all isspace = true) :
    skipWhitespace (wr ++ s) = skipWhitespace s := skipWhitespace_append wr s hwr


theorem level_none_elim {P Q R : Prop} (l : Option Nat) (hl : l = none) :
    (l = some 0 → P) ∧ ((l = some 0 ∨ l = some 1) → Q) ∧ (l ≠ none → R) := by
  subst hl
  refine ⟨fun h => ?_, fun h => ?_, fun h => absurd rfl h⟩
  · cases h
  · rcases h with h | h <;> cases h

theorem parse_text_aux (A : LongDouble α) (numVars : Nat → α) (line : Int) (e : Expr) :
    (e.level = some 0 → ∀ rest, Follow rest → ∃ n, ∀ fuel, n ≤ fuel →
      parseFactor A numVars line fuel (e.text ++ rest) =
        some ⟨e.value A numVars, skipWhitespace rest, e.errs A numVars line⟩) ∧
    ((e.level = some 0 ∨ e.level = some 1) → ∀ rest, Follow rest → ∀ r k,
      termLoop A numVars line k (e.value A numVars) (e.errs A numVars line)
        (skipWhitespace rest) = some r →
      ∃ n, ∀ fuel, n ≤ fuel → parseTerm A numVars line fuel (e.text ++ rest) = some r) ∧
    (e.level ≠ none → ∀ rest, Follow rest →
      (∀ c, (skipWhitespace rest).head? = some c → c ≠ '*' ∧ c ≠ '/') → ∀ r k,
      exprLoop A numVars line k (e.value A numVars) (e.errs A numVars line)
        (skipWhitespace rest) = some r →
      ∃ n, ∀ fuel, n ≤ fuel → parseExpression A numVars line fuel (e.text ++ rest) = some r) := by
  induction e with
  | num ds =>
    cases hl : literal ds with
    | some lit =>
      have hF : ∀ rest, Follow rest → ∃ n, ∀ fuel, n ≤ fuel →
          parseFactor A numVars line fuel ((Expr.num ds).text ++ rest) =
            some ⟨(Expr.num ds).value A numVars, skipWhitespace rest,
              (Expr.num ds).errs A numVars line⟩ := by
        intro rest hrest
        refine ⟨1, fun fuel hfuel => ?_⟩
        obtain ⟨m, rfl⟩ : ∃ m, fuel = m + 1 := ⟨fuel - 1, by omega⟩
        have := parseFactor_num A numVars line m ds rest lit hl hrest
        simp only [Expr.text, Expr.value, Expr.errs, hl]
        exact this
      have hT := lift_factor A numVars line _ _ _ hF
      exact ⟨fun _ => hF, fun _ => hT, fun _ => lift_term A numVars line _ _ _ hT⟩
    | none =>
      have hlv : (Expr.num ds).level = none := by
        simp only [Expr.level, hl, ne_eq, not_true_eq_false, if_false]
      exact level_none_elim _ hlv
  | var c =>
    by_cases hwf : isalpha c = true
    · have hF : ∀ rest, Follow rest → ∃ n, ∀ fuel, n ≤ fuel →
          parseFactor A numVars line fuel ((Expr.var c).text ++ rest) =
            some ⟨(Expr.var c).value A numVars, skipWhitespace rest,
              (Expr.var c).errs A numVars line⟩ := by
        intro rest hrest
        refine ⟨1, fun fuel hfuel => ?_⟩
        obtain ⟨m, rfl⟩ : ∃ m, fuel = m + 1 := ⟨fuel - 1, by omega⟩
        have := parseFactor_var A numVars line m c rest hwf hrest
        rw [varIndex_eq_letterCell c hwf] at this
        exact this
      have hT := lift_factor A numVars line _ _ _ hF
      exact ⟨fun _ => hF, fun _ => hT, fun _ => lift_term A numVars line _ _ _ hT⟩
    · have hl : (Expr.var c).level = none := by simp only [Expr.level, if_neg hwf]
      exact level_none_elim _ hl
  | paren wl e wr ih =>
    by_cases hwf : wl.all isspace = true ∧ wr.all isspace = true ∧ e.level ≠ none
    · obtain ⟨hwl, hwr, hlev⟩ := hwf
      have hE := ih.2.2 hlev
      have hF : ∀ rest, Follow rest → ∃ n, ∀ fuel, n ≤ fuel →
          parseFactor A numVars line fuel ((Expr.paren wl e wr).text ++ rest) =
            some ⟨(Expr.paren wl e wr).value A numVars, skipWhitespace rest,
              (Expr.paren wl e wr).errs A numVars line⟩ := by
        intro rest _
        obtain ⟨hfol, hskip⟩ := follow_gap wr ')' rest hwr (by simp)
        obtain ⟨n, hn⟩ := hE (wr ++ ')' :: rest) hfol
          (by rw [hskip]; intro c hc
              simp only [List.head?_cons, Option.some.injEq] at hc
              subst hc; exact ⟨by decide, by decide⟩)
          ⟨e.value A numVars, ')' :: rest, e.errs A numVars line⟩ 1
          (by rw [hskip]
              exact exprLoop_stop A numVars line 0 _ _ _ (by
                intro c hc
                simp only [List.head?_cons, Option.some.injEq] at hc
                subst hc; exact ⟨by decide, by decide⟩))
        refine ⟨n + 1, fun fuel hfuel => ?_⟩
        obtain ⟨m, rfl⟩ : ∃ m, fuel = m + 1 := ⟨fuel - 1, by omega⟩
        have htext : (Expr.paren wl e wr).text ++ rest =
            '(' :: (wl ++ (e.text ++ (wr ++ ')' :: rest))) := by
          simp [Expr.text]
        rw [htext, parseFactor, skipWhitespace_of_head '(' _ (by decide)]
        have hp : peek ('(' :: (wl ++ (e.text ++ (wr ++ ')' :: rest)))) '(' = true := rfl
        rw [hp]
        simp only [if_true, List.tail_cons]
        rw [parseExpression_congr A numVars line m _ (e.text ++ (wr ++ ')' :: rest))
          (skipWhitespace_append wl _ hwl), hn m (by omega)]
        simp only
        rw [skipWhitespace_of_head ')' rest (by decide)]
        have hp2 : peek (')' :: rest) ')' = true := rfl
        rw [hp2]
        simp [Expr.value, Expr.errs]
      have hT := lift_factor A numVars line _ _ _ hF
      exact ⟨fun _ => hF, fun _ => hT, fun _ => lift_term A numVars line _ _ _ hT⟩
    · have hl : (Expr.paren wl e wr).level = none := by simp only [Expr.level, if_neg hwf]
      exact level_none_elim _ hl
  | bin a wl op wr b iha ihb =>
    by_cases hws : wl.all isspace = true ∧ wr.all isspace = true
    · obtain ⟨hwl, hwr⟩ := hws
      by_cases hmul : op = '*' ∨ op = '/'
      · by_cases hops : (a.level = some 0 ∨ a.level = some 1) ∧ b.level = some 0
        · have hl : (Expr.bin a wl op wr b).level = some 1 := by
            simp only [Expr.level, hwl, hwr, and_self, if_true, if_pos hmul, if_pos hops]
          have hTa := iha.2.1 hops.1
          have hFb := ihb.1 hops.2
          have hT : ∀ rest, Follow rest → ∀ r k,
              termLoop A numVars line k ((Expr.bin a wl op wr b).value A numVars)
                ((Expr.bin a wl op wr b).errs A numVars line) (skipWhitespace rest) = some r →
              ∃ n, ∀ fuel, n ≤ fuel →
                parseTerm A numVars line fuel ((Expr.bin a wl op wr b).text ++ rest) = some r := by
            intro rest hrest r k hk
            obtain ⟨nb, hnb⟩ := hFb rest hrest
            obtain ⟨hfol, hskip⟩ := follow_gap wl op (wr ++ (b.text ++ rest)) hwl
              (by rcases hmul with h | h <;> simp [h])
            have hloop : termLoop A numVars line (max nb k + 1) (a.value A numVars)
                (a.errs A numVars line) (skipWhitespace (wl ++ op :: (wr ++ (b.text ++ rest))))
                = some r := by
              rw [hskip, termLoop]
              have hp : (peek (op :: (wr ++ (b.text ++ rest))) '*' ||
                  peek (op :: (wr ++ (b.text ++ rest))) '/') = true := by
                rcases hmul with h | h <;> subst h <;> rfl
              rw [hp]
              simp only [if_true, List.tail_cons, List.headD_cons]
              rw [parseFactor_congr A numVars line _ _ (b.text ++ rest)
                (skipWhitespace_append wr _ hwr), hnb _ (Nat.le_max_left _ _)]
              simp only [skipWhitespace_idem]
              have hres := (parse_fuel_le A numVars line k (max nb k)
                (Nat.le_max_right _ _)).2.1 _ _ _ _ hk
              have hv : (applyMulDiv A line op (a.value A numVars) (b.value A numVars)).1 =
                  (Expr.bin a wl op wr b).value A numVars := by
                rcases hmul with h | h <;> subst h
                · simp [applyMulDiv, Expr.value]
                · by_cases hz : A.eq (b.value A numVars) A.zero = true <;>
                    simp [applyMulDiv, Expr.value, hz]
              have he : a.errs A numVars line ++ b.errs A numVars line ++
                  (applyMulDiv A line op (a.value A numVars) (b.value A numVars)).2 =
                  (Expr.bin a wl op wr b).errs A numVars line := by
                rcases hmul with h | h <;> subst h
                · simp [applyMulDiv, Expr.errs]
                · by_cases hz : A.eq (b.value A numVars) A.zero = true <;>
                    simp [applyMulDiv, Expr.errs, hz]
              rw [hv, he]
              exact hres
            obtain ⟨n, hn⟩ := hTa _ hfol r _ hloop
            refine ⟨n, fun fuel hfuel => ?_⟩
            have htext : (Expr.bin a wl op wr b).text ++ rest =
                a.text ++ (wl ++ op :: (wr ++ (b.text ++ rest))) := by
              simp [Expr.text]
            rw [htext]
            exact hn fuel hfuel
          refine ⟨fun h => ?_, fun _ => hT, fun _ => lift_term A numVars line _ _ _ hT⟩
          rw [hl] at h; cases h
        · have hl : (Expr.bin a wl op wr b).level = none := by
            simp only [Expr.level, hwl, hwr, and_self, if_true, if_pos hmul, if_neg hops]
          exact level_none_elim _ hl
      · by_cases hadd : op = '+' ∨ op = '-'
        · by_cases hops : a.level ≠ none ∧ (b.level = some 0 ∨ b.level = some 1)
          · have hl : (Expr.bin a wl op wr b).level = some 2 := by
              simp only [Expr.level, hwl, hwr, and_self, if_true, if_neg hmul, if_pos hadd,
                if_pos hops]
            have hEa := iha.2.2 hops.1
            have hTb := ihb.2.1 hops.2
            have hE : ∀ rest, Follow rest →
                (∀ c, (skipWhitespace rest).head? = some c → c ≠ '*' ∧ c ≠ '/') → ∀ r k,
                exprLoop A numVars line k ((Expr.bin a wl op wr b).value A numVars)
                  ((Expr.bin a wl op wr b).errs A numVars line) (skipWhitespace rest) = some r →
                ∃ n, ∀ fuel, n ≤ fuel →
                  parseExpression A numVars line fuel ((Expr.bin a wl op wr b).text ++ rest)
                    = some r := by
              intro rest hrest hstop r k hk
              obtain ⟨nb, hnb⟩ := hTb rest hrest _ 1
                (termLoop_stop A numVars line 0 _ _ _ hstop)
              obtain ⟨hfol, hskip⟩ := follow_gap wl op (wr ++ (b.text ++ rest)) hwl
                (by rcases hadd with h | h <;> simp [h])
              have hloop : exprLoop A numVars line (max nb k + 1) (a.value A numVars)
                  (a.errs A numVars line)
                  (skipWhitespace (wl ++ op :: (wr ++ (b.text ++ rest)))) = some r := by
                rw [hskip, exprLoop]
                have hp : (peek (op :: (wr ++ (b.text ++ rest))) '+' ||
                    peek (op :: (wr ++ (b.text ++ rest))) '-') = true := by
                  rcases hadd with h | h <;> subst h <;> rfl
                rw [hp]
                simp only [if_true, List.tail_cons, List.headD_cons]
                rw [parseTerm_congr A numVars line _ _ (b.text ++ rest)
                  (skipWhitespace_append wr _ hwr), hnb _ (Nat.le_max_left _ _)]
                simp only [skipWhitespace_idem]
                have hres := (parse_fuel_le A numVars line k (max nb k)
                  (Nat.le_max_right _ _)).2.2.2.1 _ _ _ _ hk
                have hv : applyAddSub A op (a.value A numVars) (b.value A numVars) =
                    (Expr.bin a wl op wr b).value A numVars := by
                  rcases hadd with h | h <;> subst h <;> simp [applyAddSub, Expr.value]
                have he : a.errs A numVars line ++ b.errs A numVars line =
                    (Expr.bin a wl op wr b).errs A numVars line := by
                  rcases hadd with h | h <;> subst h <;> simp [Expr.errs]
                rw [hv, he]
                exact hres
              obtain ⟨n, hn⟩ := hEa _ hfol
                (by rw [hskip]; intro c hc
                    simp only [List.head?_cons, Option.some.injEq] at hc
                    subst hc
                    rcases hadd with h | h <;> subst h <;> exact ⟨by decide, by decide⟩)
                r _ hloop
              refine ⟨n, fun fuel hfuel => ?_⟩
              have htext : (Expr.bin a wl op wr b).text ++ rest =
                  a.text ++ (wl ++ op :: (wr ++ (b.text ++ rest))) := by
                simp [Expr.text]
              rw [htext]
              exact hn fuel hfuel
            refine ⟨fun h => ?_, fun h => ?_, fun _ => hE⟩
            · rw [hl] at h; cases h
            · rw [hl] at h; rcases h with h | h <;> cases h
          · have hl : (Expr.bin a wl op wr b).level = none := by
              simp only [Expr.level, hwl, hwr, and_self, if_true, if_neg hmul, if_pos hadd,
                if_neg hops]
            exact level_none_elim _ hl
        · have hl : (Expr.bin a wl op wr b).level = none := by
            simp only [Expr.level, hwl, hwr, and_self, if_true, if_neg hmul, if_neg hadd]
          exact level_none_elim _ hl
    · have hl : (Expr.bin a wl op wr b).level = none := by
        simp only [Expr.level, if_neg hws]
      exact level_none_elim _ hl


/-- The evaluator refines the grammar: on the text of a well-formed
expression, followed by text that does not continue it, `parseExpression`
returns the value of the expression, reports its errors, and leaves the cursor
after the expression and the white space behind it. -/
theorem parseExpr_text (A : LongDouble α) (numVars : Nat → α) (line : Int) (e : Expr)
    (he : e.IsExpression) (rest : List Char) (hrest : Follow rest)
    (hstop : ∀ c, (skipWhitespace rest).head? = some c →
      c ≠ '+' ∧ c ≠ '-' ∧ c ≠ '*' ∧ c ≠ '/') :
    parseExpr A numVars line (e.text ++ rest) =
      some ⟨e.value A numVars, skipWhitespace rest, e.errs A numVars line⟩ := by
  obtain ⟨n, hn⟩ := (parse_text_aux A numVars line e).2.2 he rest hrest
    (fun c hc => ⟨(hstop c hc).2.2.1, (hstop c hc).2.2.2⟩) _ 1
    (exprLoop_stop A numVars line 0 _ _ _ (fun c hc => ⟨(hstop c hc).1, (hstop c hc).2.1⟩))
  exact parseExpr_of_fuel A numVars line n _ _ (hn n (Nat.le_refl n))

theorem follow_nil : Follow [] := by
  refine ⟨fun c hc => ?_, ?_⟩
  · cases hc
  · simp [skipWhitespace]

theorem parseExpr_text_end (A : LongDouble α) (numVars : Nat → α) (line : Int) (e : Expr)
    (he : e.IsExpression) :
    parseExpr A numVars line e.text = some ⟨e.value A numVars, [], e.errs A numVars line⟩ := by
  have := parseExpr_text A numVars line e he [] follow_nil (fun c hc => by cases hc)
  simpa [skipWhitespace] using this

theorem Frac.norm_one (n : Int) : Frac.norm n 1 = Frac.ofInt n := by
  simp [Frac.norm, Frac.ofInt]

theorem Frac.add_ofInt (x y : Int) :
    Frac.add (Frac.ofInt x) (Frac.ofInt y) = Frac.ofInt (x + y) := by
  simp [Frac.add, Frac.ofInt, Frac.norm]

theorem Frac.sub_ofInt (x y : Int) :
    Frac.sub (Frac.ofInt x) (Frac.ofInt y) = Frac.ofInt (x - y) := by
  simp [Frac.sub, Frac.ofInt, Frac.norm]

theorem Frac.mul_ofInt (x y : Int) :
    Frac.mul (Frac.ofInt x) (Frac.ofInt y) = Frac.ofInt (x * y) := by
  simp [Frac.mul, Frac.ofInt, Frac.norm]

theorem Frac.ofLit_digits (ds : List Char) :
    Frac.ofLit (.dec false ds [] none) = Frac.ofInt (digitsValue 0 ds) := by
  simp [Frac.ofLit, Frac.withSign, Frac.scale, expValue]

theorem level_num (ds : List Char) (h : ds ≠ [] ∧ ds.all isdigit = true) :
    (Expr.num ds).level = some 0 := by
  simp only [Expr.level, literal_digits ds h.1 h.2, ne_eq, reduceCtorEq, not_false_eq_true,
    if_true]


theorem level_paren (wl wr : List Char) (e : Expr) (hwl : wl.all isspace = true)
    (hwr : wr.all isspace = true) (he : e.level ≠ none) :
    (Expr.paren wl e wr).level = some 0 := by
  simp only [Expr.level, if_pos (And.intro hwl (And.intro hwr he))]

theorem level_mul (a b : Expr) (wl wr : List Char) (op : Char)
    (hwl : wl.all isspace = true) (hwr : wr.all isspace = true)
    (hop : op = '*' ∨ op = '/') (ha : a.level = some 0 ∨ a.level = some 1)
    (hb : b.level = some 0) :
    (Expr.bin a wl op wr b).level = some 1 := by
  simp only [Expr.level, if_pos (And.intro hwl hwr), if_pos hop, if_pos (And.intro ha hb)]

theorem level_add (a b : Expr) (wl wr : List Char) (op : Char)
    (hwl : wl.all isspace = true) (hwr : wr.all isspace = true)
    (hop : op = '+' ∨ op = '-') (ha : a.level ≠ none)
    (hb : b.level = some 0 ∨ b.level = some 1) :
    (Expr.bin a wl op wr b).level = some 2 := by
  have hn : ¬ (op = '*' ∨ op = '/') := by
    rcases hop with h | h <;> subst h <;> decide
  simp only [Expr.level, if_pos (And.intro hwl hwr), if_neg hn, if_pos hop,
    if_pos (And.intro ha hb)]

theorem level_ne_none (e : Expr) (n : Nat) (h : e.level = some n) : e.level ≠ none := by
  rw [h]; exact Option.some_ne_none n

theorem parse_add_mul (A : LongDouble α) (numVars : Nat → α) (line : Int) (a b c : List Char)
    (ha : a ≠ [] ∧ a.all isdigit = true) (hb : b ≠ [] ∧ b.all isdigit = true)
    (hc : c ≠ [] ∧ c.all isdigit = true) :
    (parseExpr A numVars line (a ++ '+' :: (b ++ '*' :: c))).map (fun r => (r.val, r.rest)) =
      some (A.add (A.ofLit (.dec false a [] none))
        (A.mul (A.ofLit (.dec false b [] none)) (A.ofLit (.dec false c [] none))), []) := by
  have h := parseExpr_text_end A numVars line
    (.bin (.num a) [] '+' [] (.bin (.num b) [] '*' [] (.num c)))
    (level_ne_none _ _ (level_add _ _ [] [] '+' rfl rfl (Or.inl rfl)
      (level_ne_none _ _ (level_num a ha))
      (Or.inr (level_mul _ _ [] [] '*' rfl rfl (Or.inl rfl) (Or.inl (level_num b hb))
        (level_num c hc)))))
  simp only [Expr.text, List.nil_append] at h
  rw [h]
  simp [Expr.value, literal_digits a ha.1 ha.2, literal_digits b hb.1 hb.2,
    literal_digits c hc.1 hc.2]

theorem parse_paren_mul (A : LongDouble α) (numVars : Nat → α) (line : Int)
    (a b c : List Char)
    (ha : a ≠ [] ∧ a.all isdigit = true) (hb : b ≠ [] ∧ b.all isdigit = true)
    (hc : c ≠ [] ∧ c.all isdigit = true) :
    (parseExpr A numVars line ('(' :: (a ++ '+' :: (b ++ ')' :: '*' :: c)))).map
        (fun r => (r.val, r.rest)) =
      some (A.mul (A.add (A.ofLit (.dec false a [] none)) (A.ofLit (.dec false b [] none)))
        (A.ofLit (.dec false c [] none)), []) := by
  have h := parseExpr_text_end A numVars line
    (.bin (.paren [] (.bin (.num a) [] '+' [] (.num b)) []) [] '*' [] (.num c))
    (level_ne_none _ _ (level_mul _ _ [] [] '*' rfl rfl (Or.inl rfl)
      (Or.inl (level_paren [] [] _ rfl rfl (level_ne_none _ _
        (level_add _ _ [] [] '+' rfl rfl (Or.inl rfl) (level_ne_none _ _ (level_num a ha))
          (Or.inl (level_num b hb))))))
      (level_num c hc)))
  simp only [Expr.text, List.nil_append, List.cons_append, List.append_assoc] at h
  rw [h]
  simp [Expr.value, literal_digits a ha.1 ha.2, literal_digits b hb.1 hb.2,
    literal_digits c hc.1 hc.2]

theorem parse_sub_sub (A : LongDouble α) (numVars : Nat → α) (line : Int) (a b c : List Char)
    (ha : a ≠ [] ∧ a.all isdigit = true) (hb : b ≠ [] ∧ b.all isdigit = true)
    (hc : c ≠ [] ∧ c.all isdigit = true) :
    (parseExpr A numVars line (a ++ '-' :: (b ++ '-' :: c))).map (fun r => (r.val, r.rest)) =
      some (A.sub (A.sub (A.ofLit (.dec false a [] none)) (A.ofLit (.dec false b [] none)))
        (A.ofLit (.dec false c [] none)), []) := by
  have h := parseExpr_text_end A numVars line
    (.bin (.bin (.num a) [] '-' [] (.num b)) [] '-' [] (.num c))
    (level_ne_none _ _ (level_add _ _ [] [] '-' rfl rfl (Or.inr rfl)
      (level_ne_none _ _ (level_add _ _ [] [] '-' rfl rfl (Or.inr rfl)
        (level_ne_none _ _ (level_num a ha)) (Or.inl (level_num b hb))))
      (Or.inl (level_num c hc))))
  simp only [Expr.text, List.nil_append, List.cons_append, List.append_assoc] at h
  rw [h]
  simp [Expr.value, literal_digits a ha.1 ha.2, literal_digits b hb.1 hb.2,
    literal_digits c hc.1 hc.2]

/-- C1. For decimal integer literals `a`, `b`, `c` (non-empty runs of digits)
the evaluator returns `a+(b*c)` on `a+b*c`, `(a+b)*c` on `(a+b)*c` and
`(a-b)-c` on `a-b-c`, each with the cursor at the end of the text: in every
interpretation of the arithmetic, applied to the values of the literals, and
in exact arithmetic as the integer so computed.  `2+3*4` evaluates to 14 and
`(2+3)*4` to 20. -/
theorem precedence_and_left_assoc (A : LongDouble α) (numVars : Nat → α)
    (numVarsF : Nat → Frac) (line : Int) (a b c : List Char)
    (ha : a ≠ [] ∧ a.all isdigit = true) (hb : b ≠ [] ∧ b.all isdigit = true)
    (hc : c ≠ [] ∧ c.all isdigit = true) :
    ((parseExpr A numVars line (a ++ '+' :: (b ++ '*' :: c))).map (fun r => (r.val, r.rest)) =
      some (A.add (A.ofLit (.dec false a [] none))
        (A.mul (A.ofLit (.dec false b [] none)) (A.ofLit (.dec false c [] none))), []) ∧
     (parseExpr A numVars line ('(' :: (a ++ '+' :: (b ++ ')' :: '*' :: c)))).map
        (fun r => (r.val, r.rest)) =
      some (A.mul (A.add (A.ofLit (.dec false a [] none)) (A.ofLit (.dec false b [] none)))
        (A.ofLit (.dec false c [] none)), []) ∧
     (parseExpr A numVars line (a ++ '-' :: (b ++ '-' :: c))).map (fun r => (r.val, r.rest)) =
      some (A.sub (A.sub (A.ofLit (.dec false a [] none)) (A.ofLit (.dec false b [] none)))
        (A.ofLit (.dec false c [] none)), [])) ∧
    ((parseExpr exact numVarsF line (a ++ '+' :: (b ++ '*' :: c))).map
        (fun r => (r.val, r.rest)) =
      some (Frac.ofInt (digitsValue 0 a + digitsValue 0 b * digitsValue 0 c), []) ∧
     (parseExpr exact numVarsF line ('(' :: (a ++ '+' :: (b ++ ')' :: '*' :: c)))).map
        (fun r => (r.val, r.rest)) =
      some (Frac.ofInt ((digitsValue 0 a + digitsValue 0 b) * digitsValue 0 c), []) ∧
     (parseExpr exact numVarsF line (a ++ '-' :: (b ++ '-' :: c))).map
        (fun r => (r.val, r.rest)) =
      some (Frac.ofInt ((digitsValue 0 a : Int) - digitsValue 0 b - digitsValue 0 c), [])) ∧
    ((parseExpr exact numVarsF line "2+3*4".toList).map (fun r => (r.val, r.rest)) =
      some (Frac.ofInt 14, []) ∧
     (parseExpr exact numVarsF line "(2+3)*4".toList).map (fun r => (r.val, r.rest)) =
      some (Frac.ofInt 20, [])) := by
  refine ⟨⟨parse_add_mul A numVars line a b c ha hb hc,
    parse_paren_mul A numVars line a b c ha hb hc,
    parse_sub_sub A numVars line a b c ha hb hc⟩, ⟨?_, ?_, ?_⟩, ?_, ?_⟩
  · rw [parse_add_mul exact numVarsF line a b c ha hb hc]
    show some (Frac.add (Frac.ofLit _) (Frac.mul (Frac.ofLit _) (Frac.ofLit _)), _) = _
    rw [Frac.ofLit_digits, Frac.ofLit_digits, Frac.ofLit_digits, Frac.mul_ofInt,
      Frac.add_ofInt]
  · rw [parse_paren_mul exact numVarsF line a b c ha hb hc]
    show some (Frac.mul (Frac.add (Frac.ofLit _) (Frac.ofLit _)) (Frac.ofLit _), _) = _
    rw [Frac.ofLit_digits, Frac.ofLit_digits, Frac.ofLit_digits, Frac.add_ofInt,
      Frac.mul_ofInt]
  · rw [parse_sub_sub exact numVarsF line a b c ha hb hc]
    show some (Frac.sub (Frac.sub (Frac.ofLit _) (Frac.ofLit _)) (Frac.ofLit _), _) = _
    rw [Frac.ofLit_digits, Frac.ofLit_digits, Frac.ofLit_digits, Frac.sub_ofInt,
      Frac.sub_ofInt]
  · exact parse_add_mul exact numVarsF line ['2'] ['3'] ['4'] (by decide) (by decide)
      (by decide)
  · exact parse_paren_mul exact numVarsF line ['2'] ['3'] ['4'] (by decide) (by decide)
      (by decide)

theorem precedence_and_left_assoc_witness :
    (parseExpr exact (fun _ => Frac.ofInt 0) 0 ("12" ++ "+" ++ "3" ++ "*" ++ "40").toList).map
        (fun r => (r.val, r.rest)) = some (Frac.ofInt 132, []) ∧
    (parseExpr exact (fun _ => Frac.ofInt 0) 0 "(12+3)*40".toList).map
        (fun r => (r.val, r.rest)) = some (Frac.ofInt 600, []) ∧
    (parseExpr exact (fun _ => Frac.ofInt 0) 0 "12-3-40".toList).map
        (fun r => (r.val, r.rest)) = some (Frac.ofInt (-31), []) :=
  ⟨(precedence_and_left_assoc exact (fun _ => Frac.ofInt 0) (fun _ => Frac.ofInt 0) 0
      "12".toList "3".toList "40".toList (by decide) (by decide) (by decide)).2.1.1,
   (precedence_and_left_assoc exact (fun _ => Frac.ofInt 0) (fun _ => Frac.ofInt 0) 0
      "12".toList "3".toList "40".toList (by decide) (by decide) (by decide)).2.1.2.1,
   (precedence_and_left_assoc exact (fun _ => Frac.ofInt 0) (fun _ => Frac.ofInt 0) 0
      "12".toList "3".toList "40".toList (by decide) (by decide) (by decide)).2.1.2.2⟩

/-- C2. For well-formed operands `x` (an Expression), `y` (a Term) and a
divisor `d` (a Factor) whose value equals 0, their literals being any token
that `strtold` converts (`0`, `0.0`, `-0`, `2.5`, `1e3`, `0x10`), the
evaluator on `x + y/d` (any white space around the two operators) returns
`x + 0`, which is the value of `x` when adding 0 leaves it unchanged; it
reports `Division by zero` after the errors of the operands and leaves the
cursor at the end of the text.  `1+4/0` evaluates to 1, and
`.let A = 1+4/0` stores 1 in `A`. -/
theorem division_by_zero_recovers (A : LongDouble α) (numVars : Nat → α) (line : Int)
    (x y d : Expr) (wl wr wl2 wr2 : List Char)
    (hx : x.IsExpression) (hy : y.IsTerm) (hd : d.IsFactor)
    (hwl : wl.all isspace = true) (hwr : wr.all isspace = true)
    (hwl2 : wl2.all isspace = true) (hwr2 : wr2.all isspace = true)
    (hzero : A.eq (d.value A numVars) A.zero = true) :
    parseExpr A numVars line
        (x.text ++ (wl ++ '+' :: (wr ++ (y.text ++ (wl2 ++ '/' :: (wr2 ++ d.text)))))) =
      some ⟨A.add (x.value A numVars) A.zero, [],
        x.errs A numVars line ++ (y.errs A numVars line ++
          (d.errs A numVars line ++ [⟨line, "Division by zero"⟩]))⟩ ∧
    (A.add (x.value A numVars) A.zero = x.value A numVars →
      (parseExpr A numVars line
        (x.text ++ (wl ++ '+' :: (wr ++ (y.text ++ (wl2 ++ '/' :: (wr2 ++ d.text))))))).map
        (fun r => (r.val, r.rest)) = some (x.value A numVars, [])) ∧
    (parseExpr exact (fun _ => Frac.ofInt 0) 0 "1+4/0".toList).map
        (fun r => (r.val, r.rest, r.errs)) =
      some (Frac.ofInt 1, [], [⟨0, "Division by zero"⟩]) ∧
    (executeStatement exact (State.init exact []) ".let A = 1+4/0".toList 1 0).map
        (fun o => (o.st.numVars 0, o.st.stderr, o.nextLine, o.jumpLine)) =
      some (Frac.ofInt 1, [⟨0, "Division by zero"⟩], 1, 0) := by
  have h := parseExpr_text_end A numVars line
    (.bin x wl '+' wr (.bin y wl2 '/' wr2 d))
    (level_ne_none _ _ (level_add _ _ wl wr '+' hwl hwr (Or.inl rfl) hx
      (Or.inr (level_mul _ _ wl2 wr2 '/' hwl2 hwr2 (Or.inr rfl) hy hd))))
  have hv : (Expr.bin x wl '+' wr (.bin y wl2 '/' wr2 d)).value A numVars =
      A.add (x.value A numVars) A.zero := by
    simp [Expr.value, hzero]
  have he : (Expr.bin x wl '+' wr (.bin y wl2 '/' wr2 d)).errs A numVars line =
      x.errs A numVars line ++ (y.errs A numVars line ++
        (d.errs A numVars line ++ [⟨line, "Division by zero"⟩])) := by
    simp [Expr.errs, hzero]
  rw [hv, he] at h
  simp only [Expr.text] at h
  refine ⟨h, fun hadd => ?_, by decide, by decide⟩
  rw [h, hadd]
  rfl

theorem division_by_zero_recovers_witness :
    parseExpr exact (fun _ => Frac.ofInt 0) 0 "2*3 + 7 / (1-1)".toList =
      some ⟨Frac.ofInt 6, [], [⟨0, "Division by zero"⟩]⟩ ∧
    parseExpr exact (fun _ => Frac.ofInt 0) 0 "2.5e1-.5 + 0x10 / -0.0".toList =
      some ⟨⟨49, 2⟩, [], [⟨0, "Division by zero"⟩]⟩ :=
  ⟨(division_by_zero_recovers exact (fun _ => Frac.ofInt 0) 0
      (.bin (.num ['2']) [] '*' [] (.num ['3'])) (.num ['7'])
      (.paren [] (.bin (.num ['1']) [] '-' [] (.num ['1'])) [])
      [' '] [' '] [' '] [' '] (by decide) (by decide) (by decide) (by decide) (by decide)
      (by decide) (by decide) (by decide)).1,
   (division_by_zero_recovers exact (fun _ => Frac.ofInt 0) 0
      (.bin (.num "2.5e1".toList) [] '-' [] (.num ".5".toList)) (.num "0x10".toList)
      (.num "-0.0".toList)
      [' '] [' '] [' '] [' '] (by decide) (by decide) (by decide) (by decide) (by decide)
      (by decide) (by decide) (by decide)).1⟩

theorem findLine_head (m : Int) (p : List Line) (h : findLine m p ≠ []) :
    ∃ target after, findLine m p = target :: after ∧ target.number = m := by
  induction p with
  | nil => exact absurd rfl h
  | cons curr rest ih =>
    simp only [findLine] at h ⊢
    split_ifs at h ⊢ with h1
    · exact ⟨curr, rest, rfl, h1⟩
    · exact ih h

/-- C6 (as amended). When the statement of the current line is executed (the
process is running and no interrupt is pending at the poll) and is `.gt m`
with `m` other than 0 and stored, the loop of `runProgram` goes on at
the stored line numbered `m`, the state being unchanged apart from the record
of the current line.  The program `10 .let A=1`, `20 .gt 40`, `30 .let A=2`,
`40 .p A`, run to completion, executes the lines 10, 20, 40 and no other,
ends with `A` holding the value of the literal `1` and prints that value and
a newline: `1` in exact arithmetic. -/
theorem goto_transfers_control (A : LongDouble α) (fuel : Nat) (sigint : List Bool)
    (st : State α) (cur : Line) (next : List Line) (m : Int)
    (hkw : strncasecmpEq ".gt".toList (skipWhitespace cur.text) = true)
    (harg : atoi (skipWhitespace ((skipWhitespace cur.text).drop 3)) = m)
    (hm : m ≠ 0) (hstored : findLine m st.program ≠ [])
    (hsig : sigint.headD false = false) (hlive : st.exited = false) :
    (runLoop A (fuel + 1) sigint st (cur :: next) =
      runLoop A fuel sigint.tail
        { st with currentProgramLine := cur.number, executed := st.executed ++ [cur.number] }
        (findLine m st.program)) ∧
    (∃ target after, findLine m st.program = target :: after ∧ target.number = m) ∧
    (∀ n : Nat,
      (runProgram A (n + 4) []
        (State.init A [⟨10, ".let A=1".toList⟩, ⟨20, ".gt 40".toList⟩,
          ⟨30, ".let A=2".toList⟩, ⟨40, ".p A".toList⟩])).map
        (fun s => (s.stdout, s.executed, s.numVars 0)) =
      some (A.fmt0 (A.ofLit (.dec false ['1'] [] none)) ++ ['\n'], [10, 20, 40],
        A.ofLit (.dec false ['1'] [] none))) ∧
    (∀ n : Nat,
      (runProgram exact (n + 4) []
        (State.init exact [⟨10, ".let A=1".toList⟩, ⟨20, ".gt 40".toList⟩,
          ⟨30, ".let A=2".toList⟩, ⟨40, ".p A".toList⟩])).map
        (fun s => (s.stdout, s.executed, s.numVars 0)) =
      some ("1\n".toList, [10, 20, 40], Frac.ofInt 1)) := by
  refine ⟨?_, findLine_head m st.program hstored, fun n => rfl, fun n => rfl⟩
  obtain ⟨target, after, hfind, _⟩ := findLine_head m st.program hstored
  have hne : ¬ atoi (skipWhitespace ((skipWhitespace cur.text).drop 3)) = 0 := by
    rw [harg]; exact hm
  rw [runLoop, hsig]
  simp only [Bool.false_eq_true, if_false]
  rw [executeStatement_gt A _ cur.text 1 0 hkw, if_neg hne, harg]
  simp only [hlive, Bool.false_eq_true, if_false, ne_eq, hm, not_false_eq_true, if_true]
  rw [hfind]

theorem goto_transfers_control_witness :
    runLoop exact (3 + 1) []
        (State.init exact [⟨10, ".let A=1".toList⟩, ⟨20, ".gt 40".toList⟩,
          ⟨30, ".let A=2".toList⟩, ⟨40, ".p A".toList⟩])
        (⟨20, ".gt 40".toList⟩ :: [⟨30, ".let A=2".toList⟩, ⟨40, ".p A".toList⟩]) =
      runLoop exact 3 ([] : List Bool).tail
        { State.init exact [⟨10, ".let A=1".toList⟩, ⟨20, ".gt 40".toList⟩,
            ⟨30, ".let A=2".toList⟩, ⟨40, ".p A".toList⟩] with
          currentProgramLine := 20, executed := [] ++ [20] }
        (findLine 40 [⟨10, ".let A=1".toList⟩, ⟨20, ".gt 40".toList⟩,
          ⟨30, ".let A=2".toList⟩, ⟨40, ".p A".toList⟩]) :=
  (goto_transfers_control exact 3 []
    (State.init exact [⟨10, ".let A=1".toList⟩, ⟨20, ".gt 40".toList⟩,
      ⟨30, ".let A=2".toList⟩, ⟨40, ".p A".toList⟩])
    ⟨20, ".gt 40".toList⟩ [⟨30, ".let A=2".toList⟩, ⟨40, ".p A".toList⟩] 40
    (by decide) (by decide) (by decide) (by decide) (by decide) rfl).1

/-- C6 (the claim as stated fails). With the lines `0 .p 1` and `10 .gt 0`
stored, line 10 is `.gt 0` and line 0 is stored, yet after line 10 no line is
executed: the statement reports an error and the run ends. -/
theorem goto_zero_not_taken :
    findLine 0 [⟨0, ".p 1".toList⟩, ⟨10, ".gt 0".toList⟩] ≠ [] ∧
    strncasecmpEq ".gt".toList (skipWhitespace ".gt 0".toList) = true ∧
    atoi (skipWhitespace ((skipWhitespace ".gt 0".toList).drop 3)) = 0 ∧
    (runProgram exact 5 []
      (State.init exact [⟨0, ".p 1".toList⟩, ⟨10, ".gt 0".toList⟩])).map
      (fun s => (s.executed, s.stderr, s.stdout)) =
    some ([0, 10], [⟨10, "[!!!] Expected line number after .gt"⟩], "1\n".toList) := by
  decide

end Refine

/-! ## Every statement returns -/

section Returns
variable {α : Type}

theorem scanQuoted_length_le (s : List Char) : (scanQuoted s).2.length ≤ s.length := by
  unfold scanQuoted
  simp only
  split_ifs
  · exact Nat.le_trans (tail_length_le _) (by simp)
  · simp

theorem printOperand_returns (A : LongDouble α) (st : State α) (s : List Char) :
    ∃ text errs rest, printOperand A st s = some (text, errs, rest) ∧
      rest.length ≤ s.length := by
  unfold printOperand
  split_ifs with h1 h2 h3 h4
  · exact ⟨_, _, _, rfl, Nat.le_trans (scanQuoted_length_le _) (tail_length_le _)⟩
  · exact ⟨_, _, _, rfl, Nat.le_trans (tail_length_le _) (tail_length_le _)⟩
  · exact ⟨_, _, _, rfl, Nat.zero_le _⟩
  · obtain ⟨r, hr, hlen⟩ := parseExpr_total A st.numVars st.currentProgramLine
      (skipWhitespace s.tail)
    rw [hr]
    exact ⟨_, _, _, rfl, Nat.le_trans hlen
      (Nat.le_trans (skipWhitespace_length_le _) (tail_length_le _))⟩
  · obtain ⟨r, hr, hlen⟩ := parseExpr_total A st.numVars st.currentProgramLine s
    rw [hr]
    exact ⟨_, _, _, rfl, hlen⟩

theorem printLoop_returns (A : LongDouble α) (fuel : Nat) (st : State α) (s : List Char)
    (h : s.length < fuel) : ∃ st1, printLoop A fuel st s = some st1 := by
  induction fuel generalizing st s with
  | zero => omega
  | succ n ih =>
    rw [printLoop]
    split_ifs with h1
    · exact ⟨_, rfl⟩
    · obtain ⟨text, errs, rest, ho, hlen⟩ := printOperand_returns A st (skipWhitespace s)
      rw [ho]
      simp only
      split_ifs with h2
      · have a1 := skipWhitespace_length_le s
        have a2 := skipWhitespace_length_le rest
        have a3 := peek_length _ _ h2
        exact ih _ _ (by omega)
      · exact ⟨_, rfl⟩

theorem execLet_returns (A : LongDouble α) (st : State α) (s : List Char) :
    ∃ st1, execLet A st s = some st1 := by
  unfold execLet
  split_ifs
  · exact ⟨_, rfl⟩
  · exact ⟨_, rfl⟩
  · exact ⟨_, rfl⟩
  · exact ⟨_, rfl⟩
  · exact ⟨_, rfl⟩
  · obtain ⟨r, hr, _⟩ := parseExpr_total A st.numVars st.currentProgramLine
      (skipWhitespace (skipWhitespace (skipWhitespace s).tail).tail)
    rw [hr]
    exact ⟨_, rfl⟩

theorem execIf_returns (A : LongDouble α) (st : State α) (s : List Char) (nl jl : Int) :
    ∃ o, execIf A st s nl jl = some o := by
  unfold execIf
  obtain ⟨l, hl, _⟩ := parseExpr_total A st.numVars st.currentProgramLine (skipWhitespace s)
  rw [hl]
  simp only
  cases hop : scanRelop (skipWhitespace l.rest) with
  | none => exact ⟨_, rfl⟩
  | some p =>
    obtain ⟨op, t⟩ := p
    simp only
    obtain ⟨r, hr, _⟩ := parseExpr_total A st.numVars st.currentProgramLine (skipWhitespace t)
    rw [hr]
    simp only
    cases evalRelop A op l.val r.val with
    | none => exact ⟨_, rfl⟩
    | some cond =>
      simp only
      split_ifs <;> exact ⟨_, rfl⟩

/-- The statement executor returns on every statement text: `executeStatement`
is never `none`. -/
theorem executeStatement_returns (A : LongDouble α) (st : State α) (s : List Char)
    (nl jl : Int) : ∃ o, executeStatement A st s nl jl = some o := by
  unfold executeStatement
  by_cases c0 : strncmpEq "//".toList (skipWhitespace s) = true
  · rw [if_pos c0]; exact ⟨_, rfl⟩
  rw [if_neg c0]
  by_cases c1 : strncasecmpEq ".let".toList (skipWhitespace s) = true
  · rw [if_pos c1]
    obtain ⟨st1, h1⟩ := execLet_returns A st ((skipWhitespace s).drop 4)
    rw [h1]; exact ⟨_, rfl⟩
  rw [if_neg c1]
  by_cases c2 : strncasecmpEq ".p".toList (skipWhitespace s) = true
  · rw [if_pos c2]
    obtain ⟨st1, h1⟩ := printLoop_returns A (((skipWhitespace s).drop 2).length + 1) st
      ((skipWhitespace s).drop 2) (Nat.lt_succ_self _)
    rw [h1]; exact ⟨_, rfl⟩
  rw [if_neg c2]
  by_cases c3 : strncasecmpEq ".in".toList (skipWhitespace s) = true
  · rw [if_pos c3]; exact ⟨_, rfl⟩
  rw [if_neg c3]
  by_cases c4 : strncasecmpEq ".if".toList (skipWhitespace s) = true
  · rw [if_pos c4]; exact execIf_returns A st _ nl jl
  rw [if_neg c4]
  by_cases c5 : strncasecmpEq ".gt".toList (skipWhitespace s) = true
  · rw [if_pos c5]
    by_cases c : atoi (skipWhitespace ((skipWhitespace s).drop 3)) = 0
    · rw [if_pos c]; exact ⟨_, rfl⟩
    · rw [if_neg c]; exact ⟨_, rfl⟩
  rw [if_neg c5]
  by_cases c6 : strncasecmpEq ".gs".toList (skipWhitespace s) = true
  · rw [if_pos c6]; exact ⟨_, rfl⟩
  rw [if_neg c6]
  by_cases c7 : strncasecmpEq ".rtn".toList (skipWhitespace s) = true
  · rw [if_pos c7]; exact ⟨_, rfl⟩
  rw [if_neg c7]
  by_cases c8 : strncasecmpEq ".wt".toList (skipWhitespace s) = true
  · rw [if_pos c8]; exact ⟨_, rfl⟩
  rw [if_neg c8]
  by_cases c9 : strncasecmpEq ".bep".toList (skipWhitespace s) = true
  · rw [if_pos c9]; exact ⟨_, rfl⟩
  rw [if_neg c9]
  by_cases c10 : strncasecmpEq ".?".toList (skipWhitespace s) = true
  · rw [if_pos c10]; exact ⟨_, rfl⟩
  rw [if_neg c10]
  by_cases c11 : strncasecmpEq ".q".toList (skipWhitespace s) = true
  · rw [if_pos c11]; exact ⟨_, rfl⟩
  rw [if_neg c11]
  by_cases c12 : strncasecmpEq ".e".toList (skipWhitespace s) = true
  · rw [if_pos c12]; exact ⟨_, rfl⟩
  rw [if_neg c12]
  exact ⟨_, rfl⟩

end Returns

/-! ## Sequential advance, unknown functions, malformed numbers -/

section Advance
variable {α : Type}

theorem find_gt_of_all_gt (n : Int) (rest : List Line)
    (h : ∀ b ∈ rest, n < b.number) :
    rest.find? (fun l => decide (n < l.number)) = rest.head? := by
  cases rest with
  | nil => rfl
  | cons c t =>
    have := h c (List.mem_cons_self _ _)
    simp [List.find?_cons, this]

theorem head_find_gt (p : List Line) (n : Int) (cur : Line) (next : List Line)
    (hasc : Ascending p) (hfind : findLine n p = cur :: next) :
    next.head? = p.find? (fun l => decide (n < l.number)) := by
  induction p with
  | nil => simp [findLine] at hfind
  | cons c rest ih =>
    have hp := List.pairwise_cons.mp hasc
    simp only [findLine] at hfind
    split_ifs at hfind with h1
    · simp only [List.cons.injEq] at hfind
      obtain ⟨rfl, rfl⟩ := hfind
      have hc : ¬ n < c.number := by rw [h1]; exact lt_irrefl _
      rw [List.find?_cons, show decide (n < c.number) = false from by simpa using hc]
      simp only
      rw [find_gt_of_all_gt n rest (fun b hb => by rw [← h1]; exact hp.1 b hb)]
    · have hmem : cur ∈ rest := by
        have := (findLine_head_number n rest cur (by rw [hfind]; rfl)).2
        exact this
      have hnum : cur.number = n := (findLine_head_number n rest cur (by rw [hfind]; rfl)).1
      have hc : ¬ n < c.number := by
        have := hp.1 cur hmem
        rw [hnum] at this
        exact not_lt.mpr (le_of_lt this)
      rw [List.find?_cons, show decide (n < c.number) = false from by simpa using hc]
      exact ih hp.2 hfind

/-- C19. In a strictly ascending store, the node after the stored line
numbered `n` (what `getNextLine` returns) is the first stored entry whose number
is greater than `n`; its number is what the successor scan of `.gs` finds for
`n` (0 when there is none); and there is no such node exactly when no stored
number is greater than `n`. -/
theorem advance_is_successor (p : List Line) (n : Int) (cur : Line) (next : List Line)
    (hasc : Ascending p) (hfind : findLine n p = cur :: next) :
    (getNextLine (cur :: next)).head? = p.find? (fun l => decide (n < l.number)) ∧
    returnPoint n p = ((getNextLine (cur :: next)).head?.map Line.number).getD 0 ∧
    (getNextLine (cur :: next) = [] ↔ ∀ l ∈ p, l.number ≤ n) := by
  have h1 := head_find_gt p n cur next hasc hfind
  refine ⟨h1, ?_, ?_⟩
  · rw [returnPoint_eq_find]
    show _ = (next.head?.map Line.number).getD 0
    rw [h1]
  · show next = [] ↔ _
    constructor
    · intro hn l hl
      have hnone : p.find? (fun l => decide (n < l.number)) = none := by
        rw [← h1, hn]; rfl
      have := List.find?_eq_none.mp hnone l hl
      simpa using this
    · intro hall
      have hnone : p.find? (fun l => decide (n < l.number)) = none := by
        apply List.find?_eq_none.mpr
        intro l hl
        have := hall l hl
        simpa using this
      rw [hnone] at h1
      cases next with
      | nil => rfl
      | cons c t => simp at h1

theorem advance_is_successor_witness :
    (getNextLine (⟨20, ['b']⟩ :: [⟨30, ['c']⟩])).head? =
      ([⟨10, ['a']⟩, ⟨20, ['b']⟩, ⟨30, ['c']⟩] : List Line).find?
        (fun l => decide ((20 : Int) < l.number)) ∧
    returnPoint 20 [⟨10, ['a']⟩, ⟨20, ['b']⟩, ⟨30, ['c']⟩] =
      ((getNextLine (⟨20, ['b']⟩ :: [⟨30, ['c']⟩])).head?.map Line.number).getD 0 :=
  ⟨(advance_is_successor [⟨10, ['a']⟩, ⟨20, ['b']⟩, ⟨30, ['c']⟩] 20 ⟨20, ['b']⟩ [⟨30, ['c']⟩]
      (by decide) (by decide)).1,
   (advance_is_successor [⟨10, ['a']⟩, ⟨20, ['b']⟩, ⟨30, ['c']⟩] 20 ⟨20, ['b']⟩ [⟨30, ['c']⟩]
      (by decide) (by decide)).2.1⟩

theorem skipCall_split (pre post : List Char) (hpre : ∀ c ∈ pre, c ≠ ')') :
    skipCall (pre ++ ')' :: post) = post := by
  have hd : (pre ++ ')' :: post).dropWhile (fun c => c != ')') = ')' :: post := by
    induction pre with
    | nil => simp [List.dropWhile]
    | cons c t ih =>
      have hc : (c != ')') = true := by simpa using hpre c (List.mem_cons_self _ _)
      rw [List.cons_append, List.dropWhile_cons, if_pos hc]
      exact ih (fun d hd => hpre d (List.mem_cons_of_mem _ hd))
  unfold skipCall
  rw [hd]
  simp [peek]

theorem skipCall_none (u : List Char) (hu : ∀ c ∈ u, c ≠ ')') : skipCall u = [] := by
  have hd : u.dropWhile (fun c => c != ')') = [] := by
    induction u with
    | nil => rfl
    | cons c t ih =>
      have hc : (c != ')') = true := by simpa using hu c (List.mem_cons_self _ _)
      rw [List.dropWhile_cons, if_pos hc]
      exact ih (fun d hd => hu d (List.mem_cons_of_mem _ hd))
  unfold skipCall
  rw [hd]
  simp [peek]

/-- C17 (as amended). When, after white space, a non-empty run of letters is
followed (after optional white space) by `(`, `parseFactor` reports `Unknown
function`, returns 0 and leaves the cursor just past the first `)` that
follows, or at the end of the text if there is none. -/
theorem unknown_function_skips_to_first_paren (A : LongDouble α) (numVars : Nat → α)
    (line : Int) (fuel : Nat) (s ident rest : List Char)
    (hs : skipWhitespace s = ident ++ rest)
    (hne : ident ≠ []) (hident : ident.all isalpha = true)
    (hrest : (skipWhitespace rest).head? = some '(') :
    (∀ pre post, skipWhitespace rest = pre ++ ')' :: post → (∀ c ∈ pre, c ≠ ')') →
      parseFactor A numVars line (fuel + 1) s =
        some ⟨A.zero, post, [⟨line, "Unknown function"⟩]⟩) ∧
    ((∀ c ∈ skipWhitespace rest, c ≠ ')') →
      parseFactor A numVars line (fuel + 1) s =
        some ⟨A.zero, [], [⟨line, "Unknown function"⟩]⟩) := by
  obtain ⟨c, t, rfl⟩ := List.exists_cons_of_ne_nil hne
  have hc : isalpha c = true := by
    simp only [List.all_cons, Bool.and_eq_true] at hident
    exact hident.1
  have hresthead : ∀ d, rest.head? = some d → isalpha d = false := by
    intro d hd
    cases rest with
    | nil => cases hd
    | cons e r =>
      simp only [List.head?_cons, Option.some.injEq] at hd
      subst hd
      cases hsp : isspace e with
      | true => exact (space_facts e hsp).1
      | false =>
        rw [skipWhitespace_of_head e r hsp] at hrest
        simp only [List.head?_cons, Option.some.injEq] at hrest
        subst hrest; decide
  have htw := takeWhile_append_stop isalpha (c :: t) rest hident hresthead
  have hpf : parseFactor A numVars line (fuel + 1) s =
      some ⟨A.zero, skipCall (skipWhitespace rest), [⟨line, "Unknown function"⟩]⟩ := by
    rw [parseFactor, hs]
    have h1 : peek (c :: t ++ rest) '(' = false := by
      simp [peek, alpha_ne_paren c hc]
    have h2 : peekAlpha (c :: t ++ rest) = true := by simp [peekAlpha, hc]
    rw [h1, h2]
    simp only [Bool.false_eq_true, if_false, if_true]
    unfold parseIdent
    rw [htw.2]
    have h3 : peek (skipWhitespace rest) '(' = true := by
      simp [peek, hrest]
    rw [h3]
    simp
  constructor
  · intro pre post hsplit hpre
    rw [hpf, hsplit, skipCall_split pre post hpre]
  · intro hnone
    rw [hpf, skipCall_none _ hnone]

theorem unknown_function_skips_to_first_paren_witness :
    parseFactor exact (fun _ => Frac.ofInt 0) 0 (0 + 1) " sin (1+2)*3".toList =
      some ⟨Frac.ofInt 0, "*3".toList, [⟨0, "Unknown function"⟩]⟩ :=
  (unknown_function_skips_to_first_paren exact (fun _ => Frac.ofInt 0) 0 0
    " sin (1+2)*3".toList "sin".toList " (1+2)*3".toList (by decide) (by decide) (by decide)
    (by decide)).1 "(1+2".toList "*3".toList (by decide) (by decide)

/-- C17 (the claim as stated fails). On `f((1)+2)+3` the cursor is left after
the first `)`, at `+2)+3`, not after the `)` that matches the opening
parenthesis of the call, which would be at `+3`. -/
theorem unknown_function_nested_parens :
    (parseFactor exact (fun _ => Frac.ofInt 0) 0 5 "f((1)+2)+3".toList).map
      (fun r => (r.val, r.rest, r.errs)) =
    some (Frac.ofInt 0, "+2)+3".toList, [⟨0, "Unknown function"⟩]) := by
  decide

/-- C18 (as amended). When the first non-blank character of the text is
neither `(` nor a letter and no numeric literal starts there, `parseFactor`
reports `Invalid number`, returns 0 and leaves the cursor on that character:
nothing but the leading white space is consumed. -/
theorem malformed_number_no_advance (A : LongDouble α) (numVars : Nat → α) (line : Int)
    (fuel : Nat) (s : List Char) (c : Char) (t : List Char)
    (hs : skipWhitespace s = c :: t) (hparen : c ≠ '(') (halpha : isalpha c = false)
    (hlit : strtold (c :: t) = none) :
    parseFactor A numVars line (fuel + 1) s =
      some ⟨A.zero, c :: t, [⟨line, "Invalid number"⟩]⟩ := by
  rw [parseFactor, hs]
  have h1 : peek (c :: t) '(' = false := by simp [peek, hparen]
  have h2 : peekAlpha (c :: t) = false := by simp [peekAlpha, halpha]
  rw [h1, h2]
  simp only [Bool.false_eq_true, if_false]
  unfold parseNumber
  rw [hlit]
  simp only
  rw [← hs, skipWhitespace_idem]

theorem malformed_number_no_advance_witness :
    parseFactor exact (fun _ => Frac.ofInt 0) 0 (0 + 1) "  *2".toList =
      some ⟨Frac.ofInt 0, "*2".toList, [⟨0, "Invalid number"⟩]⟩ :=
  malformed_number_no_advance exact (fun _ => Frac.ofInt 0) 0 0 "  *2".toList '*' ['2']
    (by decide) (by decide) (by decide) (by decide)

/-- C18 (the claim as stated fails). On `;B` the literal scan starts at `;`,
fails, and the cursor is left at `;B`: it has not moved. -/
theorem malformed_number_cursor_stays :
    (parseFactor exact (fun _ => Frac.ofInt 0) 0 5 ";B".toList).map
      (fun r => (r.val, r.rest, r.errs)) =
    some (Frac.ofInt 0, ";B".toList, [⟨0, "Invalid number"⟩]) := by
  decide

end Advance

/-! ## Conditional jump and assignment -/

section Statements
variable {α : Type}

theorem level_bin_left (a b : Expr) (wl wr : List Char) (op : Char)
    (h : (Expr.bin a wl op wr b).level ≠ none) : a.level ≠ none := by
  intro ha
  apply h
  simp only [Expr.level, ha]
  split_ifs <;> simp_all

theorem text_head (e : Expr) (he : e.level ≠ none) :
    ∃ c t, e.text = c :: t ∧
      (isdigit c = true ∨ isalpha c = true ∨ c = '(' ∨ c = '.' ∨ c = '+' ∨ c = '-') := by
  induction e with
  | num ds =>
    cases hl : literal ds with
    | some lit =>
      obtain ⟨c, u, rfl, hc⟩ := literal_head ds lit hl
      refine ⟨c, u, rfl, ?_⟩
      rcases hc with h | h | h | h
      · exact Or.inl h
      · exact Or.inr (Or.inr (Or.inr (Or.inl h)))
      · exact Or.inr (Or.inr (Or.inr (Or.inr (Or.inl h))))
      · exact Or.inr (Or.inr (Or.inr (Or.inr (Or.inr h))))
    | none =>
      exact absurd (by simp only [Expr.level, hl, ne_eq, not_true_eq_false, if_false]) he
  | var c =>
    by_cases hwf : isalpha c = true
    · exact ⟨c, [], rfl, Or.inr (Or.inl hwf)⟩
    · exact absurd (by simp only [Expr.level, if_neg hwf]) he
  | paren wl e wr _ => exact ⟨'(', _, rfl, Or.inr (Or.inr (Or.inl rfl))⟩
  | bin a wl op wr b iha _ =>
    obtain ⟨c, t, ht, hc⟩ := iha (level_bin_left a b wl wr op he)
    exact ⟨c, t ++ (wl ++ op :: (wr ++ b.text)), by simp [Expr.text, ht], hc⟩

/-- Facts about the first character of an operand that the statement
scanners test. -/
theorem operand_head_facts (c : Char)
    (hc : isdigit c = true ∨ isalpha c = true ∨ c = '(' ∨ c = '.' ∨ c = '+' ∨ c = '-') :
    isspace c = false ∧ c ≠ '=' ∧ c ≠ '>' ∧ c ≠ '$' ∧ c ≠ '"' ∧ c ≠ ';' := by
  rcases hc with h | h | h | h | h | h
  · rcases isdigit_cases c h with h | h | h | h | h | h | h | h | h | h <;> subst h <;> decide
  · refine ⟨alpha_not_space c h, ?_, ?_, ?_, ?_, ?_⟩ <;>
      (rintro rfl; exact absurd h (by decide))
  · subst h; decide
  · subst h; decide
  · subst h; decide
  · subst h; decide

theorem tolower_upper_ne_dot (m : Nat) (h1 : 65 ≤ m) (h2 : m ≤ 90) :
    Char.ofNat (m + 32) ≠ '.' := by
  interval_cases m <;> decide

theorem tolower_eq_dot (c : Char) (h : tolower c = '.') : c = '.' := by
  unfold tolower at h
  split_ifs at h with hu
  · exfalso
    simp only [isupper, Bool.and_eq_true, decide_eq_true_eq] at hu
    have h1 : 65 ≤ c.toNat := hu.1
    have h2 : c.toNat ≤ 90 := hu.2
    exact tolower_upper_ne_dot c.toNat h1 h2 h
  · exact h

theorem keyword_head (k : List Char) (u : List Char)
    (h : strncasecmpEq ('.' :: k) u = true) : ∃ t, u = '.' :: t := by
  cases u with
  | nil => simp [strncasecmpEq] at h
  | cons c t =>
    simp only [strncasecmpEq, Bool.and_eq_true, beq_iff_eq] at h
    exact ⟨t, by rw [tolower_eq_dot c h.1]⟩

theorem executeStatement_if (A : LongDouble α) (st : State α) (s : List Char) (nl jl : Int)
    (h : strncasecmpEq ".if".toList (skipWhitespace s) = true) :
    executeStatement A st s nl jl = execIf A st ((skipWhitespace s).drop 3) nl jl := by
  have h' : strncasecmpEq ['.', 'i', 'f'] (skipWhitespace s) = true := h
  have h0 := strncmpEq_slash_of_dot _ _ _ h'
  have h1 : strncasecmpEq ".let".toList (skipWhitespace s) = false :=
    strncasecmpEq_dot_snd 'i' 'l' _ _ _ h' (by decide)
  have h2 : strncasecmpEq ".p".toList (skipWhitespace s) = false :=
    strncasecmpEq_dot_snd 'i' 'p' _ _ _ h' (by decide)
  have h3 : strncasecmpEq ".in".toList (skipWhitespace s) = false :=
    strncasecmpEq_dot_third 'i' 'f' 'n' _ _ _ h' (by decide)
  simp only [executeStatement, h0, h1, h2, h3, h, Bool.false_eq_true, if_false, if_true]

theorem executeStatement_let (A : LongDouble α) (st : State α) (s : List Char) (nl jl : Int)
    (h : strncasecmpEq ".let".toList (skipWhitespace s) = true) :
    executeStatement A st s nl jl =
      (execLet A st ((skipWhitespace s).drop 4)).map (fun st1 => ⟨st1, nl, jl⟩) := by
  have h' : strncasecmpEq ['.', 'l', 'e', 't'] (skipWhitespace s) = true := h
  have h0 := strncmpEq_slash_of_dot _ _ _ h'
  simp only [executeStatement, h0, h, Bool.false_eq_true, if_false, if_true]

theorem executeStatement_p (A : LongDouble α) (st : State α) (s : List Char) (nl jl : Int)
    (h : strncasecmpEq ".p".toList (skipWhitespace s) = true) :
    executeStatement A st s nl jl =
      (printLoop A (((skipWhitespace s).drop 2).length + 1) st ((skipWhitespace s).drop 2)).map
        (fun st1 => ⟨st1.print ['\n'], nl, jl⟩) := by
  have h' : strncasecmpEq ['.', 'p'] (skipWhitespace s) = true := h
  have h0 := strncmpEq_slash_of_dot _ _ _ h'
  have h1 : strncasecmpEq ".let".toList (skipWhitespace s) = false :=
    strncasecmpEq_dot_snd 'p' 'l' _ _ _ h' (by decide)
  simp only [executeStatement, h0, h1, h, Bool.false_eq_true, if_false, if_true]

theorem follow_spaces (w u : List Char) (hne : w ≠ []) (hw : w.all isspace = true)
    (hu : (skipWhitespace u).head? ≠ some '(') : Follow (w ++ u) := by
  obtain ⟨c, t, rfl⟩ := List.exists_cons_of_ne_nil hne
  simp only [List.all_cons, Bool.and_eq_true] at hw
  refine ⟨fun d hd => ?_, ?_⟩
  · simp only [List.cons_append, List.head?_cons, Option.some.injEq] at hd
    subst hd
    have := space_facts c hw.1
    exact ⟨this.2.1, this.1, this.2.2.1⟩
  · rw [skipWhitespace_append (c :: t) u (by simp [hw.1, hw.2])]
    exact hu

theorem scanRelop_single (c : Char) (rest : List Char)
    (hc : c = '=' ∨ c = '<' ∨ c = '>')
    (hrest : ∀ d, rest.head? = some d → d ≠ '=' ∧ d ≠ '>') :
    scanRelop (c :: rest) = some ([c], rest) := by
  have h1 : (decide (c = '<') || decide (c = '>') || decide (c = '=')) = true := by
    rcases hc with h | h | h <;> subst h <;> decide
  have h2 : (peek rest '=' || (peek rest '>' && decide (c = '<'))) = false := by
    cases rest with
    | nil => simp [peek]
    | cons d t =>
      have := hrest d rfl
      simp [peek, this.1, this.2]
  simp only [scanRelop, h1, h2, if_true, Bool.false_eq_true, if_false]

theorem scanRelop_double (c d : Char) (rest : List Char)
    (h : (c = '<' ∧ d = '=') ∨ (c = '>' ∧ d = '=') ∨ (c = '<' ∧ d = '>')) :
    scanRelop (c :: d :: rest) = some ([c, d], rest) := by
  rcases h with ⟨rfl, rfl⟩ | ⟨rfl, rfl⟩ | ⟨rfl, rfl⟩ <;> rfl

end Statements

section Conditional
variable {α : Type}

theorem follow_gap_char (wl : List Char) (c : Char) (t : List Char)
    (hwl : wl.all isspace = true)
    (hc : isdigit c = false ∧ isalpha c = false ∧ c ≠ '.' ∧ isspace c = false ∧ c ≠ '(') :
    Follow (wl ++ c :: t) ∧ skipWhitespace (wl ++ c :: t) = c :: t := by
  have hskip : skipWhitespace (wl ++ c :: t) = c :: t := by
    rw [skipWhitespace_append wl _ hwl, skipWhitespace_of_head c t hc.2.2.2.1]
  refine ⟨⟨?_, ?_⟩, hskip⟩
  · intro d hd
    cases wl with
    | nil =>
      simp only [List.nil_append, List.head?_cons, Option.some.injEq] at hd
      rw [← hd]; exact ⟨hc.1, hc.2.1, hc.2.2.1⟩
    | cons w ws =>
      simp only [List.cons_append, List.head?_cons, Option.some.injEq] at hd
      simp only [List.all_cons, Bool.and_eq_true] at hwl
      have := space_facts w hwl.1
      rw [← hd]; exact ⟨this.2.1, this.1, this.2.2.1⟩
  · rw [hskip]
    simp only [List.head?_cons, ne_eq, Option.some.injEq]
    exact hc.2.2.2.2

theorem skip_to_text (w : List Char) (e : Expr) (rest : List Char)
    (hw : w.all isspace = true) (he : e.level ≠ none) :
    skipWhitespace (w ++ (e.text ++ rest)) = e.text ++ rest := by
  obtain ⟨c, t, ht, hc⟩ := text_head e he
  rw [skipWhitespace_append w _ hw, ht]
  exact skipWhitespace_of_head c _ (operand_head_facts c hc).1

theorem gap_text_head (w : List Char) (e : Expr) (rest : List Char)
    (hw : w.all isspace = true) (he : e.level ≠ none) :
    ∀ d, (w ++ (e.text ++ rest)).head? = some d → d ≠ '=' ∧ d ≠ '>' := by
  intro d hd
  cases w with
  | nil =>
    obtain ⟨c, t, ht, hc⟩ := text_head e he
    rw [ht] at hd
    simp only [List.nil_append, List.cons_append, List.head?_cons, Option.some.injEq] at hd
    subst hd
    exact ⟨(operand_head_facts c hc).2.1, (operand_head_facts c hc).2.2.1⟩
  | cons c t =>
    simp only [List.cons_append, List.head?_cons, Option.some.injEq] at hd
    subst hd
    simp only [List.all_cons, Bool.and_eq_true] at hw
    rcases isspace_cases c hw.1 with h | h | h | h | h | h <;> subst h <;> decide

theorem execIf_text (A : LongDouble α) (st : State α) (l r : Expr)
    (w0 w1 w2 w3 u : List Char) (oc : Char) (orest : List Char) (cond : Bool)
    (n nl jl : Int)
    (hl : l.IsExpression) (hr : r.IsExpression)
    (hw0 : w0.all isspace = true) (hw1 : w1.all isspace = true)
    (hw2 : w2.all isspace = true) (hw3 : w3 ≠ [] ∧ w3.all isspace = true)
    (hoc : oc = '=' ∨ oc = '<' ∨ oc = '>')
    (hscan : scanRelop (oc :: (orest ++ (w2 ++ (r.text ++ (w3 ++ u))))) =
      some (oc :: orest, w2 ++ (r.text ++ (w3 ++ u))))
    (heval : evalRelop A (oc :: orest) (l.value A st.numVars) (r.value A st.numVars) =
      some cond)
    (hth : strncasecmpEq ".th".toList u = true)
    (hn : atoi (skipWhitespace (u.drop 3)) = n) (hn0 : n ≠ 0) :
    execIf A st (w0 ++ (l.text ++ (w1 ++ (oc :: orest ++ (w2 ++ (r.text ++ (w3 ++ u)))))))
        nl jl =
      some ⟨(st.report (l.errs A st.numVars st.currentProgramLine)).report
          (r.errs A st.numVars st.currentProgramLine),
        if cond then 0 else nl, if cond then n else jl⟩ := by
  obtain ⟨ut, hu⟩ := keyword_head _ u hth
  have hocf : isdigit oc = false ∧ isalpha oc = false ∧ oc ≠ '.' ∧ isspace oc = false ∧
      oc ≠ '(' := by
    rcases hoc with h | h | h <;> subst h <;> decide
  have hocstop : oc ≠ '+' ∧ oc ≠ '-' ∧ oc ≠ '*' ∧ oc ≠ '/' := by
    rcases hoc with h | h | h <;> subst h <;> decide
  obtain ⟨hfol1, hskip1⟩ := follow_gap_char w1 oc
    (orest ++ (w2 ++ (r.text ++ (w3 ++ u)))) hw1 hocf
  have hpl := parseExpr_text A st.numVars st.currentProgramLine l hl
    (w1 ++ oc :: (orest ++ (w2 ++ (r.text ++ (w3 ++ u))))) hfol1
    (by rw [hskip1]; intro c hc
        simp only [List.head?_cons, Option.some.injEq] at hc
        subst hc; exact hocstop)
  rw [hskip1] at hpl
  have hsu : skipWhitespace u = u := by
    rw [hu]; exact skipWhitespace_of_head '.' ut (by decide)
  have hskip3 : skipWhitespace (w3 ++ u) = u := by
    rw [skipWhitespace_append w3 u hw3.2, hsu]
  have hfol3 : Follow (w3 ++ u) :=
    follow_spaces w3 u hw3.1 hw3.2 (by rw [hsu, hu]; simp)
  have hpr := parseExpr_text A st.numVars st.currentProgramLine r hr (w3 ++ u) hfol3
    (by rw [hskip3, hu]; intro c hc
        simp only [List.head?_cons, Option.some.injEq] at hc
        subst hc; decide)
  rw [hskip3] at hpr
  unfold execIf
  rw [skip_to_text w0 l _ hw0 hl]
  rw [show oc :: orest ++ (w2 ++ (r.text ++ (w3 ++ u))) =
    oc :: (orest ++ (w2 ++ (r.text ++ (w3 ++ u)))) from rfl, hpl]
  simp only
  rw [skipWhitespace_of_head oc _ hocf.2.2.2.1, hscan]
  simp only
  rw [skip_to_text w2 r _ hw2 hr, hpr]
  simp only
  rw [heval]
  simp only
  rw [hsu, if_pos hth, hn, if_neg hn0]
  cases cond <;> rfl

/-- C11. A statement `.if l op r .th n`, with `l` and `r` well-formed
expressions (their literals any token that `strtold` converts: `3`, `2.5`,
`1e3`, `-5`, `0x10`), `op` one of `=`, `<`, `>`, `<=`, `>=`, `<>`, white space where a
blank is written (at least one before `.th`) and `n` other than 0, sets
`jumpLine = n` and `nextLine = 0` if the comparison holds and leaves both as
they were otherwise; here `<=` is "less or equal", `>=` "greater or equal"
and `<>` "not equal".  Only the errors of the two expressions are added to
`stderr`: the variables and the call stack are unchanged. -/
theorem conditional_jumps_iff_holds (A : LongDouble α) (st : State α) (s : List Char)
    (l r : Expr) (w0 w1 w2 w3 u op : List Char) (n nl jl : Int)
    (hkw : strncasecmpEq ".if".toList (skipWhitespace s) = true)
    (hbody : (skipWhitespace s).drop 3 =
      w0 ++ (l.text ++ (w1 ++ (op ++ (w2 ++ (r.text ++ (w3 ++ u)))))))
    (hl : l.IsExpression) (hr : r.IsExpression)
    (hw0 : w0.all isspace = true) (hw1 : w1.all isspace = true)
    (hw2 : w2.all isspace = true) (hw3 : w3 ≠ [] ∧ w3.all isspace = true)
    (hop : op = "=".toList ∨ op = "<".toList ∨ op = ">".toList ∨ op = "<=".toList ∨
      op = ">=".toList ∨ op = "<>".toList)
    (hth : strncasecmpEq ".th".toList u = true)
    (hn : atoi (skipWhitespace (u.drop 3)) = n) (hn0 : n ≠ 0) :
    ∃ (cond : Bool) (o : Outcome α),
      (op = "=".toList → cond = A.eq (l.value A st.numVars) (r.value A st.numVars)) ∧
      (op = "<".toList → cond = A.lt (l.value A st.numVars) (r.value A st.numVars)) ∧
      (op = ">".toList → cond = A.lt (r.value A st.numVars) (l.value A st.numVars)) ∧
      (op = "<=".toList → cond = (A.lt (l.value A st.numVars) (r.value A st.numVars) ||
        A.eq (l.value A st.numVars) (r.value A st.numVars))) ∧
      (op = ">=".toList → cond = (A.lt (r.value A st.numVars) (l.value A st.numVars) ||
        A.eq (l.value A st.numVars) (r.value A st.numVars))) ∧
      (op = "<>".toList → cond = !A.eq (l.value A st.numVars) (r.value A st.numVars)) ∧
      executeStatement A st s nl jl = some o ∧
      o.jumpLine = (if cond then n else jl) ∧ o.nextLine = (if cond then 0 else nl) ∧
      o.st = (st.report (l.errs A st.numVars st.currentProgramLine)).report
        (r.errs A st.numVars st.currentProgramLine) ∧
      o.st.numVars = st.numVars ∧ o.st.strVars = st.strVars ∧
      o.st.gosubStack = st.gosubStack := by
  have hR := gap_text_head w2 r (w3 ++ u) hw2 hr
  have key : ∀ (oc : Char) (orest : List Char) (cond : Bool), op = oc :: orest →
      (oc = '=' ∨ oc = '<' ∨ oc = '>') →
      scanRelop (oc :: (orest ++ (w2 ++ (r.text ++ (w3 ++ u))))) =
        some (oc :: orest, w2 ++ (r.text ++ (w3 ++ u))) →
      evalRelop A (oc :: orest) (l.value A st.numVars) (r.value A st.numVars) = some cond →
      executeStatement A st s nl jl =
        some ⟨(st.report (l.errs A st.numVars st.currentProgramLine)).report
          (r.errs A st.numVars st.currentProgramLine),
          if cond then 0 else nl, if cond then n else jl⟩ := by
    intro oc orest cond hopeq hoc hscan heval
    rw [executeStatement_if A st s nl jl hkw, hbody, hopeq]
    exact execIf_text A st l r w0 w1 w2 w3 u oc orest cond n nl jl hl hr hw0 hw1 hw2 hw3 hoc
      hscan heval hth hn hn0
  rcases hop with h | h | h | h | h | h
  · refine ⟨A.eq (l.value A st.numVars) (r.value A st.numVars), _, ?_, ?_, ?_, ?_, ?_, ?_,
      key '=' [] _ h (Or.inl rfl) (scanRelop_single '=' _ (Or.inl rfl) hR)
        (by simp [evalRelop]), rfl, rfl, rfl, rfl, rfl, rfl⟩ <;>
      (intro h2; first | rfl | (rw [h] at h2; exact absurd h2 (by decide)))
  · refine ⟨A.lt (l.value A st.numVars) (r.value A st.numVars), _, ?_, ?_, ?_, ?_, ?_, ?_,
      key '<' [] _ h (Or.inr (Or.inl rfl)) (scanRelop_single '<' _ (Or.inr (Or.inl rfl)) hR)
        (by simp [evalRelop]), rfl, rfl, rfl, rfl, rfl, rfl⟩ <;>
      (intro h2; first | rfl | (rw [h] at h2; exact absurd h2 (by decide)))
  · refine ⟨A.lt (r.value A st.numVars) (l.value A st.numVars), _, ?_, ?_, ?_, ?_, ?_, ?_,
      key '>' [] _ h (Or.inr (Or.inr rfl)) (scanRelop_single '>' _ (Or.inr (Or.inr rfl)) hR)
        (by simp [evalRelop]), rfl, rfl, rfl, rfl, rfl, rfl⟩ <;>
      (intro h2; first | rfl | (rw [h] at h2; exact absurd h2 (by decide)))
  · refine ⟨(A.lt (l.value A st.numVars) (r.value A st.numVars) ||
        A.eq (l.value A st.numVars) (r.value A st.numVars)), _, ?_, ?_, ?_, ?_, ?_, ?_,
      key '<' ['='] _ h (Or.inr (Or.inl rfl)) (scanRelop_double '<' '=' _ (Or.inl ⟨rfl, rfl⟩))
        (by simp [evalRelop]), rfl, rfl, rfl, rfl, rfl, rfl⟩ <;>
      (intro h2; first | rfl | (rw [h] at h2; exact absurd h2 (by decide)))
  · refine ⟨(A.lt (r.value A st.numVars) (l.value A st.numVars) ||
        A.eq (l.value A st.numVars) (r.value A st.numVars)), _, ?_, ?_, ?_, ?_, ?_, ?_,
      key '>' ['='] _ h (Or.inr (Or.inr rfl))
        (scanRelop_double '>' '=' _ (Or.inr (Or.inl ⟨rfl, rfl⟩)))
        (by simp [evalRelop]), rfl, rfl, rfl, rfl, rfl, rfl⟩ <;>
      (intro h2; first | rfl | (rw [h] at h2; exact absurd h2 (by decide)))
  · refine ⟨!A.eq (l.value A st.numVars) (r.value A st.numVars), _, ?_, ?_, ?_, ?_, ?_, ?_,
      key '<' ['>'] _ h (Or.inr (Or.inl rfl))
        (scanRelop_double '<' '>' _ (Or.inr (Or.inr ⟨rfl, rfl⟩)))
        (by simp [evalRelop]), rfl, rfl, rfl, rfl, rfl, rfl⟩ <;>
      (intro h2; first | rfl | (rw [h] at h2; exact absurd h2 (by decide)))

theorem conditional_jumps_iff_holds_witness :
    (executeStatement exact (State.init exact []) ".if A <= 3 .th 40".toList 1 0).map
      (fun o => (o.jumpLine, o.nextLine)) = some (40, 0) ∧
    (executeStatement exact (State.init exact []) ".if -1e1 > b*2.5 .th 10".toList 1 0).map
      (fun o => (o.jumpLine, o.nextLine)) = some (0, 1) := by
  constructor
  · obtain ⟨cond, o, _, _, _, h4, _, _, h7, h8, h9, _⟩ :=
      conditional_jumps_iff_holds exact (State.init exact []) ".if A <= 3 .th 40".toList
        (.var 'A') (.num ['3']) [' '] [' '] [' '] [' '] ".th 40".toList "<=".toList 40 1 0
        (by decide) (by decide) (by decide) (by decide) (by decide) (by decide) (by decide)
        (by decide) (by decide) (by decide) (by decide) (by decide)
    have hc : cond = true := by rw [h4 rfl]; decide
    rw [h7, Option.map_some', h8, h9, hc]
    rfl
  · obtain ⟨cond, o, _, _, h3, _, _, _, h7, h8, h9, _⟩ :=
      conditional_jumps_iff_holds exact (State.init exact [])
        ".if -1e1 > b*2.5 .th 10".toList
        (.num "-1e1".toList) (.bin (.var 'b') [] '*' [] (.num "2.5".toList))
        [' '] [' '] [' '] [' '] ".th 10".toList ">".toList 10 1 0
        (by decide) (by decide) (by decide) (by decide) (by decide) (by decide) (by decide)
        (by decide) (by decide) (by decide) (by decide) (by decide)
    have hc : cond = false := by rw [h3 rfl]; decide
    rw [h7, Option.map_some', h8, h9, hc]
    rfl

end Conditional

section Assignment
variable {α : Type}

theorem follow_ws (w : List Char) (hw : w.all isspace = true) :
    Follow w ∧ skipWhitespace w = [] := by
  have hskip : skipWhitespace w = [] := by
    have := skipWhitespace_append w [] hw
    simpa [skipWhitespace] using this
  refine ⟨⟨fun c hc => ?_, by rw [hskip]; simp⟩, hskip⟩
  cases w with
  | nil => cases hc
  | cons d t =>
    simp only [List.head?_cons, Option.some.injEq] at hc
    simp only [List.all_cons, Bool.and_eq_true] at hw
    have := space_facts d hw.1
    rw [← hc]
    exact ⟨this.2.1, this.1, this.2.2.1⟩

theorem gap_head_ne (w : List Char) (c x : Char) (t : List Char) (hw : w.all isspace = true)
    (hx : isspace x = false) (hcx : c ≠ x) : peek (w ++ c :: t) x = false := by
  cases w with
  | nil => simp [peek, hcx]
  | cons d r =>
    simp only [List.all_cons, Bool.and_eq_true] at hw
    have : d ≠ x := by
      rintro rfl
      rw [hw.1] at hx; cases hx
    simp [peek, this]

theorem ws_head_ne (w : List Char) (x : Char) (hw : w.all isspace = true)
    (hx : isspace x = false) : peek w x = false := by
  cases w with
  | nil => rfl
  | cons d r =>
    simp only [List.all_cons, Bool.and_eq_true] at hw
    have : d ≠ x := by
      rintro rfl
      rw [hw.1] at hx; cases hx
    simp [peek, this]

theorem execLet_numeric (A : LongDouble α) (st : State α) (X : Char) (e : Expr)
    (w0 w1 w2 w3 : List Char) (hX : isalpha X = true) (he : e.IsExpression)
    (hw0 : w0.all isspace = true) (hw1 : w1.all isspace = true)
    (hw2 : w2.all isspace = true) (hw3 : w3.all isspace = true) :
    execLet A st (w0 ++ X :: (w1 ++ '=' :: (w2 ++ (e.text ++ w3)))) =
      some ((st.report (e.errs A st.numVars st.currentProgramLine)).setNum (varIndex X)
        (e.value A st.numVars)) := by
  have hs0 : skipWhitespace (w0 ++ X :: (w1 ++ '=' :: (w2 ++ (e.text ++ w3)))) =
      X :: (w1 ++ '=' :: (w2 ++ (e.text ++ w3))) := by
    rw [skipWhitespace_append w0 _ hw0, skipWhitespace_of_head X _ (alpha_not_space X hX)]
  have hs1 : skipWhitespace (w1 ++ '=' :: (w2 ++ (e.text ++ w3))) =
      '=' :: (w2 ++ (e.text ++ w3)) := by
    rw [skipWhitespace_append w1 _ hw1, skipWhitespace_of_head '=' _ (by decide)]
  obtain ⟨hfol, hskip3⟩ := follow_ws w3 hw3
  have hp := parseExpr_text A st.numVars st.currentProgramLine e he w3 hfol
    (by rw [hskip3]; intro c hc; cases hc)
  unfold execLet
  rw [hs0]
  have h1 : peekAlpha (X :: (w1 ++ '=' :: (w2 ++ (e.text ++ w3)))) = true := by
    simp [peekAlpha, hX]
  have h2 : peek (X :: (w1 ++ '=' :: (w2 ++ (e.text ++ w3)))).tail '$' = false :=
    gap_head_ne w1 '=' '$' _ hw1 (by decide) (by decide)
  rw [h1, h2]
  simp only [Bool.not_true, Bool.false_eq_true, if_false, List.tail_cons, List.headD_cons]
  rw [hs1]
  have h3 : peek ('=' :: (w2 ++ (e.text ++ w3))) '=' = true := rfl
  rw [h3]
  simp only [Bool.not_true, Bool.false_eq_true, if_false, List.tail_cons]
  rw [skip_to_text w2 e w3 hw2 he, hp]

theorem execLet_numeric_any (A : LongDouble α) (st : State α) (X : Char)
    (t w0 w1 : List Char) (r : Parsed α) (hX : isalpha X = true)
    (hw0 : w0.all isspace = true) (hw1 : w1.all isspace = true)
    (hr : parseExpr A st.numVars st.currentProgramLine (skipWhitespace t) = some r) :
    execLet A st (w0 ++ X :: (w1 ++ '=' :: t)) =
      some ((st.report r.errs).setNum (varIndex X) r.val) := by
  have hs0 : skipWhitespace (w0 ++ X :: (w1 ++ '=' :: t)) = X :: (w1 ++ '=' :: t) := by
    rw [skipWhitespace_append w0 _ hw0, skipWhitespace_of_head X _ (alpha_not_space X hX)]
  have hs1 : skipWhitespace (w1 ++ '=' :: t) = '=' :: t := by
    rw [skipWhitespace_append w1 _ hw1, skipWhitespace_of_head '=' _ (by decide)]
  unfold execLet
  rw [hs0]
  have h1 : peekAlpha (X :: (w1 ++ '=' :: t)) = true := by simp [peekAlpha, hX]
  have h2 : peek (X :: (w1 ++ '=' :: t)).tail '$' = false :=
    gap_head_ne w1 '=' '$' _ hw1 (by decide) (by decide)
  rw [h1, h2]
  simp only [Bool.not_true, Bool.false_eq_true, if_false, List.tail_cons, List.headD_cons]
  rw [hs1]
  have h3 : peek ('=' :: t) '=' = true := rfl
  rw [h3]
  simp only [Bool.not_true, Bool.false_eq_true, if_false, List.tail_cons]
  rw [hr]

theorem scanQuoted_closed (w tail : List Char) (hq : ∀ c ∈ w, c ≠ '"')
    (hlen : w.length ≤ 255) : scanQuoted (w ++ '"' :: tail) = (w, tail) := by
  have htw : (w ++ '"' :: tail).takeWhile (fun c => c != '"') = w := by
    induction w with
    | nil => simp [List.takeWhile]
    | cons c t ih =>
      have hc : (c != '"') = true := by simpa using hq c (List.mem_cons_self _ _)
      rw [List.cons_append, List.takeWhile_cons, if_pos hc,
        ih (fun d hd => hq d (List.mem_cons_of_mem _ hd))
          (Nat.le_trans (Nat.le_succ _) hlen)]
  have htake : w.take (MAX_LINE - 1) = w := List.take_of_length_le hlen
  unfold scanQuoted
  rw [htw, htake]
  simp [peek]

theorem execLet_string (A : LongDouble α) (st : State α) (X : Char)
    (w0 w1 w2 w tail : List Char) (hX : isalpha X = true)
    (hw0 : w0.all isspace = true) (hw1 : w1.all isspace = true)
    (hw2 : w2.all isspace = true) (hq : ∀ c ∈ w, c ≠ '"') (hlen : w.length ≤ 255) :
    execLet A st (w0 ++ X :: '$' :: (w1 ++ '=' :: (w2 ++ '"' :: (w ++ '"' :: tail)))) =
      some (st.setStr (varIndex X) w) := by
  have hs0 : skipWhitespace (w0 ++ X :: '$' :: (w1 ++ '=' :: (w2 ++ '"' :: (w ++ '"' :: tail))))
      = X :: '$' :: (w1 ++ '=' :: (w2 ++ '"' :: (w ++ '"' :: tail))) := by
    rw [skipWhitespace_append w0 _ hw0, skipWhitespace_of_head X _ (alpha_not_space X hX)]
  have hs1 : skipWhitespace (w1 ++ '=' :: (w2 ++ '"' :: (w ++ '"' :: tail))) =
      '=' :: (w2 ++ '"' :: (w ++ '"' :: tail)) := by
    rw [skipWhitespace_append w1 _ hw1, skipWhitespace_of_head '=' _ (by decide)]
  have hs2 : skipWhitespace (w2 ++ '"' :: (w ++ '"' :: tail)) = '"' :: (w ++ '"' :: tail) := by
    rw [skipWhitespace_append w2 _ hw2, skipWhitespace_of_head '"' _ (by decide)]
  unfold execLet
  rw [hs0]
  have h1 : peekAlpha (X :: '$' :: (w1 ++ '=' :: (w2 ++ '"' :: (w ++ '"' :: tail)))) = true := by
    simp [peekAlpha, hX]
  have h2 : peek (X :: '$' :: (w1 ++ '=' :: (w2 ++ '"' :: (w ++ '"' :: tail)))).tail '$'
      = true := rfl
  rw [h1, h2]
  simp only [Bool.not_true, Bool.false_eq_true, if_false, if_true, List.tail_cons,
    List.headD_cons]
  rw [hs1]
  have h3 : peek ('=' :: (w2 ++ '"' :: (w ++ '"' :: tail))) '=' = true := rfl
  rw [h3]
  simp only [Bool.not_true, Bool.false_eq_true, if_false, List.tail_cons]
  rw [hs2]
  have h4 : peek ('"' :: (w ++ '"' :: tail)) '"' = true := rfl
  rw [h4]
  simp only [Bool.not_true, Bool.false_eq_true, if_false, List.tail_cons]
  rw [scanQuoted_closed w tail hq hlen]

theorem toupper_lower_alpha (m : Nat) (h1 : 97 ≤ m) (h2 : m ≤ 122) :
    isalpha (Char.ofNat (m - 32)) = true := by
  interval_cases m <;> decide

theorem isalpha_of_toupper_eq (X Y : Char) (hX : isalpha X = true)
    (h : toupper Y = toupper X) : isalpha Y = true := by
  have hup : isalpha (toupper X) = true := by
    simp only [toupper]
    split_ifs with hl
    · simp only [islower, Bool.and_eq_true, decide_eq_true_eq] at hl
      exact toupper_lower_alpha X.toNat hl.1 hl.2
    · exact hX
  cases hy : isalpha Y with
  | true => rfl
  | false =>
    exfalso
    have hlow : islower Y = false := by
      simp only [isalpha, Bool.or_eq_false_iff] at hy
      exact hy.2
    have hny : toupper Y = Y := by
      simp only [toupper, hlow, Bool.false_eq_true, if_false]
    rw [← h, hny, hy] at hup
    cases hup

theorem varIndex_of_toupper (X Y : Char) (h : toupper Y = toupper X) :
    varIndex Y = varIndex X := by
  unfold varIndex; rw [h]

theorem printLoop_numVar (A : LongDouble α) (st : State α) (fuel : Nat) (Y : Char)
    (v0 v1 : List Char) (hY : isalpha Y = true)
    (hv0 : v0.all isspace = true) (hv1 : v1.all isspace = true) :
    printLoop A (fuel + 1) st (v0 ++ Y :: v1) =
      some (st.print (A.fmt0 (st.numVars (varIndex Y)))) := by
  have hs0 : skipWhitespace (v0 ++ Y :: v1) = Y :: v1 := by
    rw [skipWhitespace_append v0 _ hv0, skipWhitespace_of_head Y _ (alpha_not_space Y hY)]
  have hs1 := (follow_ws v1 hv1).2
  rw [printLoop, hs0]
  simp only [List.cons_ne_nil, if_false]
  have hq : peek (Y :: v1) '"' = false := by
    have : Y ≠ '"' := by rintro rfl; exact absurd hY (by decide)
    simp [peek, this]
  have ha : peekAlpha (Y :: v1) = true := by simp [peekAlpha, hY]
  have hd : peek (Y :: v1).tail '$' = false := ws_head_ne v1 '$' hv1 (by decide)
  have ho : printOperand A st (Y :: v1) =
      some (A.fmt0 (st.numVars (varIndex Y)), [], []) := by
    unfold printOperand
    rw [hq, ha, hd]
    simp only [Bool.false_eq_true, if_false, if_true, List.tail_cons, hs1, List.headD_cons]
  rw [ho]
  simp only
  have hsemi : peek (skipWhitespace ([] : List Char)) ';' = false := rfl
  rw [hsemi]
  simp [State.report]

theorem printLoop_strVar (A : LongDouble α) (st : State α) (fuel : Nat) (Y : Char)
    (v0 v1 : List Char) (hY : isalpha Y = true)
    (hv0 : v0.all isspace = true) (hv1 : v1.all isspace = true) :
    printLoop A (fuel + 1) st (v0 ++ Y :: '$' :: v1) =
      some (st.print ((st.strVars (varIndex Y)).getD "(null)".toList)) := by
  have hs0 : skipWhitespace (v0 ++ Y :: '$' :: v1) = Y :: '$' :: v1 := by
    rw [skipWhitespace_append v0 _ hv0, skipWhitespace_of_head Y _ (alpha_not_space Y hY)]
  have hs1 := (follow_ws v1 hv1).2
  rw [printLoop, hs0]
  simp only [List.cons_ne_nil, if_false]
  have hq : peek (Y :: '$' :: v1) '"' = false := by
    have : Y ≠ '"' := by rintro rfl; exact absurd hY (by decide)
    simp [peek, this]
  have ha : peekAlpha (Y :: '$' :: v1) = true := by simp [peekAlpha, hY]
  have hd : peek (Y :: '$' :: v1).tail '$' = true := rfl
  have ho : printOperand A st (Y :: '$' :: v1) =
      some ((st.strVars (varIndex Y)).getD "(null)".toList, [], v1) := by
    unfold printOperand
    rw [hq, ha, hd]
    simp only [Bool.false_eq_true, if_false, if_true, List.tail_cons, List.headD_cons]
  rw [ho]
  simp only
  have hsemi : peek (skipWhitespace v1) ';' = false := by rw [hs1]; rfl
  rw [hsemi]
  simp [State.report]

theorem letter_position (c : Char) (k : Nat) (hk : k < 26)
    (h : c.toNat = 65 + k ∨ c.toNat = 97 + k) : isalpha c = true ∧ varIndex c = k := by
  rcases h with h | h
  · have hc : c = Char.ofNat (65 + k) := by rw [← h, Char.ofNat_toNat]
    subst hc
    interval_cases k <;> exact ⟨rfl, rfl⟩
  · have hc : c = Char.ofNat (97 + k) := by rw [← h, Char.ofNat_toNat]
    subst hc
    interval_cases k <;> exact ⟨rfl, rfl⟩

/-- C14. Let `X` be the letter at position `k` of the alphabet (counted from
0), in either case, and `e` a well-formed expression (its literals any token
`strtold` converts: `5`, `2.5`, `1e3`, `-0`, `0x10`).  After `.let X = e` the
numeric cell `k` holds the value of `e`, every other numeric cell and every
string cell is unchanged, and `.p X` (the letter in either case) prints that
value and a newline.  After `.let X$ = "w"`, with `w` free of double quotes
and at most 255 characters long, the string cell `k` holds `w`, every other
string cell and every numeric cell is unchanged, and `.p X$` prints `w` and a
newline.  After `.let A=5`, `.p A` prints `5`; after `.let A$="hi"`, `.p A$`
prints `hi`.  And whatever text follows the `=` of `.let X =`, cell `k` holds
what `parseExpression` returns on it, the other cells are unchanged, and
`.p X` prints that value. -/
theorem assignment_round_trip (A : LongDouble α) :
    (∀ (st : State α) (s s2 : List Char) (k : Nat) (X Y : Char) (e : Expr)
      (w0 w1 w2 w3 v0 v1 : List Char) (nl jl nl2 jl2 : Int),
      strncasecmpEq ".let".toList (skipWhitespace s) = true →
      (skipWhitespace s).drop 4 = w0 ++ X :: (w1 ++ '=' :: (w2 ++ (e.text ++ w3))) →
      k < 26 → (X.toNat = 65 + k ∨ X.toNat = 97 + k) → e.IsExpression →
      w0.all isspace = true → w1.all isspace = true → w2.all isspace = true →
      w3.all isspace = true →
      strncasecmpEq ".p".toList (skipWhitespace s2) = true →
      (skipWhitespace s2).drop 2 = v0 ++ Y :: v1 →
      (Y.toNat = 65 + k ∨ Y.toNat = 97 + k) →
      v0.all isspace = true → v1.all isspace = true →
      ∃ o o2 : Outcome α,
        executeStatement A st s nl jl = some o ∧ o.nextLine = nl ∧ o.jumpLine = jl ∧
        o.st.numVars k = e.value A st.numVars ∧
        (∀ i, i ≠ k → o.st.numVars i = st.numVars i) ∧
        o.st.strVars = st.strVars ∧ o.st.stdout = st.stdout ∧
        executeStatement A o.st s2 nl2 jl2 = some o2 ∧
        o2.st.stdout = st.stdout ++ A.fmt0 (e.value A st.numVars) ++ ['\n']) ∧
    (∀ (st : State α) (s s2 : List Char) (k : Nat) (X Y : Char)
      (w0 w1 w2 w tail v0 v1 : List Char) (nl jl nl2 jl2 : Int),
      strncasecmpEq ".let".toList (skipWhitespace s) = true →
      (skipWhitespace s).drop 4 =
        w0 ++ X :: '$' :: (w1 ++ '=' :: (w2 ++ '"' :: (w ++ '"' :: tail))) →
      k < 26 → (X.toNat = 65 + k ∨ X.toNat = 97 + k) →
      (∀ c ∈ w, c ≠ '"') → w.length ≤ 255 →
      w0.all isspace = true → w1.all isspace = true → w2.all isspace = true →
      strncasecmpEq ".p".toList (skipWhitespace s2) = true →
      (skipWhitespace s2).drop 2 = v0 ++ Y :: '$' :: v1 →
      (Y.toNat = 65 + k ∨ Y.toNat = 97 + k) →
      v0.all isspace = true → v1.all isspace = true →
      ∃ o o2 : Outcome α,
        executeStatement A st s nl jl = some o ∧ o.nextLine = nl ∧ o.jumpLine = jl ∧
        o.st.strVars k = some w ∧
        (∀ i, i ≠ k → o.st.strVars i = st.strVars i) ∧
        o.st.numVars = st.numVars ∧ o.st.stdout = st.stdout ∧
        executeStatement A o.st s2 nl2 jl2 = some o2 ∧
        o2.st.stdout = st.stdout ++ w ++ ['\n']) ∧
    ((executeStatement exact (State.init exact []) ".let A=5".toList 1 0).bind
        (fun o => executeStatement exact o.st ".p A".toList 1 0)).map
      (fun o => o.st.stdout) = some "5\n".toList ∧
    ((executeStatement exact (State.init exact []) ".let A$=\"hi\"".toList 1 0).bind
        (fun o => executeStatement exact o.st ".p A$".toList 1 0)).map
      (fun o => o.st.stdout) = some "hi\n".toList ∧
    (∀ (st : State α) (s s2 : List Char) (k : Nat) (X Y : Char)
      (t w0 w1 v0 v1 : List Char) (nl jl nl2 jl2 : Int),
      strncasecmpEq ".let".toList (skipWhitespace s) = true →
      (skipWhitespace s).drop 4 = w0 ++ X :: (w1 ++ '=' :: t) →
      k < 26 → (X.toNat = 65 + k ∨ X.toNat = 97 + k) →
      w0.all isspace = true → w1.all isspace = true →
      strncasecmpEq ".p".toList (skipWhitespace s2) = true →
      (skipWhitespace s2).drop 2 = v0 ++ Y :: v1 →
      (Y.toNat = 65 + k ∨ Y.toNat = 97 + k) →
      v0.all isspace = true → v1.all isspace = true →
      ∃ (r : Parsed α) (o o2 : Outcome α),
        parseExpr A st.numVars st.currentProgramLine (skipWhitespace t) = some r ∧
        executeStatement A st s nl jl = some o ∧ o.nextLine = nl ∧ o.jumpLine = jl ∧
        o.st.numVars k = r.val ∧
        (∀ i, i ≠ k → o.st.numVars i = st.numVars i) ∧
        o.st.strVars = st.strVars ∧ o.st.stdout = st.stdout ∧
        executeStatement A o.st s2 nl2 jl2 = some o2 ∧
        o2.st.stdout = st.stdout ++ A.fmt0 r.val ++ ['\n']) := by
  refine ⟨?_, ?_, by decide, by decide, ?_⟩
  · intro st s s2 k X Y e w0 w1 w2 w3 v0 v1 nl jl nl2 jl2 hkw hbody hk hXk he hw0 hw1 hw2 hw3
      hkw2 hbody2 hYk hv0 hv1
    obtain ⟨hX, hXi⟩ := letter_position X k hk hXk
    obtain ⟨hYa, hYi⟩ := letter_position Y k hk hYk
    have h1 := executeStatement_let A st s nl jl hkw
    rw [hbody, execLet_numeric A st X e w0 w1 w2 w3 hX he hw0 hw1 hw2 hw3, hXi] at h1
    have h2 := executeStatement_p A
      ((st.report (e.errs A st.numVars st.currentProgramLine)).setNum k
        (e.value A st.numVars)) s2 nl2 jl2 hkw2
    rw [hbody2, printLoop_numVar A _ _ Y v0 v1 hYa hv0 hv1, hYi] at h2
    refine ⟨_, _, h1, rfl, rfl, ?_, ?_, rfl, rfl, h2, ?_⟩
    · simp [State.setNum]
    · intro i hi
      simp [State.setNum, State.report, Function.update, hi]
    · simp [State.setNum, State.report, State.print]
  · intro st s s2 k X Y w0 w1 w2 w tail v0 v1 nl jl nl2 jl2 hkw hbody hk hXk hq hlen hw0 hw1
      hw2 hkw2 hbody2 hYk hv0 hv1
    obtain ⟨hX, hXi⟩ := letter_position X k hk hXk
    obtain ⟨hYa, hYi⟩ := letter_position Y k hk hYk
    have h1 := executeStatement_let A st s nl jl hkw
    rw [hbody, execLet_string A st X w0 w1 w2 w tail hX hw0 hw1 hw2 hq hlen, hXi] at h1
    have h2 := executeStatement_p A (st.setStr k w) s2 nl2 jl2 hkw2
    rw [hbody2, printLoop_strVar A _ _ Y v0 v1 hYa hv0 hv1, hYi] at h2
    refine ⟨_, _, h1, rfl, rfl, ?_, ?_, rfl, rfl, h2, ?_⟩
    · simp [State.setStr]
    · intro i hi
      simp [State.setStr, Function.update, hi]
    · simp [State.setStr, State.print]
  · intro st s s2 k X Y t w0 w1 v0 v1 nl jl nl2 jl2 hkw hbody hk hXk hw0 hw1 hkw2 hbody2 hYk
      hv0 hv1
    obtain ⟨hX, hXi⟩ := letter_position X k hk hXk
    obtain ⟨hYa, hYi⟩ := letter_position Y k hk hYk
    obtain ⟨r, hr, _⟩ := parseExpr_total A st.numVars st.currentProgramLine (skipWhitespace t)
    have h1 := executeStatement_let A st s nl jl hkw
    rw [hbody, execLet_numeric_any A st X t w0 w1 r hX hw0 hw1 hr, hXi] at h1
    have h2 := executeStatement_p A ((st.report r.errs).setNum k r.val) s2 nl2 jl2 hkw2
    rw [hbody2, printLoop_numVar A _ _ Y v0 v1 hYa hv0 hv1, hYi] at h2
    refine ⟨r, _, _, hr, h1, rfl, rfl, ?_, ?_, rfl, rfl, h2, ?_⟩
    · simp [State.setNum]
    · intro i hi
      simp [State.setNum, State.report, Function.update, hi]
    · simp [State.setNum, State.report, State.print]

theorem assignment_round_trip_witness :
    (∃ o o2 : Outcome Frac,
      executeStatement exact (State.init exact []) " .LET b = (1+2.5)*-3 ".toList 1 0 =
        some o ∧
      o.st.numVars 1 =
        (Expr.bin (.paren [] (.bin (.num ['1']) [] '+' [] (.num "2.5".toList)) []) [] '*' []
          (.num "-3".toList)).value exact (State.init exact []).numVars ∧
      executeStatement exact o.st ".p B".toList 1 0 = some o2 ∧
      o2.st.stdout = (State.init exact []).stdout ++
        exact.fmt0 ((Expr.bin (.paren [] (.bin (.num ['1']) [] '+' [] (.num "2.5".toList)) [])
          [] '*' [] (.num "-3".toList)).value exact (State.init exact []).numVars) ++
          ['\n']) ∧
    (∃ o o2 : Outcome Frac,
      executeStatement exact (State.init exact []) ".let c$ = \"a b\"".toList 1 0 = some o ∧
      o.st.strVars 2 = some "a b".toList ∧
      executeStatement exact o.st ".p C$".toList 1 0 = some o2 ∧
      o2.st.stdout = (State.init exact []).stdout ++ "a b".toList ++ ['\n']) := by
  constructor
  · obtain ⟨o, o2, h1, _, _, h4, _, _, _, h8, h9⟩ :=
      (assignment_round_trip exact).1 (State.init exact []) " .LET b = (1+2.5)*-3 ".toList
        ".p B".toList 1 'b' 'B'
        (.bin (.paren [] (.bin (.num ['1']) [] '+' [] (.num "2.5".toList)) []) [] '*' []
          (.num "-3".toList))
        [' '] [' '] [' '] [' '] [' '] [] 1 0 1 0
        (by decide) (by decide) (by decide) (by decide) (by decide) (by decide) (by decide)
        (by decide) (by decide) (by decide) (by decide) (by decide) (by decide) (by decide)
    exact ⟨o, o2, h1, h4, h8, h9⟩
  · obtain ⟨o, o2, h1, _, _, h4, _, _, _, h8, h9⟩ :=
      (assignment_round_trip exact).2.1 (State.init exact []) ".let c$ = \"a b\"".toList
        ".p C$".toList 2 'c' 'C' [' '] [' '] [' '] "a b".toList [] [' '] [] 1 0 1 0
        (by decide) (by decide) (by decide) (by decide) (by decide) (by decide) (by decide)
        (by decide) (by decide) (by decide) (by decide) (by decide) (by decide) (by decide)
    exact ⟨o, o2, h1, h4, h8, h9⟩

end Assignment

/-! ## Output statements -/

section Output
variable {α : Type}

theorem printOperand_congr (A : LongDouble α) (st st0 : State α) (s : List Char)
    (h1 : st.numVars = st0.numVars) (h2 : st.strVars = st0.strVars)
    (h3 : st.currentProgramLine = st0.currentProgramLine) :
    printOperand A st s = printOperand A st0 s := by
  unfold printOperand
  rw [h1, h2, h3]

theorem printLoop_texts (A : LongDouble α) (st0 : State α) (fuel : Nat) (st st1 : State α)
    (s : List Char)
    (h1 : st.numVars = st0.numVars) (h2 : st.strVars = st0.strVars)
    (h3 : st.currentProgramLine = st0.currentProgramLine)
    (h : printLoop A fuel st s = some st1) :
    ∃ texts, operandTexts A st0 fuel s = some texts ∧
      st1.stdout = st.stdout ++ texts.flatten := by
  induction fuel generalizing st s with
  | zero => cases h
  | succ n ih =>
    rw [printLoop] at h
    rw [operandTexts]
    split_ifs at h ⊢ with hs
    · cases h
      exact ⟨[], rfl, by simp⟩
    · rw [printOperand_congr A st st0 _ h1 h2 h3] at h
      cases ho : printOperand A st0 (skipWhitespace s) with
      | none => rw [ho] at h; cases h
      | some r =>
        obtain ⟨text, errs, rest⟩ := r
        rw [ho] at h
        simp only at h ⊢
        split_ifs at h ⊢ with hsemi
        · obtain ⟨texts, ht, hout⟩ := ih ((st.print text).report errs) _ h1 h2 h3 h
          refine ⟨text :: texts, by rw [ht]; rfl, ?_⟩
          rw [hout]
          simp [State.print, State.report]
        · cases h
          exact ⟨[text], rfl, by simp [State.print, State.report]⟩

/-- C12 (as amended). An output statement emits the texts of its operands
one after the other and then exactly one newline, whether or not it ends with
`;`: `.p "a"` and `.p "a";` both emit `a` and a newline. -/
theorem output_ends_with_newline (A : LongDouble α) (st : State α) (s : List Char)
    (nl jl : Int) (hkw : strncasecmpEq ".p".toList (skipWhitespace s) = true) :
    (∃ (texts : List (List Char)) (o : Outcome α),
      operandTexts A st (((skipWhitespace s).drop 2).length + 1) ((skipWhitespace s).drop 2) =
        some texts ∧
      executeStatement A st s nl jl = some o ∧
      o.st.stdout = st.stdout ++ texts.flatten ++ ['\n'] ∧
      o.nextLine = nl ∧ o.jumpLine = jl) ∧
    (executeStatement exact (State.init exact []) ".p \"a\"".toList 1 0).map
      (fun o => o.st.stdout) = some "a\n".toList ∧
    (executeStatement exact (State.init exact []) ".p \"a\";".toList 1 0).map
      (fun o => o.st.stdout) = some "a\n".toList := by
  refine ⟨?_, by decide, by decide⟩
  have h := executeStatement_p A st s nl jl hkw
  obtain ⟨st1, h1⟩ := printLoop_returns A (((skipWhitespace s).drop 2).length + 1) st
    ((skipWhitespace s).drop 2) (Nat.lt_succ_self _)
  obtain ⟨texts, ht, hout⟩ := printLoop_texts A st _ st st1 _ rfl rfl rfl h1
  rw [h1] at h
  refine ⟨texts, _, ht, h, ?_, rfl, rfl⟩
  show (st1.print ['\n']).stdout = _
  simp [State.print, hout]

theorem output_ends_with_newline_witness :
    ∃ (texts : List (List Char)) (o : Outcome Frac),
      operandTexts exact (State.init exact []) ((".p 1;\"x\";".toList.drop 2).length + 1)
        (".p 1;\"x\";".toList.drop 2) = some texts ∧
      executeStatement exact (State.init exact []) ".p 1;\"x\";".toList 1 0 = some o ∧
      o.st.stdout = (State.init exact []).stdout ++ texts.flatten ++ ['\n'] ∧
      o.nextLine = 1 ∧ o.jumpLine = 0 :=
  (output_ends_with_newline exact (State.init exact []) ".p 1;\"x\";".toList 1 0
    (by decide)).1

/-- C12 (the claim as stated fails). The statement `.p "a";` ends with `;` and
still emits a newline after `a`. -/
theorem trailing_semicolon_keeps_newline :
    (executeStatement exact (State.init exact []) ".p \"a\";".toList 1 0).map
      (fun o => o.st.stdout) = some ['a', '\n'] := by
  decide

/-- C13 (the code on expressions that start with a variable). With `A = 5` and
`B = 7`: `.p A+1` prints `1`, not `6`; `.p A*2` prints `0` and reports `Invalid
number`, not `10`; `.p A;B` prints `0` and then `7` and reports `Invalid
number`, not `57`.  The letter is consumed before `parseExpression` is
called, so the expression is read without its first operand. -/
theorem print_drops_leading_variable :
    (executeStatement exact
        (((State.init exact []).setNum 0 (Frac.ofInt 5)).setNum 1 (Frac.ofInt 7))
        ".p A+1".toList 1 0).map (fun o => (o.st.stdout, o.st.stderr)) =
      some ("1\n".toList, []) ∧
    (executeStatement exact
        (((State.init exact []).setNum 0 (Frac.ofInt 5)).setNum 1 (Frac.ofInt 7))
        ".p A*2".toList 1 0).map (fun o => (o.st.stdout, o.st.stderr)) =
      some ("0\n".toList, [⟨0, "Invalid number"⟩]) ∧
    (executeStatement exact
        (((State.init exact []).setNum 0 (Frac.ofInt 5)).setNum 1 (Frac.ofInt 7))
        ".p A;B".toList 1 0).map (fun o => (o.st.stdout, o.st.stderr)) =
      some ("07\n".toList, [⟨0, "Invalid number"⟩]) := by
  decide

end Output

/-! ## The line context of error reports -/

section LineContext
variable {α : Type}

/-- Every way `runProgram` comes back has either left the process, or reset
the line context to 0, or just reported `Target line not found` under the
line context of the jumping line. -/
theorem runLoop_line_context (A : LongDouble α) (fuel : Nat) (sigint : List Bool)
    (st st1 : State α) (current : List Line)
    (h : runLoop A fuel sigint st current = some st1) :
    st1.exited = true ∨ st1.currentProgramLine = 0 ∨
      st1.stderr.getLast? = some ⟨st1.currentProgramLine, "Target line not found"⟩ := by
  induction fuel generalizing sigint st current with
  | zero => cases h
  | succ n ih =>
    cases current with
    | nil =>
      rw [runLoop] at h
      cases h
      exact Or.inr (Or.inl rfl)
    | cons cur next =>
      rw [runLoop] at h
      by_cases hsig : sigint.headD false = true
      · rw [if_pos hsig] at h
        cases h
        exact Or.inr (Or.inl rfl)
      · rw [if_neg hsig] at h
        cases ho : executeStatement A
            { st with currentProgramLine := cur.number,
                      executed := st.executed ++ [cur.number] } cur.text 1 0 with
        | none => rw [ho] at h; cases h
        | some o =>
          rw [ho] at h
          simp only at h
          by_cases hex : o.st.exited = true
          · rw [if_pos hex] at h
            cases h
            exact Or.inl hex
          · rw [if_neg hex] at h
            by_cases hj : o.jumpLine ≠ 0
            · rw [if_pos hj] at h
              cases hf : findLine o.jumpLine o.st.program with
              | nil =>
                rw [hf] at h
                cases h
                exact Or.inr (Or.inr (by simp [State.error]))
              | cons target after =>
                rw [hf] at h
                exact ih _ _ _ h
            · rw [if_neg hj] at h
              by_cases hn : o.nextLine ≠ 0
              · rw [if_pos hn] at h
                exact ih _ _ _ h
              · rw [if_neg hn] at h
                cases h
                exact Or.inr (Or.inl rfl)

/-- C20 (the code on an unresolved jump target). The program `10 .gt 99` halts
on `Target line not found`, and `runProgram` comes back with the line context
still 10, not 0: the `.rtn` typed afterwards has its error reported as of
line 10. -/
theorem unresolved_target_keeps_line_context :
    (runProgram exact 5 [] (State.init exact [⟨10, ".gt 99".toList⟩])).map
        (fun st => (st.currentProgramLine, st.stderr)) =
      some (10, [⟨10, "Target line not found"⟩]) ∧
    ((runProgram exact 5 [] (State.init exact [⟨10, ".gt 99".toList⟩])).bind
        (fun st => executeStatement exact st ".rtn".toList 1 0)).map
        (fun o => o.st.stderr) =
      some [⟨10, "Target line not found"⟩, ⟨10, "[!!!] GOSUB stack underflow"⟩] ∧
    (runProgram exact 5 [] (State.init exact [⟨10, ".p 1".toList⟩])).map
        (fun st => st.currentProgramLine) = some 0 := by
  decide

end LineContext

/-! ## The Program Store under statements, runs and the interactive loop -/

section StoreFrame
variable {α : Type}

theorem execLet_program (A : LongDouble α) (st st1 : State α) (s : List Char)
    (h : execLet A st s = some st1) : st1.program = st.program := by
  unfold execLet at h
  split_ifs at h
  all_goals first
    | (cases h; rfl)
    | (split at h
       · cases h
       · cases h; rfl)

theorem printLoop_program (A : LongDouble α) (fuel : Nat) (st st1 : State α) (s : List Char)
    (h : printLoop A fuel st s = some st1) : st1.program = st.program := by
  induction fuel generalizing st s with
  | zero => cases h
  | succ n ih =>
    simp only [printLoop] at h
    split_ifs at h with h1
    · cases h; rfl
    · split at h
      · cases h
      · split_ifs at h with h2
        · exact (ih _ _ h).trans rfl
        · cases h; rfl

theorem execIn_program (A : LongDouble α) (st : State α) (s : List Char) :
    (execIn A st s).program = st.program := by
  unfold execIn State.readline
  split_ifs
  · rfl
  · cases st.stdin <;> rfl
  · cases st.stdin <;> rfl

theorem execIf_program (A : LongDouble α) (st : State α) (s : List Char) (nl jl : Int)
    (o : Outcome α) (h : execIf A st s nl jl = some o) :
    o.st.program = st.program := by
  unfold execIf at h
  split at h
  · cases h
  · split at h
    · cases h; rfl
    · split at h
      · cases h
      · split at h
        · cases h; rfl
        · split_ifs at h <;> (cases h; rfl)

theorem execBeep_program (st : State α) (s : List Char) :
    (execBeep st s).program = st.program := by
  unfold execBeep
  split_ifs <;> rfl

theorem execGosub_program (st : State α) (s : List Char) (nl jl : Int) :
    (execGosub st s nl jl).st.program = st.program := by
  unfold execGosub
  split_ifs <;> rfl

theorem execReturn_program (st : State α) (nl jl : Int) :
    (execReturn st nl jl).st.program = st.program := by
  unfold execReturn
  split <;> rfl

/-- No statement changes the Program Store. -/
theorem executeStatement_program (A : LongDouble α) (st : State α) (s : List Char)
    (nl jl : Int) (o : Outcome α) (ho : executeStatement A st s nl jl = some o) :
    o.st.program = st.program := by
  unfold executeStatement at ho
  by_cases c0 : strncmpEq "//".toList (skipWhitespace s) = true
  · rw [if_pos c0] at ho; cases ho; rfl
  rw [if_neg c0] at ho
  by_cases c1 : strncasecmpEq ".let".toList (skipWhitespace s) = true
  · rw [if_pos c1] at ho
    obtain ⟨st1, h1, rfl⟩ := Option.map_eq_some'.mp ho
    exact execLet_program A st st1 _ h1
  rw [if_neg c1] at ho
  by_cases c2 : strncasecmpEq ".p".toList (skipWhitespace s) = true
  · rw [if_pos c2] at ho
    obtain ⟨st1, h1, rfl⟩ := Option.map_eq_some'.mp ho
    exact printLoop_program A _ st st1 _ h1
  rw [if_neg c2] at ho
  by_cases c3 : strncasecmpEq ".in".toList (skipWhitespace s) = true
  · rw [if_pos c3] at ho
    cases ho
    exact execIn_program A st _
  rw [if_neg c3] at ho
  by_cases c4 : strncasecmpEq ".if".toList (skipWhitespace s) = true
  · rw [if_pos c4] at ho
    exact execIf_program A st _ nl jl o ho
  rw [if_neg c4] at ho
  by_cases c5 : strncasecmpEq ".gt".toList (skipWhitespace s) = true
  · rw [if_pos c5] at ho
    by_cases c : atoi (skipWhitespace ((skipWhitespace s).drop 3)) = 0
    · rw [if_pos c] at ho; cases ho; rfl
    · rw [if_neg c] at ho; cases ho; rfl
  rw [if_neg c5] at ho
  by_cases c6 : strncasecmpEq ".gs".toList (skipWhitespace s) = true
  · rw [if_pos c6] at ho; cases ho; exact execGosub_program st _ nl jl
  rw [if_neg c6] at ho
  by_cases c7 : strncasecmpEq ".rtn".toList (skipWhitespace s) = true
  · rw [if_pos c7] at ho; cases ho; exact execReturn_program st nl jl
  rw [if_neg c7] at ho
  by_cases c8 : strncasecmpEq ".wt".toList (skipWhitespace s) = true
  · rw [if_pos c8] at ho; cases ho; rfl
  rw [if_neg c8] at ho
  by_cases c9 : strncasecmpEq ".bep".toList (skipWhitespace s) = true
  · rw [if_pos c9] at ho
    cases ho
    exact execBeep_program st _
  rw [if_neg c9] at ho
  by_cases c10 : strncasecmpEq ".?".toList (skipWhitespace s) = true
  · rw [if_pos c10] at ho; cases ho; rfl
  rw [if_neg c10] at ho
  by_cases c11 : strncasecmpEq ".q".toList (skipWhitespace s) = true
  · rw [if_pos c11] at ho; cases ho; rfl
  rw [if_neg c11] at ho
  by_cases c12 : strncasecmpEq ".e".toList (skipWhitespace s) = true
  · rw [if_pos c12] at ho; cases ho; rfl
  rw [if_neg c12] at ho
  cases ho; rfl

/-- No run changes the Program Store. -/
theorem runLoop_program (A : LongDouble α) (fuel : Nat) (sigint : List Bool)
    (st st1 : State α) (current : List Line)
    (hr : runLoop A fuel sigint st current = some st1) :
    st1.program = st.program := by
  induction fuel generalizing sigint st current with
  | zero => cases hr
  | succ n ih =>
    cases current with
    | nil =>
      simp only [runLoop] at hr
      cases hr; rfl
    | cons cur next =>
      simp only [runLoop] at hr
      split_ifs at hr with h1
      · cases hr; rfl
      · split at hr
        · cases hr
        · rename_i o ho
          have hp : o.st.program = st.program := (executeStatement_program A _ _ _ _ o ho).trans rfl
          split_ifs at hr with h2 h3 h4
          · cases hr; exact hp
          · split at hr
            · cases hr; exact hp
            · exact (ih _ _ _ hr).trans hp
          · exact (ih _ _ _ hr).trans hp
          · cases hr; exact hp

theorem runProgram_program (A : LongDouble α) (fuel : Nat) (sigint : List Bool)
    (st st1 : State α) (hr : runProgram A fuel sigint st = some st1) :
    st1.program = st.program := by
  unfold runProgram at hr
  exact (runLoop_program A fuel sigint _ st1 _ hr).trans rfl

theorem mem_deleteProgramLine (n : Int) (S : List Line) (x : Line)
    (hx : x ∈ deleteProgramLine n S) : x ∈ S := by
  induction S with
  | nil => exact hx
  | cons curr rest ih =>
    simp only [deleteProgramLine] at hx
    split_ifs at hx with h
    · rcases List.mem_cons.mp hx with h1 | h1
      · rw [h1]; exact List.mem_cons_self _ _
      · exact List.mem_cons_of_mem _ (ih h1)
    · exact List.mem_cons_of_mem _ hx

theorem noLineZero_add (n : Int) (t : List Char) (S : List Line) (hn : n ≠ 0)
    (h : NoLineZero S) : NoLineZero (addProgramLine n t S) := by
  intro l hl
  rcases mem_addProgramLine n t S l hl with h1 | h1
  · rw [h1]; exact hn
  · exact h l h1

theorem noLineZero_delete (n : Int) (S : List Line) (h : NoLineZero S) :
    NoLineZero (deleteProgramLine n S) :=
  fun l hl => h l (mem_deleteProgramLine n S l hl)

theorem noLineZero_nil : NoLineZero [] := fun _ hl => nomatch hl

end StoreFrame

section LineZero
variable {α : Type}

theorem fgetsAux_length (room : Nat) (file : List Char) :
    (fgetsAux room file).2.length ≤ file.length := by
  induction room generalizing file with
  | zero => exact Nat.le_refl _
  | succ n ih =>
    cases file with
    | nil => exact Nat.le_refl _
    | cons c cs =>
      simp only [fgetsAux]
      split_ifs
      · exact Nat.le_succ _
      · exact Nat.le_succ_of_le (ih cs)

theorem fgetsAux_length_lt (room : Nat) (c : Char) (cs : List Char) :
    (fgetsAux (room + 1) (c :: cs)).2.length ≤ cs.length := by
  simp only [fgetsAux]
  split_ifs
  · exact Nat.le_refl _
  · exact fgetsAux_length room cs

/-- The loop of `loadProgram` comes to the end of every file. -/
theorem loadLoop_returns (fuel : Nat) (file : List Char) (program : List Line)
    (h : file.length < fuel) : ∃ p, loadLoop fuel file program = some p := by
  induction fuel generalizing file program with
  | zero => exact absurd h (Nat.not_lt_zero _)
  | succ n ih =>
    cases file with
    | nil => exact ⟨program, rfl⟩
    | cons c cs =>
      have hstep : loadLoop (n + 1) (c :: cs) program =
          loadLoop n (fgetsAux 255 (c :: cs)).2
            (loadLine (fgetsAux 255 (c :: cs)).1 program) := rfl
      rw [hstep]
      exact ih _ _ (Nat.lt_of_le_of_lt (fgetsAux_length_lt 254 c cs) (Nat.lt_of_succ_lt_succ h))

theorem loadLine_noLineZero (buffer : List Char) (program : List Line)
    (hb : NotLineZero (buffer.takeWhile (fun c => c != '\n')))
    (h0 : NoLineZero program) : NoLineZero (loadLine buffer program) := by
  unfold loadLine
  split_ifs with h1 h2 h3
  · exact h0
  · exact noLineZero_add _ _ _ (hb h2) h0
  · exact h0
  · exact h0

theorem loadLoop_noLineZero (fuel : Nat) (file : List Char) (program p : List Line)
    (hb : ∀ buffer ∈ fileBuffers fuel file,
      NotLineZero (buffer.takeWhile (fun c => c != '\n')))
    (h0 : NoLineZero program) (h : loadLoop fuel file program = some p) : NoLineZero p := by
  induction fuel generalizing file program with
  | zero => cases h
  | succ n ih =>
    cases file with
    | nil =>
      cases h
      exact h0
    | cons c cs =>
      have hstep : loadLoop (n + 1) (c :: cs) program =
          loadLoop n (fgetsAux 255 (c :: cs)).2
            (loadLine (fgetsAux 255 (c :: cs)).1 program) := rfl
      have hbuf : fileBuffers (n + 1) (c :: cs) =
          (fgetsAux 255 (c :: cs)).1 :: fileBuffers n (fgetsAux 255 (c :: cs)).2 := rfl
      rw [hstep] at h
      rw [hbuf] at hb
      exact ih _ _ (fun b hb1 => hb b (List.mem_cons_of_mem _ hb1))
        (loadLine_noLineZero _ _ (hb _ (List.mem_cons_self _ _)) h0) h

theorem loadProgram_noLineZero (st st1 : State α) (fs : Files) (filename : List Char)
    (hfile : ∀ name content, fs.read name = some content →
      ∀ buffer ∈ fileBuffers (content.length + 1) content,
        NotLineZero (buffer.takeWhile (fun c => c != '\n')))
    (h0 : NoLineZero st.program) (h : loadProgram st fs filename = some st1) :
    NoLineZero st1.program := by
  unfold loadProgram at h
  cases hr : fs.read (trimTrailingSpaces (fullFilename filename)) with
  | none =>
    rw [hr] at h
    cases h
    exact h0
  | some content =>
    rw [hr] at h
    obtain ⟨p, hp, rfl⟩ := Option.map_eq_some'.mp h
    exact loadLoop_noLineZero _ _ _ p (hfile _ _ hr) noLineZero_nil hp

theorem loadProgram_returns (st : State α) (fs : Files) (filename : List Char) :
    ∃ st1, loadProgram st fs filename = some st1 := by
  unfold loadProgram
  cases fs.read (trimTrailingSpaces (fullFilename filename)) with
  | none => exact ⟨st, rfl⟩
  | some content =>
    obtain ⟨p, hp⟩ := loadLoop_returns (content.length + 1) content [] (Nat.lt_succ_self _)
    exact ⟨_, by simp only [hp]; rfl⟩

end LineZero

section LineZeroClaim
variable {α : Type}

/-- C16 (as amended). A numbered line is stored under the value `atoi`
returns for it.  One turn of the interactive loop keeps a store free of line
0 free of it, provided `atoi` of the input line is not 0 if the line starts
(after white space) with a digit, and the same holds of every buffer `fgets`
returns from any file that can be opened; the turn comes back unless it is a
`.r` whose run does not; and no statement and no run changes the store. -/
theorem store_stays_free_of_line_zero (A : LongDouble α) (fuel : Nat) (sigint : List Bool)
    (st : State α) (fs : Files) (input : List Char)
    (h0 : NoLineZero st.program)
    (hin : NotLineZero (input.take (MAX_LINE - 1)))
    (hfile : ∀ name content, fs.read name = some content →
      ∀ buffer ∈ fileBuffers (content.length + 1) content,
        NotLineZero (buffer.takeWhile (fun c => c != '\n'))) :
    (∀ r, mainBody A fuel sigint st fs input = some r → NoLineZero r.1.program) ∧
    (mainBody A fuel sigint st fs input = none →
      strncasecmpEq ".r".toList (skipWhitespace (input.take (MAX_LINE - 1))) = true ∧
      runProgram A fuel sigint st = none) ∧
    (∀ (s : List Char) (nl jl : Int) (o : Outcome α),
      executeStatement A st s nl jl = some o → o.st.program = st.program) ∧
    (∀ st1, runProgram A fuel sigint st = some st1 → st1.program = st.program) := by
  have main : (∀ r, mainBody A fuel sigint st fs input = some r → NoLineZero r.1.program) ∧
      (mainBody A fuel sigint st fs input = none →
        strncasecmpEq ".r".toList (skipWhitespace (input.take (MAX_LINE - 1))) = true ∧
        runProgram A fuel sigint st = none) := by
    unfold mainBody
    by_cases c0 : skipWhitespace (input.take (MAX_LINE - 1)) = []
    · rw [if_pos c0]
      exact ⟨fun r hr => by cases hr; exact h0, fun h => by cases h⟩
    rw [if_neg c0]
    by_cases c1 : isdigit ((skipWhitespace (input.take (MAX_LINE - 1))).headD ' ') = true
    · rw [if_pos c1]
      split_ifs
      · exact ⟨fun r hr => by cases hr; exact noLineZero_delete _ _ h0, fun h => by cases h⟩
      · exact ⟨fun r hr => by cases hr; exact noLineZero_add _ _ _ (hin c1) h0,
          fun h => by cases h⟩
    rw [if_neg c1]
    by_cases c2 : strncasecmpEq ".r".toList (skipWhitespace (input.take (MAX_LINE - 1))) = true
    · rw [if_pos c2]
      refine ⟨fun r hr => ?_, fun h => ⟨c2, ?_⟩⟩
      · obtain ⟨st1, h1, rfl⟩ := Option.map_eq_some'.mp hr
        show NoLineZero st1.program
        rw [runProgram_program A fuel sigint st st1 h1]
        exact h0
      · exact Option.map_eq_none'.mp h
    rw [if_neg c2]
    by_cases c3 : strncasecmpEq ".ls".toList (skipWhitespace (input.take (MAX_LINE - 1))) = true
    · rw [if_pos c3]
      exact ⟨fun r hr => by cases hr; exact h0, fun h => by cases h⟩
    rw [if_neg c3]
    by_cases c4 : strncasecmpEq ".new".toList (skipWhitespace (input.take (MAX_LINE - 1))) = true
    · rw [if_pos c4]
      exact ⟨fun r hr => by cases hr; exact noLineZero_nil, fun h => by cases h⟩
    rw [if_neg c4]
    by_cases c5 : strncasecmpEq ".c".toList (skipWhitespace (input.take (MAX_LINE - 1))) = true
    · rw [if_pos c5]
      exact ⟨fun r hr => by cases hr; exact h0, fun h => by cases h⟩
    rw [if_neg c5]
    by_cases c6 : strncasecmpEq ".sav".toList (skipWhitespace (input.take (MAX_LINE - 1))) = true
    · rw [if_pos c6]
      split_ifs
      · exact ⟨fun r hr => by cases hr; exact h0, fun h => by cases h⟩
      · exact ⟨fun r hr => by cases hr; exact h0, fun h => by cases h⟩
    rw [if_neg c6]
    by_cases c7 : strncasecmpEq ".loa".toList (skipWhitespace (input.take (MAX_LINE - 1))) = true
    · rw [if_pos c7]
      split_ifs
      · exact ⟨fun r hr => by cases hr; exact h0, fun h => by cases h⟩
      · refine ⟨fun r hr => ?_, fun h => ?_⟩
        · obtain ⟨st1, h1, rfl⟩ := Option.map_eq_some'.mp hr
          exact loadProgram_noLineZero st st1 fs _ hfile h0 h1
        · obtain ⟨st1, h1⟩ := loadProgram_returns st fs
            (skipWhitespace ((skipWhitespace (input.take (MAX_LINE - 1))).drop 4))
          rw [h1] at h
          cases h
    rw [if_neg c7]
    by_cases c8 : strncasecmpEq ".q".toList (skipWhitespace (input.take (MAX_LINE - 1))) = true
    · rw [if_pos c8]
      exact ⟨fun r hr => by cases hr; exact noLineZero_nil, fun h => by cases h⟩
    rw [if_neg c8]
    refine ⟨fun r hr => ?_, fun h => ?_⟩
    · obtain ⟨o, h1, rfl⟩ := Option.map_eq_some'.mp hr
      show NoLineZero o.st.program
      rw [executeStatement_program A st _ 1 0 o h1]
      exact h0
    · obtain ⟨o, h1⟩ := executeStatement_returns A st
        (skipWhitespace (input.take (MAX_LINE - 1))) 1 0
      rw [h1] at h
      cases h
  exact ⟨main.1, main.2, fun s nl jl o ho => executeStatement_program A st s nl jl o ho,
    fun st1 h1 => runProgram_program A fuel sigint st st1 h1⟩

theorem store_stays_free_of_line_zero_witness :
    NoLineZero [⟨10, ".p 1".toList⟩, ⟨20, ".p 2".toList⟩] :=
  (store_stays_free_of_line_zero exact 0 [] (State.init exact [⟨10, ".p 1".toList⟩])
    (noFiles.write "x.pbcb".toList "20 .p 2\n10 .p 1\n".toList) ".loa x".toList
    (by intro l hl; simp only [State.init, List.mem_singleton] at hl; rw [hl]; decide)
    (by decide)
    (by
      intro name content h
      simp only [Files.write, noFiles] at h
      split_ifs at h
      cases h
      decide)).1
    ((clearStringVars (State.init exact [⟨10, ".p 1".toList⟩])).setProgram
        [⟨10, ".p 1".toList⟩, ⟨20, ".p 2".toList⟩],
      noFiles.write "x.pbcb".toList "20 .p 2\n10 .p 1\n".toList) rfl

/-- C16 (the claim as stated fails). From the empty store, the input line
`0 .p 1` stores a line numbered 0, and so does loading a file with that
line; the input line `4294967296 .p 1`, whose number `atoi` wraps to 0, does
too. -/
theorem line_zero_is_stored :
    (mainBody exact 0 [] (State.init exact []) noFiles "0 .p 1".toList).map
        (fun r => r.1.program) = some [⟨0, ".p 1".toList⟩] ∧
    (mainBody exact 0 [] (State.init exact [])
        (noFiles.write "x.pbcb".toList "0 .p 1\n".toList) ".loa x".toList).map
        (fun r => r.1.program) = some [⟨0, ".p 1".toList⟩] ∧
    (mainBody exact 0 [] (State.init exact []) noFiles "4294967296 .p 1".toList).map
        (fun r => r.1.program) = some [⟨0, ".p 1".toList⟩] := by
  decide

end LineZeroClaim

/-! ## Saving and loading -/

section RoundTrip
variable {α : Type}

theorem digitChar_facts (m : Nat) (h : m < 10) :
    isdigit (Nat.digitChar m) = true ∧ digitVal (Nat.digitChar m) = m := by
  interval_cases m <;> decide

theorem digitsValue_append (body rest : List Char) (acc : Nat)
    (hb : body.all isdigit = true) :
    digitsValue acc (body ++ rest) =
      digitsValue (body.foldl (fun a c => a * 10 + digitVal c) acc) rest := by
  induction body generalizing acc with
  | nil => rfl
  | cons c cs ih =>
    simp only [List.all_cons, Bool.and_eq_true] at hb
    simp only [List.cons_append, digitsValue, hb.1, if_true, List.foldl_cons]
    exact ih _ hb.2

theorem digitsValue_stop (acc : Nat) (rest : List Char)
    (h : ∀ c, rest.head? = some c → isdigit c = false) : digitsValue acc rest = acc := by
  cases rest with
  | nil => rfl
  | cons c cs =>
    simp only [digitsValue, h c rfl, Bool.false_eq_true, if_false]

/-- The digits `printf("%d")` writes for a natural number: at least one, all
decimal digits, and their value is the number. -/
theorem toDigitsCore_spec (fuel n : Nat) (ds : List Char) (h : n < fuel) :
    ∃ body, Nat.toDigitsCore 10 fuel n ds = body ++ ds ∧ body ≠ [] ∧
      body.all isdigit = true ∧
      body.foldl (fun a c => a * 10 + digitVal c) 0 = n := by
  induction fuel generalizing n ds with
  | zero => exact absurd h (Nat.not_lt_zero _)
  | succ k ih =>
    have hd := digitChar_facts (n % 10) (Nat.mod_lt _ (by decide))
    rw [Nat.toDigitsCore]
    by_cases h0 : n / 10 = 0
    · simp only [h0, if_true]
      refine ⟨[Nat.digitChar (n % 10)], rfl, by simp, by simp [hd.1], ?_⟩
      simp only [List.foldl_cons, List.foldl_nil, hd.2]
      omega
    · simp only [h0, if_false]
      obtain ⟨body, hb, hne, hall, hval⟩ := ih (n / 10) (Nat.digitChar (n % 10) :: ds)
        (by omega)
      refine ⟨body ++ [Nat.digitChar (n % 10)], by rw [hb]; simp, by simp, ?_, ?_⟩
      · simp [hall, hd.1]
      · rw [List.foldl_append, hval]
        simp only [List.foldl_cons, List.foldl_nil, hd.2]
        omega

theorem fmtInt_spec (z : Int) (h0 : 0 ≤ z) :
    ∃ d body, fmtInt z = d :: body ∧ isdigit d = true ∧ body.all isdigit = true ∧
      ((d :: body).foldl (fun a c => a * 10 + digitVal c) 0 : Nat) = z.toNat := by
  obtain ⟨b, hb, hne, hall, hval⟩ := toDigitsCore_spec (z.natAbs + 1) z.natAbs []
    (Nat.lt_succ_self _)
  have hf : fmtInt z = b := by
    unfold fmtInt Nat.toDigits
    rw [if_neg (not_lt.mpr h0), hb, List.append_nil]
  cases b with
  | nil => exact absurd rfl hne
  | cons d body =>
    simp only [List.all_cons, Bool.and_eq_true] at hall
    refine ⟨d, body, hf, hall.1, hall.2, ?_⟩
    rw [hval]
    omega

theorem atoi_digits (d : Char) (body rest : List Char) (hd : isdigit d = true)
    (hb : body.all isdigit = true) (hr : ∀ c, rest.head? = some c → isdigit c = false)
    (hlt : (d :: body).foldl (fun a c => a * 10 + digitVal c) 0 < 2147483648) :
    atoi (d :: body ++ rest) =
      (((d :: body).foldl (fun a c => a * 10 + digitVal c) 0 : Nat) : Int) := by
  have hv : digitsValue 0 (d :: body ++ rest) =
      (d :: body).foldl (fun a c => a * 10 + digitVal c) 0 := by
    rw [digitsValue_append (d :: body) rest 0 (by simp [hd, hb]), digitsValue_stop _ _ hr]
  have hf := digit_facts d hd
  have hs : skipWhitespace (d :: body ++ rest) = d :: (body ++ rest) :=
    skipWhitespace_of_head d _ hf.1
  have ha : atoi (d :: body ++ rest) =
      wrapInt32 (clampLong (digitsValue 0 (d :: body ++ rest) : Int)) := by
    unfold atoi
    rw [hs]
    rcases isdigit_cases d hd with h | h | h | h | h | h | h | h | h | h <;> subst h <;> rfl
  rw [ha, hv]
  unfold wrapInt32 clampLong
  split_ifs <;> omega

theorem fgetsAux_short (room : Nat) (line rest : List Char) (hn : '\n' ∉ line)
    (h : line.length < room) :
    fgetsAux room (line ++ '\n' :: rest) = (line ++ ['\n'], rest) := by
  induction line generalizing room with
  | nil =>
    cases room with
    | zero => exact absurd h (Nat.not_lt_zero _)
    | succ k => simp [fgetsAux]
  | cons c cs ih =>
    cases room with
    | zero => exact absurd h (Nat.not_lt_zero _)
    | succ k =>
      have hc : c ≠ '\n' := fun e => hn (by rw [e]; exact List.mem_cons_self _ _)
      have := ih k (fun e => hn (List.mem_cons_of_mem _ e)) (Nat.lt_of_succ_lt_succ h)
      rw [List.cons_append, fgetsAux, if_neg hc, this]
      rfl

theorem fgetsAux_full (line rest : List Char) (hn : '\n' ∉ line) :
    fgetsAux line.length (line ++ '\n' :: rest) = (line, '\n' :: rest) := by
  induction line with
  | nil => rfl
  | cons c cs ih =>
    have hc : c ≠ '\n' := fun e => hn (by rw [e]; exact List.mem_cons_self _ _)
    have := ih (fun e => hn (List.mem_cons_of_mem _ e))
    rw [List.cons_append, List.length_cons, fgetsAux, if_neg hc, this]

theorem addProgramLine_last (n : Int) (t : List Char) (acc : List Line)
    (h : ∀ l ∈ acc, l.number < n) : addProgramLine n t acc = acc ++ [⟨n, t⟩] := by
  induction acc with
  | nil => rfl
  | cons c cs ih =>
    simp only [addProgramLine, if_pos (h c (List.mem_cons_self _ _)), List.cons_append]
    rw [ih (fun l hl => h l (List.mem_cons_of_mem _ hl))]

theorem loadLoop_step (k : Nat) (file : List Char) (program : List Line) (h : file ≠ []) :
    loadLoop (k + 1) file program =
      loadLoop k (fgetsAux 255 file).2 (loadLine (fgetsAux 255 file).1 program) := by
  cases file with
  | nil => exact absurd rfl h
  | cons c cs => rfl

theorem digits_no_newline (ds : List Char) (h : ds.all isdigit = true) : '\n' ∉ ds := by
  intro hm
  have := List.all_eq_true.mp h _ hm
  exact absurd this (by decide)

/-- What the loop of `loadProgram` does with a buffer holding a saved line,
with or without its newline. -/
theorem loadLine_saved (d : Char) (body text tl : List Char) (program : List Line)
    (hd : isdigit d = true) (hb : body.all isdigit = true)
    (hne : text ≠ []) (hsp : isspace (text.headD 'x') = false) (hnl : '\n' ∉ text)
    (htl : tl = [] ∨ tl = ['\n']) :
    loadLine ((d :: body ++ ' ' :: text) ++ tl) program =
      addProgramLine (atoi (d :: body ++ ' ' :: text)) text program := by
  have hline : '\n' ∉ d :: body ++ ' ' :: text := by
    intro hm
    rcases List.mem_append.mp hm with h1 | h1
    · exact digits_no_newline (d :: body) (by simp [hd, hb]) h1
    · rcases List.mem_cons.mp h1 with h2 | h2
      · exact absurd h2 (by decide)
      · exact hnl h2
  have hcut : ((d :: body ++ ' ' :: text) ++ tl).takeWhile (fun c => c != '\n') =
      d :: body ++ ' ' :: text := by
    refine (takeWhile_append_stop _ _ tl ?_ ?_).1
    · rw [List.all_eq_true]
      intro x hx
      have : x ≠ '\n' := fun e => hline (e ▸ hx)
      simpa using this
    · intro c hc
      rcases htl with h | h
      · rw [h] at hc; cases hc
      · rw [h] at hc
        cases hc
        decide
  have hskip : skipWhitespace (d :: body ++ ' ' :: text) = d :: body ++ ' ' :: text :=
    skipWhitespace_of_head d _ (digit_facts d hd).1
  have hdrop : (d :: body ++ ' ' :: text).dropWhile isdigit = ' ' :: text :=
    (takeWhile_append_stop isdigit (d :: body) (' ' :: text) (by simp [hd, hb])
      (fun c hc => by cases hc; decide)).2
  have htxt : skipWhitespace (' ' :: text) = text := by
    cases text with
    | nil => exact absurd rfl hne
    | cons t ts =>
      have h1 : skipWhitespace (' ' :: t :: ts) = skipWhitespace (t :: ts) := rfl
      rw [h1]
      exact skipWhitespace_of_head t ts hsp
  unfold loadLine
  rw [hcut, hskip, hdrop, htxt]
  rw [if_neg (by simp), if_pos (by simpa using hd), if_pos hne]

theorem loadLine_newline (program : List Line) : loadLine ['\n'] program = program := rfl

theorem programText_cons (l : Line) (rest : List Line) :
    programText (l :: rest) =
      (fmtInt l.number ++ ' ' :: l.text) ++ '\n' :: programText rest := by
  simp [programText]

/-- Reading back the text written for a program appends its lines, in order,
to a store whose numbers are all smaller. -/
theorem loadLoop_programText (p : List Line) (acc : List Line) (fuel : Nat)
    (hasc : Ascending p)
    (hacc : ∀ a ∈ acc, ∀ l ∈ p, a.number < l.number)
    (hnum : ∀ l ∈ p, 0 ≤ l.number ∧ l.number < 2147483648)
    (htext : ∀ l ∈ p, l.text ≠ [] ∧ isspace (l.text.headD 'x') = false ∧ '\n' ∉ l.text)
    (hlen : ∀ l ∈ p, (fmtInt l.number ++ ' ' :: l.text).length ≤ 255)
    (hfuel : (programText p).length < fuel) :
    loadLoop fuel (programText p) acc = some (acc ++ p) := by
  induction p generalizing acc fuel with
  | nil =>
    cases fuel with
    | zero => exact absurd hfuel (Nat.not_lt_zero _)
    | succ k => simp [programText, loadLoop, fgets]
  | cons l rest ih =>
    have hl := List.mem_cons_self l rest
    obtain ⟨d, body, hfmt, hd, hb, hval⟩ := fmtInt_spec l.number (hnum l hl).1
    obtain ⟨hne, hsp, hnl⟩ := htext l hl
    have hlen1 := hlen l hl
    have hasc1 := List.pairwise_cons.mp hasc
    rw [programText_cons] at hfuel ⊢
    rw [hfmt] at hfuel hlen1 ⊢
    have hline : '\n' ∉ d :: body ++ ' ' :: l.text := by
      intro hm
      rcases List.mem_append.mp hm with h1 | h1
      · exact digits_no_newline (d :: body) (by simp [hd, hb]) h1
      · rcases List.mem_cons.mp h1 with h2 | h2
        · exact absurd h2 (by decide)
        · exact hnl h2
    have hat : atoi (d :: body ++ ' ' :: l.text) = l.number := by
      rw [atoi_digits d body (' ' :: l.text) hd hb (fun c hc => by cases hc; decide)
        (by rw [hval]; have := (hnum l hl).2; omega), hval]
      exact Int.toNat_of_nonneg (hnum l hl).1
    have hadd : addProgramLine l.number l.text acc = acc ++ [l] :=
      addProgramLine_last l.number l.text acc (fun a ha => hacc a ha l hl)
    have hacc1 : ∀ a ∈ acc ++ [l], ∀ x ∈ rest, a.number < x.number := by
      intro a ha x hx
      rcases List.mem_append.mp ha with h1 | h1
      · exact hacc a h1 x (List.mem_cons_of_mem _ hx)
      · rw [List.mem_singleton.mp h1]
        exact hasc1.1 x hx
    have hnum1 : ∀ x ∈ rest, 0 ≤ x.number ∧ x.number < 2147483648 :=
      fun x hx => hnum x (List.mem_cons_of_mem _ hx)
    have htext1 : ∀ x ∈ rest,
        x.text ≠ [] ∧ isspace (x.text.headD 'x') = false ∧ '\n' ∉ x.text :=
      fun x hx => htext x (List.mem_cons_of_mem _ hx)
    have hlen2 : ∀ x ∈ rest, (fmtInt x.number ++ ' ' :: x.text).length ≤ 255 :=
      fun x hx => hlen x (List.mem_cons_of_mem _ hx)
    have hres : (acc ++ [l]) ++ rest = acc ++ l :: rest := by simp
    rw [List.length_append, List.length_cons] at hfuel
    cases fuel with
    | zero => exact absurd hfuel (Nat.not_lt_zero _)
    | succ k =>
      rw [loadLoop_step k _ acc (by simp)]
      rcases Nat.lt_or_eq_of_le hlen1 with hshort | hfull
      · rw [fgetsAux_short 255 _ (programText rest) hline hshort]
        show loadLoop k (programText rest)
          (loadLine ((d :: body ++ ' ' :: l.text) ++ ['\n']) acc) = _
        rw [loadLine_saved d body l.text ['\n'] acc hd hb hne hsp hnl (Or.inr rfl), hat, hadd,
          ih (acc ++ [l]) k hasc1.2 hacc1 hnum1 htext1 hlen2 (by omega), hres]
      · have hf := fgetsAux_full (d :: body ++ ' ' :: l.text) (programText rest) hline
        rw [hfull] at hf
        rw [hf]
        show loadLoop k ('\n' :: programText rest)
          (loadLine (d :: body ++ ' ' :: l.text) acc) = _
        have hl0 := loadLine_saved d body l.text [] acc hd hb hne hsp hnl (Or.inl rfl)
        rw [List.append_nil] at hl0
        rw [hl0, hat, hadd]
        cases k with
        | zero => omega
        | succ k2 =>
          rw [loadLoop_step k2 _ _ (by simp)]
          show loadLoop k2 (programText rest) (loadLine ['\n'] (acc ++ [l])) = _
          rw [loadLine_newline,
            ih (acc ++ [l]) k2 hasc1.2 hacc1 hnum1 htext1 hlen2 (by omega), hres]

theorem loadLoop_fuel (f1 f2 : Nat) (file : List Char) (program : List Line)
    (h1 : file.length < f1) (h2 : file.length < f2) :
    loadLoop f1 file program = loadLoop f2 file program := by
  induction f1 generalizing f2 file program with
  | zero => exact absurd h1 (Nat.not_lt_zero _)
  | succ k1 ih =>
    cases f2 with
    | zero => exact absurd h2 (Nat.not_lt_zero _)
    | succ k2 =>
      cases file with
      | nil => rfl
      | cons c cs =>
        rw [loadLoop_step k1 _ _ (List.cons_ne_nil _ _),
          loadLoop_step k2 _ _ (List.cons_ne_nil _ _)]
        have hlen := fgetsAux_length_lt 254 c cs
        exact ih k2 _ _ (Nat.lt_of_le_of_lt hlen (Nat.lt_of_succ_lt_succ h1))
          (Nat.lt_of_le_of_lt hlen (Nat.lt_of_succ_lt_succ h2))

theorem takeWhile_line (line tl : List Char) (hn : '\n' ∉ line)
    (htl : tl = [] ∨ tl = ['\n']) :
    (line ++ tl).takeWhile (fun c => c != '\n') = line := by
  refine (takeWhile_append_stop _ _ tl ?_ ?_).1
  · rw [List.all_eq_true]
    intro x hx
    have : x ≠ '\n' := fun e => hn (e ▸ hx)
    simpa using this
  · intro c hc
    rcases htl with h | h
    · rw [h] at hc; cases hc
    · rw [h] at hc
      cases hc
      decide

theorem loadLine_dropped (buffer : List Char) (program : List Line)
    (h : isdigit ((skipWhitespace (buffer.takeWhile (fun c => c != '\n'))).headD ' ') = false) :
    loadLine buffer program = program := by
  unfold loadLine
  split_ifs with h1 h2 h3
  · rfl
  · rw [h] at h2; cases h2
  · rfl
  · rfl

theorem fgetsAux_eof (room : Nat) (line : List Char) (hn : '\n' ∉ line)
    (h : line.length ≤ room) : fgetsAux room line = (line, []) := by
  induction line generalizing room with
  | nil => cases room <;> rfl
  | cons c cs ih =>
    cases room with
    | zero => exact absurd h (Nat.not_succ_le_zero _)
    | succ k =>
      have hc : c ≠ '\n' := fun e => hn (by rw [e]; exact List.mem_cons_self _ _)
      rw [fgetsAux, if_neg hc,
        ih k (fun e => hn (List.mem_cons_of_mem _ e)) (Nat.le_of_succ_le_succ h)]

/-- A file line of at most 255 characters whose first non-blank character is
not a digit is dropped by the loop of `loadProgram`. -/
theorem loadLoop_drops_line (line rest : List Char) (program : List Line)
    (hn : '\n' ∉ line) (hlen : line.length ≤ 255)
    (hd : isdigit ((skipWhitespace line).headD ' ') = false) :
    loadLoop ((line ++ '\n' :: rest).length + 1) (line ++ '\n' :: rest) program =
      loadLoop (rest.length + 1) rest program := by
  rw [loadLoop_step _ _ program (by simp)]
  have hfuel : (line ++ '\n' :: rest).length = line.length + (rest.length + 1) := by simp
  rcases Nat.lt_or_eq_of_le hlen with hshort | hfull
  · rw [fgetsAux_short 255 line rest hn hshort]
    show loadLoop _ rest (loadLine (line ++ ['\n']) program) = _
    rw [loadLine_dropped _ program (by rw [takeWhile_line line _ hn (Or.inr rfl)]; exact hd)]
    exact loadLoop_fuel _ _ rest program (by omega) (by omega)
  · have hf := fgetsAux_full line rest hn
    rw [hfull] at hf
    rw [hf]
    show loadLoop _ ('\n' :: rest) (loadLine line program) = _
    have hl0 : loadLine line program = program :=
      loadLine_dropped _ program (by
        have := takeWhile_line line [] hn (Or.inl rfl)
        rw [List.append_nil] at this
        rw [this]; exact hd)
    rw [hl0, hfuel, hfull]
    rw [show 255 + (rest.length + 1) = (254 + rest.length + 1) + 1 by omega,
      loadLoop_step _ _ program (List.cons_ne_nil _ _)]
    show loadLoop _ rest (loadLine ['\n'] program) = _
    rw [loadLine_newline]
    exact loadLoop_fuel _ _ rest program (by omega) (by omega)

theorem loadLoop_drops_last_line (line : List Char) (program : List Line)
    (hn : '\n' ∉ line) (hlen : line.length ≤ 255)
    (hd : isdigit ((skipWhitespace line).headD ' ') = false) :
    loadLoop (line.length + 1) line program = some program := by
  cases line with
  | nil => rfl
  | cons c cs =>
    rw [loadLoop_step _ _ program (List.cons_ne_nil _ _), fgetsAux_eof 255 _ hn hlen]
    show loadLoop (cs.length + 1) [] (loadLine (c :: cs) program) = _
    have hl0 : loadLine (c :: cs) program = program :=
      loadLine_dropped _ program (by
        have := takeWhile_line (c :: cs) [] hn (Or.inl rfl)
        rw [List.append_nil] at this
        rw [this]; exact hd)
    rw [hl0]
    rfl

/-- C15 (as amended). The text `saveProgram` writes for a stored program
with ascending numbers from 0 to 2147483647, each text non-empty, without
leading white space and without a newline, each written line at most 255
characters, read back by the loop of `loadProgram` into an empty store, gives
the same lines in the same order, also through a file that `saveProgram`
wrote and `loadProgram` opens under the same name.  A file line of at most
255 characters whose first non-blank character is not a digit leaves the
store as it is, whether it ends with a newline or with the file; and so
does every buffer `fgets` returns that starts so. -/
theorem save_load_round_trip (p : List Line)
    (hasc : Ascending p)
    (hnum : ∀ l ∈ p, 0 ≤ l.number ∧ l.number < 2147483648)
    (htext : ∀ l ∈ p, l.text ≠ [] ∧ isspace (l.text.headD 'x') = false ∧ '\n' ∉ l.text)
    (hlen : ∀ l ∈ p, (fmtInt l.number ++ ' ' :: l.text).length ≤ 255) :
    loadLoop ((programText p).length + 1) (programText p) [] = some p ∧
    (∀ (st st2 : State α) (fs : Files) (filename : List Char), st.program = p →
      fs.writable (fullFilename filename) = true →
      trimTrailingSpaces (fullFilename filename) = fullFilename filename →
      (loadProgram st2 (saveProgram st fs filename) filename).map State.program = some p) ∧
    (∀ (line rest : List Char) (program : List Line),
      '\n' ∉ line → line.length ≤ 255 →
      isdigit ((skipWhitespace line).headD ' ') = false →
      loadLoop ((line ++ '\n' :: rest).length + 1) (line ++ '\n' :: rest) program =
        loadLoop (rest.length + 1) rest program) ∧
    (∀ (line : List Char) (program : List Line),
      '\n' ∉ line → line.length ≤ 255 →
      isdigit ((skipWhitespace line).headD ' ') = false →
      loadLoop (line.length + 1) line program = some program) ∧
    (∀ (buffer : List Char) (program : List Line),
      isdigit ((skipWhitespace (buffer.takeWhile (fun c => c != '\n'))).headD ' ') = false →
      loadLine buffer program = program) := by
  have hload : loadLoop ((programText p).length + 1) (programText p) [] = some p := by
    have := loadLoop_programText p [] ((programText p).length + 1) hasc
      (fun a ha => nomatch ha) hnum htext hlen (Nat.lt_succ_self _)
    rw [this]
    rfl
  refine ⟨hload, ?_, ?_, ?_, ?_⟩
  · intro st st2 fs filename hp hw hname
    unfold loadProgram saveProgram
    rw [if_pos hw, hname]
    have hread : (fs.write (fullFilename filename) (programText st.program)).read
        (fullFilename filename) = some (programText st.program) := by
      simp [Files.write]
    rw [hread, hp]
    simp only [hload, Option.map_some']
    rfl
  · intro line rest program hn hl hd
    exact loadLoop_drops_line line rest program hn hl hd
  · intro line program hn hl hd
    exact loadLoop_drops_last_line line program hn hl hd
  · intro buffer program h
    exact loadLine_dropped buffer program h

theorem save_load_round_trip_witness :
    loadLoop
        ((programText [⟨0, ".p 1".toList⟩, ⟨2147483647, ".gt 10".toList⟩]).length + 1)
        (programText [⟨0, ".p 1".toList⟩, ⟨2147483647, ".gt 10".toList⟩]) [] =
      some [⟨0, ".p 1".toList⟩, ⟨2147483647, ".gt 10".toList⟩] :=
  (@save_load_round_trip Frac [⟨0, ".p 1".toList⟩, ⟨2147483647, ".gt 10".toList⟩]
    (by decide) (by decide) (by decide) (by decide)).1

/-- C15 (the claim as stated fails). The line `2147483648 .p 2` typed at the
prompt is stored under the number -2147483648; the store has ascending
numbers and a text as the claim asks, it is saved as `-2147483648 .p 2`, and
loading that text gives the empty store.  And a file line of 255 letters
followed by `7 y` has no leading integer, yet loading it stores line 7. -/
theorem overflowed_number_is_not_read_back :
    (mainBody exact 0 [] (State.init exact []) noFiles "2147483648 .p 2".toList).map
        (fun r => r.1.program) = some [⟨-2147483648, ".p 2".toList⟩] ∧
    Ascending [⟨-2147483648, ".p 2".toList⟩] ∧
    programText [⟨-2147483648, ".p 2".toList⟩] = "-2147483648 .p 2\n".toList ∧
    loadLoop ((programText [⟨-2147483648, ".p 2".toList⟩]).length + 1)
        (programText [⟨-2147483648, ".p 2".toList⟩]) [] = some [] ∧
    loadLoop 260 (List.replicate 255 'x' ++ "7 y\n".toList) [] = some [⟨7, ['y']⟩] := by
  decide

end RoundTrip

/-! ## The cursor stays inside the text -/

section Cursor
variable {α : Type}

theorem skipWhitespace_suffix (s : List Char) : skipWhitespace s <:+ s := by
  induction s with
  | nil => exact List.suffix_refl _
  | cons c cs ih =>
    simp only [skipWhitespace]
    split_ifs
    · exact ih.trans (List.suffix_cons c cs)
    · exact List.suffix_refl _

theorem suffix_of_cons_suffix (c : Char) (t s : List Char) (h : c :: t <:+ s) : t <:+ s :=
  (List.suffix_cons c t).trans h

theorem skipCall_suffix (s : List Char) : skipCall s <:+ s := by
  unfold skipCall
  split_ifs
  · exact (List.tail_suffix _).trans (List.dropWhile_suffix _)
  · exact List.dropWhile_suffix _

theorem scanMantissa_suffix (isd : Char → Bool) (s ip fp r : List Char)
    (h : scanMantissa isd s = some (ip, fp, r)) : r <:+ s := by
  unfold scanMantissa at h
  split at h
  · rename_i t ht
    split_ifs at h
    cases h
    have h1 : s.dropWhile isd <:+ s := List.dropWhile_suffix _
    rw [ht] at h1
    exact (List.dropWhile_suffix _).trans (suffix_of_cons_suffix _ _ _ h1)
  · split_ifs at h
    cases h
    exact List.dropWhile_suffix _

theorem scanSign_suffix (t : List Char) : (scanSign t).2 <:+ t := by
  unfold scanSign
  split
  · exact List.suffix_cons _ _
  · exact List.suffix_cons _ _
  · exact List.suffix_refl _

theorem scanExponent_suffix (m : Char) (s : List Char) : (scanExponent m s).2 <:+ s := by
  unfold scanExponent
  split
  · exact List.suffix_refl _
  · rename_i e t
    split_ifs
    · exact List.suffix_refl _
    · exact ((List.dropWhile_suffix _).trans (scanSign_suffix t)).trans (List.suffix_cons e t)
    · exact List.suffix_refl _

theorem scanDecimal_suffix (neg : Bool) (s : List Char) (lit : NumLit) (e : List Char)
    (h : scanDecimal neg s = some (lit, e)) : e <:+ s := by
  unfold scanDecimal at h
  split at h
  · cases h
  · rename_i ip fp r hm
    cases h
    exact (scanExponent_suffix _ _).trans (scanMantissa_suffix _ _ _ _ _ hm)

theorem scanHex_suffix (neg : Bool) (s : List Char) (lit : NumLit) (e : List Char)
    (h : scanHex neg s = some (lit, e)) : e <:+ s := by
  unfold scanHex at h
  split at h
  · cases h
  · rename_i ip fp r hm
    cases h
    exact (scanExponent_suffix _ _).trans (scanMantissa_suffix _ _ _ _ _ hm)

theorem scanNanPayload_suffix (t : List Char) : scanNanPayload t <:+ t := by
  unfold scanNanPayload
  split
  · rename_i u
    split
    · rename_i v hv
      have h1 : u.dropWhile isNChar <:+ u := List.dropWhile_suffix _
      rw [hv] at h1
      exact (suffix_of_cons_suffix _ _ _ h1).trans (List.suffix_cons _ _)
    · exact List.suffix_refl _
  · exact List.suffix_refl _

theorem scanUnsigned_suffix (neg : Bool) (s : List Char) (lit : NumLit) (e : List Char)
    (h : scanUnsigned neg s = some (lit, e)) : e <:+ s := by
  unfold scanUnsigned at h
  split_ifs at h
  · cases h; exact List.drop_suffix _ _
  · cases h; exact List.drop_suffix _ _
  · cases h
    exact (scanNanPayload_suffix _).trans (List.drop_suffix _ _)
  · split at h
    · rename_i r hr
      cases h
      exact (scanHex_suffix _ _ _ _ hr).trans (List.drop_suffix _ _)
    · exact scanDecimal_suffix _ _ _ _ h
  · exact scanDecimal_suffix _ _ _ _ h

theorem strtold_suffix (s : List Char) (lit : NumLit) (e : List Char)
    (h : strtold s = some (lit, e)) : e <:+ s := by
  unfold strtold at h
  have hs := skipWhitespace_suffix s
  split at h
  · rename_i u hu
    rw [hu] at hs
    exact (scanUnsigned_suffix _ _ _ _ h).trans (suffix_of_cons_suffix _ _ _ hs)
  · rename_i u hu
    rw [hu] at hs
    exact (scanUnsigned_suffix _ _ _ _ h).trans (suffix_of_cons_suffix _ _ _ hs)
  · exact (scanUnsigned_suffix _ _ _ _ h).trans hs

theorem parseNumber_suffix (A : LongDouble α) (line : Int) (s : List Char) :
    (parseNumber A line s).rest <:+ s := by
  unfold parseNumber
  split
  · exact skipWhitespace_suffix s
  · rename_i lit e h
    exact (skipWhitespace_suffix e).trans (strtold_suffix _ _ _ h)

theorem parseIdent_suffix (A : LongDouble α) (numVars : Nat → α) (line : Int)
    (s : List Char) : (parseIdent A numVars line s).rest <:+ s := by
  have h1 : s.dropWhile isalpha <:+ s := List.dropWhile_suffix _
  have h2 := (skipWhitespace_suffix (s.dropWhile isalpha)).trans h1
  have h3 := (skipWhitespace_suffix (skipWhitespace (s.dropWhile isalpha))).trans h2
  have h4 := (skipCall_suffix (skipWhitespace (s.dropWhile isalpha))).trans h2
  unfold parseIdent
  split_ifs
  · exact h4
  · exact h3
  · exact h3

/-- Whatever the parsing functions return, the cursor they leave is a suffix
of the text they were given. -/
theorem parse_suffix_aux (A : LongDouble α) (numVars : Nat → α) (line : Int) (fuel : Nat) :
    (∀ s r, parseFactor A numVars line fuel s = some r → r.rest <:+ s) ∧
    (∀ v e s r, termLoop A numVars line fuel v e s = some r → r.rest <:+ s) ∧
    (∀ s r, parseTerm A numVars line fuel s = some r → r.rest <:+ s) ∧
    (∀ v e s r, exprLoop A numVars line fuel v e s = some r → r.rest <:+ s) ∧
    (∀ s r, parseExpression A numVars line fuel s = some r → r.rest <:+ s) := by
  induction fuel with
  | zero =>
    refine ⟨?_, ?_, ?_, ?_, ?_⟩ <;> intros <;> rename_i h <;>
      simp [parseFactor, termLoop, parseTerm, exprLoop, parseExpression] at h
  | succ n ih =>
    obtain ⟨ihF, ihTL, ihT, ihEL, ihE⟩ := ih
    refine ⟨?_, ?_, ?_, ?_, ?_⟩
    · intro s r h
      have hw := skipWhitespace_suffix s
      rw [parseFactor] at h
      split_ifs at h with h1 h2
      · cases h1e : parseExpression A numVars line n (skipWhitespace s).tail with
        | none => rw [h1e] at h; cases h
        | some r1 =>
          rw [h1e] at h
          have hr1 := ((ihE _ _ h1e).trans (List.tail_suffix _)).trans hw
          have a1 := (skipWhitespace_suffix r1.rest).trans hr1
          simp only at h
          split_ifs at h
          · cases h
            exact ((skipWhitespace_suffix _).trans (List.tail_suffix _)).trans a1
          · cases h
            exact (skipWhitespace_suffix _).trans a1
      · cases h
        exact (parseIdent_suffix A numVars line _).trans hw
      · cases h
        exact (parseNumber_suffix A line _).trans hw
    · intro v e s r h
      rw [termLoop] at h
      split_ifs at h with h1
      · cases h1e : parseFactor A numVars line n s.tail with
        | none => rw [h1e] at h; cases h
        | some r1 =>
          rw [h1e] at h
          have hr1 := (ihF _ _ h1e).trans (List.tail_suffix s)
          exact (ihTL _ _ _ _ h).trans ((skipWhitespace_suffix _).trans hr1)
      · cases h
        exact List.suffix_refl _
    · intro s r h
      rw [parseTerm] at h
      cases h1e : parseFactor A numVars line n s with
      | none => rw [h1e] at h; cases h
      | some r1 =>
        rw [h1e] at h
        exact (ihTL _ _ _ _ h).trans ((skipWhitespace_suffix _).trans (ihF _ _ h1e))
    · intro v e s r h
      rw [exprLoop] at h
      split_ifs at h with h1
      · cases h1e : parseTerm A numVars line n s.tail with
        | none => rw [h1e] at h; cases h
        | some r1 =>
          rw [h1e] at h
          have hr1 := (ihT _ _ h1e).trans (List.tail_suffix s)
          exact (ihEL _ _ _ _ h).trans ((skipWhitespace_suffix _).trans hr1)
      · cases h
        exact List.suffix_refl _
    · intro s r h
      rw [parseExpression] at h
      cases h1e : parseTerm A numVars line n s with
      | none => rw [h1e] at h; cases h
      | some r1 =>
        rw [h1e] at h
        exact (ihEL _ _ _ _ h).trans ((skipWhitespace_suffix _).trans (ihT _ _ h1e))

/-- C21. The expression evaluator is total: on every text and for every
content of the numeric variables `parseExpression` returns, at the call depth
`exprFuel s` a statement gives it and with the same result at every larger
one, and so do `parseTerm` and `parseFactor`; the cursor left is a suffix of
the text, so it is at or after the starting position and not beyond the end.
This covers the error paths on which the literal scan consumes nothing: on
`;B` the cursor stays at `;B`, on `*2` and on `1+` the end is reached, each
with `Invalid number` reported. -/
theorem evaluator_is_total (A : LongDouble α) (numVars : Nat → α) (line : Int)
    (s : List Char) :
    (∃ r, parseExpr A numVars line s = some r ∧
      (∀ fuel, exprFuel s ≤ fuel → parseExpression A numVars line fuel s = some r) ∧
      r.rest <:+ s ∧ r.rest.length ≤ s.length) ∧
    (∀ fuel, 4 * s.length + 3 ≤ fuel →
      ∃ r, parseTerm A numVars line fuel s = some r ∧ r.rest <:+ s) ∧
    (∀ fuel, 4 * s.length + 1 ≤ fuel →
      ∃ r, parseFactor A numVars line fuel s = some r ∧ r.rest <:+ s) ∧
    (parseExpr exact (fun _ => Frac.ofInt 0) 0 ";B".toList).map
        (fun r => (r.val, r.rest, r.errs)) =
      some (Frac.ofInt 0, ";B".toList, [⟨0, "Invalid number"⟩]) ∧
    (parseExpr exact (fun _ => Frac.ofInt 0) 0 "*2".toList).map
        (fun r => (r.val, r.rest, r.errs)) =
      some (Frac.ofInt 0, [], [⟨0, "Invalid number"⟩]) ∧
    (parseExpr exact (fun _ => Frac.ofInt 0) 0 "1+".toList).map
        (fun r => (r.val, r.rest, r.errs)) =
      some (Frac.ofInt 1, [], [⟨0, "Invalid number"⟩]) := by
  refine ⟨?_, ?_, ?_, by decide, by decide, by decide⟩
  · obtain ⟨r, hr, hlen⟩ := parseExpr_total A numVars line s
    refine ⟨r, hr, ?_, (parse_suffix_aux A numVars line (exprFuel s)).2.2.2.2 s r hr, hlen⟩
    intro fuel hfuel
    exact parseExpression_mono A numVars line (exprFuel s) fuel hfuel s r hr
  · intro fuel hfuel
    obtain ⟨r, hr, _⟩ := (parse_total_aux A numVars line fuel).2.2.1 s hfuel
    exact ⟨r, hr, (parse_suffix_aux A numVars line fuel).2.2.1 s r hr⟩
  · intro fuel hfuel
    obtain ⟨r, hr, _⟩ := (parse_total_aux A numVars line fuel).1 s hfuel
    exact ⟨r, hr, (parse_suffix_aux A numVars line fuel).1 s r hr⟩

theorem evaluator_is_total_witness :
    ∃ r, parseExpr exact (fun _ => Frac.ofInt 0) 0 "(1+*2;B".toList = some r ∧
      (∀ fuel, exprFuel "(1+*2;B".toList ≤ fuel →
        parseExpression exact (fun _ => Frac.ofInt 0) 0 fuel "(1+*2;B".toList = some r) ∧
      r.rest <:+ "(1+*2;B".toList ∧ r.rest.length ≤ "(1+*2;B".toList.length :=
  (evaluator_is_total exact (fun _ => Frac.ofInt 0) 0 "(1+*2;B".toList).1

end Cursor

end DotMis
